import Mathlib

/-!
# Verification development for the CTF backend (`web-server/backend`)

Shallow embedding of the token/points economy (`services/user.go`), of the challenge
handlers of `routes/routes.go`, of the access-token validation of `services/auth.go`, of
the rate limiter of `middleware/rate_limiter.go`, of the flag validation of
`services/challenges.go` and of the notifications of `services/slack.go`, followed by the
theorems proved about them.

Conventions of the embedding
* The relational store is a record of row lists, one list per table.  A statement
  executed on the store is a pure function on that record.
* Go `int` values and SQL integers are mathematical integers (`Int`).
* Instants are integers counting nanoseconds; `NOW()` and `time.Now()` are the
  parameter `now` of the operation that reads the clock.
* Every call to the database driver may fail.  An operation receives a predicate
  `fails : Nat → Bool`; `fails k` says that the `k`-th driver call of the operation
  (counted from 0 in program order) returns a driver error.
* A transaction works on a copy `tx` of the store.  `tx.Commit()` installs the copy;
  every earlier `return` runs the deferred `tx.Rollback()` and the store is left as
  it was.
-/

namespace Ctf

/-! ## Errors -/

/-- Errors of the services: `ClientError{Message}`, the errors built with `fmt.Errorf`,
and `sql.ErrNoRows` where a service hands it to its caller. -/
inductive Err where
  | client (msg : String)
  | internal (msg : String)
  | noRows
deriving DecidableEq

/-- Go `IsClientError`. -/
def IsClientError : Err → Bool
  | .client _ => true
  | .internal _ => false
  | .noRows => false

/-! ## Tables -/

/-- Row of table `users`. -/
structure UserRow where
  user_email : String
  tokens_available : Int
  tokens_burned : Int
  points_achieved : Int
  exam_challenges_solved : Int
  last_exam_challenge_solved_timestamp : Int
  last_challenge_solved_timestamp : Int
deriving DecidableEq

/-- Row of table `user_aliases`; `deleted_at = none` is SQL `NULL`. -/
structure AliasRow where
  user_email : String
  alias_ : String
  created_at : Int
  deleted_at : Option Int
deriving DecidableEq

/-- Row of table `user_challenges_completed`. -/
structure CompletedRow where
  user_email : String
  challenge_id : Int
  completed_at : Int
deriving DecidableEq

/-- Row of table `user_history_log`. -/
structure HistoryRow where
  user_email : String
  log : String
  date : Int
deriving DecidableEq

/-- Row of table `challenges`. -/
structure ChallengeRow where
  id : Int
  nested_id : Int
  name : String
  description : String
  category : String
  point_reward_amount : Int
  file_asset : Option String
  text_asset : Option String
deriving DecidableEq

/-- Row of table `flags`. -/
structure FlagRow where
  challenge_id : Int
  flag_value : String
  validation_handler : String
deriving DecidableEq

/-- The relational store reached through `*sql.DB`. -/
structure Store where
  users : List UserRow
  user_aliases : List AliasRow
  user_challenges_completed : List CompletedRow
  user_history_log : List HistoryRow
  challenges : List ChallengeRow
  flags : List FlagRow
deriving DecidableEq

/-- Modelled from the spec: the table declarations (the SQL schema) are not among the
sources.  The only schema choice the spec leaves open is whether uniqueness of
`user_aliases.alias` also counts soft-deleted rows; it is a parameter. -/
structure Schema where
  aliasUniqueCountsDeleted : Bool
deriving DecidableEq

/-- First row of `users` with the given e-mail. -/
def findUser (db : Store) (userEmail : String) : Option UserRow :=
  db.users.find? (fun r => r.user_email == userEmail)

/-- First active (not soft-deleted) alias row of the user:
`user_email = $1 AND deleted_at IS NULL`. -/
def findActiveAlias (db : Store) (userEmail : String) : Option AliasRow :=
  db.user_aliases.find? (fun a => a.user_email == userEmail && a.deleted_at.isNone)

/-- Presence of a completion record for the pair in the table rows. -/
def hasCompleted (rows : List CompletedRow) (userEmail : String) (challengeID : Int) : Bool :=
  rows.any (fun r => r.user_email == userEmail && r.challenge_id == challengeID)

/-- Modelled from the spec: the declaration of `user_challenges_completed` is not among
the sources.  The spec states that the store enforces at most one record per
(userEmail, challengeId) pair, so the plain `INSERT` of the services fails when the
pair is already present and appends the row otherwise. -/
def insertCompleted (rows : List CompletedRow) (userEmail : String) (challengeID now : Int) :
    Option (List CompletedRow) :=
  if hasCompleted rows userEmail challengeID then none
  else some (rows ++ [⟨userEmail, challengeID, now⟩])

/-- Statement `INSERT INTO user_history_log (user_email, log, date) VALUES ($1, $2, NOW())`. -/
def insertHistory (rows : List HistoryRow) (userEmail log : String) (now : Int) :
    List HistoryRow :=
  rows ++ [⟨userEmail, log, now⟩]

/-! ## Profile cache -/

/-- Go `UserProfile`. -/
structure UserProfile where
  UserEmail : String
  Alias : String
  Tokens : Int
  Points : Int
  ExamChallengesSolved : Int
  LastExamChallengeSolvedTimestamp : Int
  LastChallengeSolvedTimestamp : Int
deriving DecidableEq

/-- Go `UserClient`: the store handle and the map `cache`, kept as an association list
whose first binding of a key is the value of the map at that key. -/
structure UserClient where
  db : Store
  cache : List (String × UserProfile)
deriving DecidableEq

/-- Map read `uc.cache[userEmail]`. -/
def cacheGet (cache : List (String × UserProfile)) (userEmail : String) : Option UserProfile :=
  (cache.find? (fun e => e.1 == userEmail)).map Prod.snd

/-- Map deletion `delete(uc.cache, userEmail)`. -/
def cacheDelete (cache : List (String × UserProfile)) (userEmail : String) :
    List (String × UserProfile) :=
  cache.filter (fun e => !(e.1 == userEmail))

/-- Map write `uc.cache[userEmail] = profile`. -/
def cacheSet (cache : List (String × UserProfile)) (userEmail : String) (p : UserProfile) :
    List (String × UserProfile) :=
  (userEmail, p) :: cacheDelete cache userEmail

/-! ## `services/user.go` -/

/-- The values returned by `getUserProfileData` besides the error. -/
structure ProfileData where
  created : Bool
  alias_ : String
  tokens : Int
  points : Int
  examChallengesSolved : Int
  lastExamTimestamp : Int
  lastChallengeTimestamp : Int
deriving DecidableEq

/-- Go `getUserProfileData`.  Driver call 0 is the `SELECT` over `users` left-joined with
the active alias row, driver call 1 is the `INSERT` of the default row, executed when the
`SELECT` finds no row. -/
def getUserProfileData (db : Store) (fails : Nat → Bool) (now : Int) (userEmail : String) :
    Except Err ProfileData × Store :=
  if fails 0 then (.error (.internal "failed to query user profile data"), db) else
  match findUser db userEmail with
  | none =>
    if fails 1 then (.error (.internal "failed to create new user"), db) else
    (.ok ⟨true, "", 0, 0, 0, now, now⟩,
      { db with users := db.users ++ [⟨userEmail, 0, 0, 0, 0, now, now⟩] })
  | some u =>
    let a := match findActiveAlias db userEmail with
      | some r => r.alias_
      | none => ""
    (.ok ⟨false, a, u.tokens_available, u.points_achieved, u.exam_challenges_solved,
        u.last_exam_challenge_solved_timestamp, u.last_challenge_solved_timestamp⟩, db)

/-- Go `UserClient.GetUserProfile`: cache read, then `getUserProfileData` and cache fill. -/
def GetUserProfile (uc : UserClient) (fails : Nat → Bool) (now : Int) (userEmail : String) :
    Except Err UserProfile × UserClient :=
  match cacheGet uc.cache userEmail with
  | some profile => (.ok profile, uc)
  | none =>
    match getUserProfileData uc.db fails now userEmail with
    | (.error _, db) =>
      (.error (.internal "failed to get user profile data"), { uc with db := db })
    | (.ok d, db) =>
      let profile : UserProfile :=
        ⟨userEmail, d.alias_, d.tokens, d.points, d.examChallengesSolved,
          d.lastExamTimestamp, d.lastChallengeTimestamp⟩
      (.ok profile, { db := db, cache := cacheSet uc.cache userEmail profile })

/-- Go `unicode.IsSpace`, the set trimmed by `strings.TrimSpace`. -/
def isSpace (c : Char) : Bool :=
  c = '\t' || c = '\n' || c.toNat = 0x0B || c.toNat = 0x0C || c = '\r' || c = ' ' ||
  c.toNat = 0x85 || c.toNat = 0xA0 || c.toNat = 0x1680 ||
  (0x2000 ≤ c.toNat && c.toNat ≤ 0x200A) || c.toNat = 0x2028 || c.toNat = 0x2029 ||
  c.toNat = 0x202F || c.toNat = 0x205F || c.toNat = 0x3000

/-- Go `strings.TrimSpace`. -/
def TrimSpace (s : String) : String :=
  String.mk (((s.toList.dropWhile isSpace).reverse.dropWhile isSpace).reverse)

/-- Character class `[a-zA-Z0-9_.-]`. -/
def isAliasChar (c : Char) : Bool :=
  ('a' ≤ c && c ≤ 'z') || ('A' ≤ c && c ≤ 'Z') || ('0' ≤ c && c ≤ '9') ||
  c = '_' || c = '.' || c = '-'

/-- Match of the regular expression `^[a-zA-Z0-9_.-]+$`. -/
def validAliasRegex (s : String) : Bool :=
  !s.toList.isEmpty && s.toList.all isAliasChar

/-- Go `time.Hour`, in nanoseconds. -/
def Hour : Int := 3600000000000

/-- Result of `SELECT created_at FROM user_aliases WHERE user_email = $1
ORDER BY created_at DESC LIMIT 1`: the greatest `created_at` among the user's rows. -/
def lastAliasSetTime (db : Store) (userEmail : String) : Option Int :=
  ((db.user_aliases.filter (fun a => a.user_email == userEmail)).map
      (fun a => a.created_at)).foldl
    (fun acc t => match acc with
      | none => some t
      | some m => some (max m t)) none

/-- Violation of the unique constraint on column `alias` by giving `aliasValue` to the
row of `userEmail`: another user's row carries the same alias (a row that is active,
or any row when the constraint also counts soft-deleted rows). -/
def aliasTaken (sc : Schema) (db : Store) (userEmail aliasValue : String) : Bool :=
  db.user_aliases.any (fun a =>
    !(a.user_email == userEmail) && a.alias_ == aliasValue &&
      (sc.aliasUniqueCountsDeleted || a.deleted_at.isNone))

/-- Statement `INSERT INTO user_aliases ... ON CONFLICT (user_email) DO UPDATE SET
alias = EXCLUDED.alias, created_at = NOW(), deleted_at = NULL`. -/
def upsertAlias (rows : List AliasRow) (userEmail aliasValue : String) (now : Int) :
    List AliasRow :=
  if rows.any (fun a => a.user_email == userEmail) then
    rows.map (fun a =>
      if a.user_email == userEmail then
        { a with alias_ := aliasValue, created_at := now, deleted_at := none }
      else a)
  else
    rows ++ [⟨userEmail, aliasValue, now, none⟩]

/-- Go `UserClient.SetAlias`.  `isProfane` is `goaway.IsProfane`.  Driver calls:
0 `BeginTx`, 1 the alias-history `SELECT`, 2 the upsert, 3 the history `INSERT`,
4 `Commit`. -/
def SetAlias (sc : Schema) (isProfane : String → Bool) (uc : UserClient) (fails : Nat → Bool)
    (now : Int) (userEmail : String) (aliasArg : String) : Option Err × UserClient :=
  let aliasValue := TrimSpace aliasArg
  if aliasValue = "" then (some (.client "Alias cannot be empty"), uc) else
  if aliasValue.utf8ByteSize > 24 then
    (some (.client "Alias cannot be longer than 24 characters"), uc) else
  if !validAliasRegex aliasValue then
    (some (.client
      "Alias can only contain letters, numbers, underscores, hyphens, and periods"), uc) else
  if isProfane aliasValue then
    (some (.client ("Alias not allowed: " ++ aliasValue)), uc) else
  if fails 0 then (some (.internal "failed to begin transaction"), uc) else
  let tx := uc.db
  if fails 1 then (some (.internal "failed to check alias history"), uc) else
  let tooSoon : Option Int := match lastAliasSetTime tx userEmail with
    | some t => if now - t < 24 * Hour then some (24 - Int.tdiv (now - t) Hour) else none
    | none => none
  match tooSoon with
  | some hoursRemaining =>
    (some (.client ("You can only set an alias once per day. Try again in " ++
      toString hoursRemaining ++ " hours")), uc)
  | none =>
  if fails 2 then (some (.internal "failed to set alias"), uc) else
  if aliasTaken sc tx userEmail aliasValue then (some (.client "Alias already taken"), uc) else
  let tx := { tx with user_aliases := upsertAlias tx.user_aliases userEmail aliasValue now }
  if fails 3 then (some (.internal "failed to log alias change"), uc) else
  let tx := { tx with user_history_log :=
    (insertHistory tx.user_history_log userEmail ("Set alias to '" ++ aliasValue ++ "'") now) }
  if fails 4 then (some (.internal "failed to commit transaction"), uc) else
  (none, { db := tx, cache := cacheDelete uc.cache userEmail })

/-- Statement `UPDATE user_aliases SET deleted_at = NOW()
WHERE user_email = $1 AND deleted_at IS NULL`. -/
def softDeleteAlias (rows : List AliasRow) (userEmail : String) (now : Int) : List AliasRow :=
  rows.map (fun a =>
    if a.user_email == userEmail && a.deleted_at.isNone then
      { a with deleted_at := some now }
    else a)

/-- Number of rows the statement of `softDeleteAlias` affects. -/
def softDeleteAliasRows (rows : List AliasRow) (userEmail : String) : Nat :=
  (rows.filter (fun a => a.user_email == userEmail && a.deleted_at.isNone)).length

/-- Go `UserClient.RemoveAlias`.  Driver calls: 0 `BeginTx`, 1 the `SELECT` of the active
alias, 2 the soft-deleting `UPDATE`, 3 `RowsAffected`, 4 the history `INSERT`, 5 `Commit`. -/
def RemoveAlias (uc : UserClient) (fails : Nat → Bool) (now : Int) (userEmail : String) :
    Option Err × UserClient :=
  if fails 0 then (some (.internal "failed to begin transaction"), uc) else
  let tx := uc.db
  if fails 1 then (some (.internal "failed to check existing alias"), uc) else
  match findActiveAlias tx userEmail with
  | none => (some (.client "No alias found to remove"), uc)
  | some row =>
  let currentAlias := row.alias_
  if fails 2 then (some (.internal "failed to remove alias"), uc) else
  let rowsAffected := softDeleteAliasRows tx.user_aliases userEmail
  let tx := { tx with user_aliases := softDeleteAlias tx.user_aliases userEmail now }
  if fails 3 then (some (.internal "failed to check rows affected"), uc) else
  if rowsAffected = 0 then (some (.client "No alias found to remove"), uc) else
  if fails 4 then (some (.internal "failed to log alias removal"), uc) else
  let tx := { tx with user_history_log :=
    (insertHistory tx.user_history_log userEmail ("Removed alias '" ++ currentAlias ++ "'") now) }
  if fails 5 then (some (.internal "failed to commit transaction"), uc) else
  (none, { db := tx, cache := cacheDelete uc.cache userEmail })

/-- Statement of `CompleteExamChallenge` on `users`:
`INSERT ... VALUES ($1, 1, 0, 0, 1, NOW(), NOW()) ON CONFLICT (user_email) DO UPDATE SET
tokens_available = users.tokens_available + 1,
exam_challenges_solved = users.exam_challenges_solved + 1,
last_exam_challenge_solved_timestamp = NOW()`. -/
def upsertExamCompletion (rows : List UserRow) (userEmail : String) (now : Int) :
    List UserRow :=
  if rows.any (fun r => r.user_email == userEmail) then
    rows.map (fun r =>
      if r.user_email == userEmail then
        { r with tokens_available := r.tokens_available + 1,
                 exam_challenges_solved := r.exam_challenges_solved + 1,
                 last_exam_challenge_solved_timestamp := now }
      else r)
  else
    rows ++ [⟨userEmail, 1, 0, 0, 1, now, now⟩]

/-- Go `UserClient.CompleteExamChallenge`.  Driver calls: 0 `BeginTx`, 1 the upsert on
`users`, 2 the completion `INSERT`, 3 the history `INSERT`, 4 `Commit`. -/
def CompleteExamChallenge (uc : UserClient) (fails : Nat → Bool) (now : Int)
    (userEmail : String) (challengeID : Int) : Option Err × UserClient :=
  if fails 0 then (some (.internal "failed to begin transaction"), uc) else
  let tx := uc.db
  if fails 1 then (some (.internal "failed to complete exam challenge"), uc) else
  let tx := { tx with users := upsertExamCompletion tx.users userEmail now }
  if fails 2 then (some (.internal "failed to record challenge completion"), uc) else
  match insertCompleted tx.user_challenges_completed userEmail challengeID now with
  | none => (some (.internal "failed to record challenge completion"), uc)
  | some rows =>
  let tx := { tx with user_challenges_completed := rows }
  if fails 3 then (some (.internal "failed to log exam challenge completion"), uc) else
  let tx := { tx with user_history_log := (insertHistory tx.user_history_log userEmail
    ("Completed exam challenge " ++ toString challengeID ++ ": added 1 token") now) }
  if fails 4 then (some (.internal "failed to commit transaction"), uc) else
  (none, { db := tx, cache := cacheDelete uc.cache userEmail })

/-- Statement of `CompleteChallenge` on `users`:
`INSERT ... VALUES ($1, 1, 0, $2, 0, NOW(), NOW()) ON CONFLICT (user_email) DO UPDATE SET
tokens_available = users.tokens_available + 1,
points_achieved = users.points_achieved + $2, last_challenge_solved_timestamp = NOW()`. -/
def upsertCompletion (rows : List UserRow) (userEmail : String) (pointAmount now : Int) :
    List UserRow :=
  if rows.any (fun r => r.user_email == userEmail) then
    rows.map (fun r =>
      if r.user_email == userEmail then
        { r with tokens_available := r.tokens_available + 1,
                 points_achieved := r.points_achieved + pointAmount,
                 last_challenge_solved_timestamp := now }
      else r)
  else
    rows ++ [⟨userEmail, 1, 0, pointAmount, 0, now, now⟩]

/-- Go `UserClient.CompleteChallenge`.  Driver calls: 0 `BeginTx`, 1 the upsert on `users`,
2 the completion `INSERT`, 3 the history `INSERT`, 4 `Commit`. -/
def CompleteChallenge (uc : UserClient) (fails : Nat → Bool) (now : Int)
    (userEmail : String) (pointAmount : Int) (challengeID : Int) : Option Err × UserClient :=
  if fails 0 then (some (.internal "failed to begin transaction"), uc) else
  let tx := uc.db
  if fails 1 then (some (.internal "failed to add token and points to user"), uc) else
  let tx := { tx with users := upsertCompletion tx.users userEmail pointAmount now }
  if fails 2 then (some (.internal "failed to record challenge completion"), uc) else
  match insertCompleted tx.user_challenges_completed userEmail challengeID now with
  | none => (some (.internal "failed to record challenge completion"), uc)
  | some rows =>
  let tx := { tx with user_challenges_completed := rows }
  if fails 3 then (some (.internal "failed to log challenge completion"), uc) else
  let tx := { tx with user_history_log := (insertHistory tx.user_history_log userEmail
    ("Completed challenge " ++ toString challengeID ++ ": added 1 token and " ++
      toString pointAmount ++ " points") now) }
  if fails 4 then (some (.internal "failed to commit transaction"), uc) else
  (none, { db := tx, cache := cacheDelete uc.cache userEmail })

/-- Rows matched by `WHERE user_email = $1 AND tokens_available >= 1`. -/
def burnable (userEmail : String) (r : UserRow) : Bool :=
  r.user_email == userEmail && decide (1 ≤ r.tokens_available)

/-- Statement `UPDATE users SET tokens_available = tokens_available - 1,
tokens_burned = tokens_burned + 1 WHERE user_email = $1 AND tokens_available >= 1`. -/
def burnUpdate (rows : List UserRow) (userEmail : String) : List UserRow :=
  rows.map (fun r =>
    if burnable userEmail r then
      { r with tokens_available := r.tokens_available - 1,
               tokens_burned := r.tokens_burned + 1 }
    else r)

/-- Go `UserClient.BurnToken`.  Driver calls: 0 `BeginTx`, 1 the `UPDATE ... RETURNING`
(`sql.ErrNoRows` when no row matches), 2 the history `INSERT`, 3 `Commit`. -/
def BurnToken (uc : UserClient) (fails : Nat → Bool) (now : Int)
    (userEmail : String) (challengeID : Int) : (Int × Option Err) × UserClient :=
  if fails 0 then ((0, some (.internal "failed to begin transaction")), uc) else
  let tx := uc.db
  if fails 1 then ((0, some (.internal "failed to burn token from user")), uc) else
  if !tx.users.any (burnable userEmail) then ((0, none), uc) else
  let tx := { tx with users := burnUpdate tx.users userEmail }
  if fails 2 then ((0, some (.internal "failed to log token burn")), uc) else
  let tx := { tx with user_history_log := (insertHistory tx.user_history_log userEmail
    ("Burned 1 token for exam challenge " ++ toString challengeID) now) }
  if fails 3 then ((0, some (.internal "failed to commit transaction")), uc) else
  ((1, none), { db := tx, cache := cacheDelete uc.cache userEmail })

/-- Rows matched by `WHERE user_email = $1 AND tokens_burned >= 1`. -/
def refundable (userEmail : String) (r : UserRow) : Bool :=
  r.user_email == userEmail && decide (1 ≤ r.tokens_burned)

/-- Statement `UPDATE users SET tokens_available = tokens_available + 1,
tokens_burned = tokens_burned - 1 WHERE user_email = $1 AND tokens_burned >= 1`. -/
def refundUpdate (rows : List UserRow) (userEmail : String) : List UserRow :=
  rows.map (fun r =>
    if refundable userEmail r then
      { r with tokens_available := r.tokens_available + 1,
               tokens_burned := r.tokens_burned - 1 }
    else r)

/-- Go `UserClient.RefundToken`.  Driver calls: 0 `BeginTx`, 1 the `UPDATE`,
2 `RowsAffected`, 3 the history `INSERT`, 4 `Commit`. -/
def RefundToken (uc : UserClient) (fails : Nat → Bool) (now : Int)
    (userEmail : String) (challengeID : Int) : Option Err × UserClient :=
  if fails 0 then (some (.internal "failed to begin transaction"), uc) else
  let tx := uc.db
  if fails 1 then (some (.internal "failed to refund token for user"), uc) else
  let rowsAffected := (tx.users.filter (refundable userEmail)).length
  let tx := { tx with users := refundUpdate tx.users userEmail }
  if fails 2 then
    (some (.internal "failed to get rows affected for token refund"), uc) else
  if rowsAffected = 0 then
    (some (.internal ("no tokens to refund for user " ++ userEmail)), uc) else
  if fails 3 then (some (.internal "failed to log token refund"), uc) else
  let tx := { tx with user_history_log := (insertHistory tx.user_history_log userEmail
    ("Refunded 1 token for exam challenge " ++ toString challengeID) now) }
  if fails 4 then (some (.internal "failed to commit transaction"), uc) else
  (none, { db := tx, cache := cacheDelete uc.cache userEmail })

/-- No driver call fails. -/
def noFaults : Nat → Bool := fun _ => false

/-! ## `services/challenges.go`: store reads and flag sanitising -/

/-- Go `ChallengeClient.CheckUserCompletedChallenge`; `fault` is a driver error of the
query.  `time.Unix(0, 0)` is the instant 0. -/
def CheckUserCompletedChallenge (db : Store) (fault : Bool) (userEmail : String)
    (challengeID : Int) : Except Err (Bool × Int) :=
  if fault then .error (.internal "driver error") else
  match db.user_challenges_completed.find?
      (fun r => r.user_email == userEmail && r.challenge_id == challengeID) with
  | some r => .ok (true, r.completed_at)
  | none => .ok (false, 0)

/-- The values returned by `GetChallengeFlagAndReward` besides the error. -/
structure FlagAndReward where
  flagValue : String
  pointRewardAmount : Int
  validationHandler : String
  challengeName : String
  category : String
deriving DecidableEq

/-- Go `ChallengeClient.GetChallengeFlagAndReward`: the first row of `challenges` joined
with `flags` for the id; `sql.ErrNoRows` when the join is empty; `fault` is another
driver error of the query. -/
def GetChallengeFlagAndReward (db : Store) (fault : Bool) (challengeID : Int) :
    Except Err FlagAndReward :=
  if fault then .error (.internal "driver error") else
  match db.challenges.find? (fun c => c.id == challengeID),
        db.flags.find? (fun f => f.challenge_id == challengeID) with
  | some c, some f =>
    .ok ⟨f.flag_value, c.point_reward_amount, f.validation_handler, c.name, c.category⟩
  | _, _ => .error .noRows

/-- Go `ChallengeClient.SanitizeFlag`. -/
def SanitizeFlag (flag : String) : Except String String :=
  let flag := TrimSpace flag
  if flag = "" then .error "Flag cannot be empty" else
  if flag.toList.any (fun r => r.toNat < 32 || r.toNat > 126) then
    .error "Only ASCII printable characters are allowed"
  else .ok flag

/-! ## `routes/routes.go`: the exam handlers -/

/-- Go `strconv.Atoi`: optional sign, decimal digits, value within the 64-bit range. -/
def Atoi (s : String) : Option Int :=
  let cs := s.toList
  let ds := if cs.head? = some '-' ∨ cs.head? = some '+' then cs.tail else cs
  if ds.isEmpty || !ds.all Char.isDigit then none else
  let n : Int := ds.foldl (fun acc c => acc * 10 + ((c.toNat - 48 : Nat) : Int)) 0
  let v := if cs.head? = some '-' then -n else n
  if v < -9223372036854775808 ∨ 9223372036854775807 < v then none else some v

/-- Go `validateChallengeID`. -/
def validateChallengeID (id : String) : Except String Int :=
  match Atoi (TrimSpace id) with
  | none => .error "invalid challenge ID format"
  | some challengeID =>
    if challengeID ≤ 0 ∨ challengeID > 128 then .error "challenge ID out of valid range"
    else .ok challengeID

/-- Go `DetailedChallenge`. -/
structure DetailedChallenge where
  ID : Int
  NestedID : Int
  Name : String
  Description : String
  Category : String
  PointRewardAmount : Int
  FileAsset : Option String
  TextAsset : Option String
  Completed : Bool
deriving DecidableEq

/-- JSON object written by the submission handlers; an absent key is `none`. -/
structure SubmitBody where
  message : String
  completed_at : Option Int
  tokens_burned : Option Int
  tokens_earned : Option Int
  points_earned : Option Int
deriving DecidableEq

/-- What a handler writes to the `http.ResponseWriter`: `http.Error(w, text, status)`,
`utility.SendJSONError(w, message, status)`, or a JSON body with status 200.  Encoding
the body onto the connection is taken to succeed. -/
inductive Response where
  | error (status : Nat) (text : String)
  | jsonError (status : Nat) (message : String)
  | challenge (c : DetailedChallenge)
  | submit (body : SubmitBody)
deriving DecidableEq

/-- The constant `internalError` with its status. -/
def internalError : Response := .error 500 "Internal Error"

/-- The constant `notFoundError` with its status. -/
def notFoundError : Response := .error 404 "Not Found"

/-- Row selected by `WHERE c.category = 'exam' AND c.nested_id = $1`. -/
def findExamChallenge (db : Store) (nestedID : Int) : Option ChallengeRow :=
  db.challenges.find? (fun c => c.category == "exam" && c.nested_id == nestedID)

/-- Go `GetExamChallenge`.  `user` is the result of `GetUserFromContext`, `id` the path
variable, `pfails` the driver faults met by `GetUserProfile`, `qfault` a driver error of
the challenge query, `getAsset` the answer of `AssetService.GetAsset`. -/
def GetExamChallenge (uc : UserClient) (getAsset : String → Option String)
    (pfails : Nat → Bool) (qfault : Bool) (now : Int) (user : Option String) (id : String) :
    Response × UserClient :=
  match user with
  | none => (internalError, uc)
  | some userEmail =>
  match validateChallengeID id with
  | .error _ => (.jsonError 400 "Invalid Request", uc)
  | .ok nestedID =>
  match GetUserProfile uc pfails now userEmail with
  | (.error _, uc) => (internalError, uc)
  | (.ok profile, uc) =>
  let maxAllowedNestedID := profile.ExamChallengesSolved + 1
  if nestedID > maxAllowedNestedID then (notFoundError, uc) else
  if qfault then (internalError, uc) else
  match findExamChallenge uc.db nestedID with
  | none => (notFoundError, uc)
  | some c =>
  let challenge : DetailedChallenge :=
    ⟨c.nested_id, c.nested_id, c.name, c.description, c.category, c.point_reward_amount,
      c.file_asset, c.text_asset, hasCompleted uc.db.user_challenges_completed userEmail c.id⟩
  match challenge.FileAsset with
  | none => (.challenge challenge, uc)
  | some path =>
    if path = "" then (.challenge challenge, uc) else
    match getAsset path with
    | none => (internalError, uc)
    | some presignedURL => (.challenge { challenge with FileAsset := some presignedURL }, uc)

/-- Driver faults met by the calls of `SubmitExamChallenge`, one field per call site. -/
structure SubmitFaults where
  profile : Nat → Bool
  lookup : Bool
  check : Bool
  burn : Nat → Bool
  fetch : Bool
  logWrong : Bool
  complete : Nat → Bool
  refund : Nat → Bool

/-- Go `SubmitExamChallenge`.  `user` is the result of `GetUserFromContext`, `id` the path
variable, `body` the decoded `flag` of the request (`none` when decoding fails),
`validateFlag` stands for `ChallengeClient.ValidateFlag`.  The Slack notifications do not
touch the client state and are left out. -/
def SubmitExamChallenge (uc : UserClient)
    (validateFlag : String → String → String → String → Bool × String)
    (f : SubmitFaults) (now : Int) (user : Option String) (id : String)
    (body : Option String) : Response × UserClient :=
  match user with
  | none => (internalError, uc)
  | some userEmail =>
  match validateChallengeID id with
  | .error _ => (.error 400 "Invalid Request", uc)
  | .ok nestedID =>
  match body with
  | none => (.jsonError 400 "Invalid Request", uc)
  | some flag =>
  match SanitizeFlag flag with
  | .error msg => (.jsonError 400 msg, uc)
  | .ok flag =>
  match GetUserProfile uc f.profile now userEmail with
  | (.error _, uc) => (internalError, uc)
  | (.ok profile, uc) =>
  let maxAllowedNestedID := profile.ExamChallengesSolved + 1
  if nestedID > maxAllowedNestedID then (notFoundError, uc) else
  if f.lookup then (internalError, uc) else
  match findExamChallenge uc.db nestedID with
  | none => (notFoundError, uc)
  | some row =>
  let globalChallengeID := row.id
  match CheckUserCompletedChallenge uc.db f.check userEmail globalChallengeID with
  | .error _ => (internalError, uc)
  | .ok (true, completedAt) =>
    (.submit ⟨"Challenge already completed", some completedAt, some 0, none, none⟩, uc)
  | .ok (false, _) =>
  match BurnToken uc f.burn now userEmail globalChallengeID with
  | ((_, some _), uc) => (internalError, uc)
  | ((tokensBurned, none), uc) =>
  if tokensBurned = 0 then
    (.submit ⟨"Insufficient tokens. Each exam submission costs 1 token.",
      none, none, none, none⟩, uc) else
  match GetChallengeFlagAndReward uc.db f.fetch globalChallengeID with
  | .error err =>
    let uc := (RefundToken uc f.refund now userEmail globalChallengeID).2
    if err = .noRows then (notFoundError, uc) else (internalError, uc)
  | .ok fr =>
  let (isValid, customIncorrectMessage) :=
    validateFlag flag fr.flagValue fr.validationHandler userEmail
  if !isValid then
    let db := if f.logWrong then uc.db else
      { uc.db with user_history_log := (insertHistory uc.db.user_history_log userEmail
          ("Wrong flag attempt for exam challenge " ++ toString nestedID ++ ": " ++ flag) now) }
    let errorMessage := if customIncorrectMessage ≠ "" then customIncorrectMessage
      else "Incorrect flag"
    (.submit ⟨errorMessage, none, some 1, none, none⟩, { uc with db := db })
  else
  match CompleteExamChallenge uc f.complete now userEmail globalChallengeID with
  | (some _, uc) =>
    let uc := (RefundToken uc f.refund now userEmail globalChallengeID).2
    (internalError, uc)
  | (none, uc) =>
    (.submit ⟨"Exam challenge completed successfully!", none, some 1, some 1, some 0⟩, uc)

/-! ## `services/auth.go` -/

/-- Go `User`. -/
structure User where
  Email : String
deriving DecidableEq

/-- The fields of `config.AuthConfig` read by the token validation; the TTL is a
`time.Duration` in nanoseconds. -/
structure AuthConfig where
  ExpectedVerifiedAccessInstanceARN : String
  ExpectedIssuer : String
  AWSRegion : String
  PublicKeyCacheTTL : Int
deriving DecidableEq

/-- Go `cachedPublicKey`, over the key type `Key` (`*ecdsa.PublicKey`). -/
structure cachedPublicKey (Key : Type) where
  publicKey : Key
  expiresAt : Int
deriving DecidableEq

/-- Go `AuthClient`: configuration and the map `publicKeyCache`, kept as an association
list whose first binding of a key is the value of the map at that key. -/
structure AuthClient (Key : Type) where
  config : AuthConfig
  publicKeyCache : List (String × cachedPublicKey Key)
deriving DecidableEq

/-- The anonymous header struct decoded by `ValidateAccessToken`. -/
structure JwtHeader where
  Alg : String
  Kid : String
  Signer : String
  Iss : String
  Exp : Int
deriving DecidableEq

/-- A decoded JSON value as stored in `jwt.MapClaims`. -/
inductive JsonValue where
  | str (s : String)
  | bool (b : Bool)
  | other
deriving DecidableEq

/-- What `jwt.Parser.ParseUnverified` extracts from a compact token: the name of the
signing method selected by the `alg` header, the claims, the signing string (the first
two segments) and the decoded signature. -/
structure UnverifiedToken where
  alg : String
  claims : List (String × JsonValue)
  signingString : String
  signature : String
deriving DecidableEq

/-- Go `jwt.Token` as used after `jwt.Parse`. -/
structure Token where
  alg : String
  Claims : List (String × JsonValue)
  Valid : Bool
deriving DecidableEq

/-- The world outside the repository that the token validation calls: the clock (read
once at the cache check and once when a fetched key is stored), `http.Get` (`none` for a
transport error, otherwise the status code and the body, `none` when reading it fails),
`jwt.ParseECPublicKeyFromPEM`, `base64.RawURLEncoding.DecodeString`, `json.Unmarshal` into
the header struct, and the primitives of `jwt.Parse`: `ParseUnverified`, the `Verify` of
the signing method named by `alg`, and the validation of the registered claims. -/
structure AuthEnv (Key : Type) where
  now : Int
  nowStore : Int
  httpGet : String → Option (Nat × Option String)
  ParseECPublicKeyFromPEM : String → Option Key
  base64Decode : String → Option String
  unmarshalHeader : String → Option JwtHeader
  parseUnverified : String → Option UnverifiedToken
  verify : String → String → String → Key → Bool
  validateClaims : List (String × JsonValue) → Bool

/-- Go `time.Minute`, in nanoseconds. -/
def Minute : Int := 60000000000

/-- Map read `a.publicKeyCache[cacheKey]`. -/
def keyCacheGet {Key : Type} (cache : List (String × cachedPublicKey Key)) (cacheKey : String) :
    Option (cachedPublicKey Key) :=
  (cache.find? (fun e => e.1 == cacheKey)).map Prod.snd

/-- Map write `a.publicKeyCache[cacheKey] = v`. -/
def keyCacheSet {Key : Type} (cache : List (String × cachedPublicKey Key)) (cacheKey : String)
    (v : cachedPublicKey Key) : List (String × cachedPublicKey Key) :=
  (cacheKey, v) :: cache.filter (fun e => !(e.1 == cacheKey))

/-- Go `AuthClient.getPublicKey`. -/
def getPublicKey {Key : Type} (env : AuthEnv Key) (a : AuthClient Key) (region kid : String) :
    Except String Key × AuthClient Key :=
  let cacheKey := region ++ ":" ++ kid
  let hit : Option Key := match keyCacheGet a.publicKeyCache cacheKey with
    | some cached => if env.now < cached.expiresAt then some cached.publicKey else none
    | none => none
  match hit with
  | some publicKey => (.ok publicKey, a)
  | none =>
  let url := "https://public-keys.prod.verified-access." ++ region ++ ".amazonaws.com/" ++ kid
  match env.httpGet url with
  | none => (.error "failed to fetch AWS VA public key", a)
  | some (status, body) =>
  if status ≠ 200 then (.error ("failed to fetch public key: HTTP " ++ toString status), a) else
  match body with
  | none => (.error "failed to read public key", a)
  | some publicKeyBytes =>
  match env.ParseECPublicKeyFromPEM publicKeyBytes with
  | none => (.error "failed to parse public key", a)
  | some publicKey =>
  let cacheTTL := if a.config.PublicKeyCacheTTL = 0 then 1 * Minute
    else a.config.PublicKeyCacheTTL
  (.ok publicKey, { a with publicKeyCache :=
    (keyCacheSet a.publicKeyCache cacheKey ⟨publicKey, env.nowStore + cacheTTL⟩) })

/-- Segments of a character list between the dots. -/
def splitOnDot : List Char → List (List Char)
  | [] => [[]]
  | c :: cs =>
    match splitOnDot cs with
    | [] => [[]]
    | p :: ps => if c = '.' then [] :: p :: ps else (c :: p) :: ps

/-- Go `strings.Split(s, ".")`. -/
def Split (s : String) : List String := (splitOnDot s.toList).map String.mk

/-- Library call `jwt.Parse(tokenString, keyFunc)` of golang-jwt: parse without
verifying, ask `keyFunc` for the key, verify the signature over the signing string with
the method named by `alg`, validate the registered claims, and only then mark the token
valid. -/
def jwtParse {Key : Type} (env : AuthEnv Key) (tokenString : String)
    (keyFunc : UnverifiedToken → Except String Key) : Except String Token :=
  match env.parseUnverified tokenString with
  | none => .error "token is malformed"
  | some t =>
  match keyFunc t with
  | .error e => .error ("error while executing keyfunc: " ++ e)
  | .ok key =>
  if !env.verify t.alg t.signingString t.signature key then
    .error "token signature is invalid" else
  if !env.validateClaims t.claims then .error "token has invalid claims" else
  .ok ⟨t.alg, t.claims, true⟩

/-- Value of `claims[name]` in a `jwt.MapClaims`. -/
def claimGet (claims : List (String × JsonValue)) (name : String) : Option JsonValue :=
  (claims.find? (fun e => e.1 == name)).map Prod.snd

/-- Go `AuthClient.ValidateAccessToken`. -/
def ValidateAccessToken {Key : Type} (env : AuthEnv Key) (a : AuthClient Key)
    (accessToken : String) : Except String User × AuthClient Key :=
  if accessToken = "" then (.error "blank access token", a) else
  let parts := Split accessToken
  if parts.length ≠ 3 then (.error "invalid JWT format", a) else
  match env.base64Decode (parts.getD 0 "") with
  | none => (.error "invalid JWT header", a)
  | some headerBytes =>
  match env.unmarshalHeader headerBytes with
  | none => (.error "failed to parse JWT header", a)
  | some header =>
  let expectedSigner := a.config.ExpectedVerifiedAccessInstanceARN
  if expectedSigner = "" ∨ header.Signer ≠ expectedSigner then (.error "invalid signer", a) else
  let expectedIssuer := a.config.ExpectedIssuer
  if expectedIssuer = "" ∨ header.Iss ≠ expectedIssuer then (.error "invalid issuer", a) else
  let region := a.config.AWSRegion
  if region = "" then (.error "invalid AWS region", a) else
  if header.Kid = "" then (.error "invalid kid", a) else
  match getPublicKey env a region header.Kid with
  | (.error err, a) => (.error err, a)
  | (.ok publicKey, a) =>
  match jwtParse env accessToken (fun token =>
      if token.alg ≠ "ES384" then .error "unexpected signing algorithm" else .ok publicKey) with
  | .error err => (.error ("failed to verify JWT: " ++ err), a)
  | .ok token =>
  if !token.Valid then (.error "invalid JWT token", a) else
  match claimGet token.Claims "email" with
  | some (.str emailClaim) =>
    if emailClaim = "" then (.error "no email found in JWT claims", a)
    else (.ok ⟨emailClaim⟩, a)
  | _ => (.error "no email found in JWT claims", a)

/-! ## `middleware/rate_limiter.go`

The token bucket is embedded twice. In the first embedding `float64` values
(`RequestsPerSec`, `Tokens`, elapsed seconds) are exact rationals: it follows the
arithmetic the code writes down and leaves rounding out. The theorems on the store of
buckets, on the bounds of `Tokens` and on bursts at one clock reading, whose operations
add 0 and subtract 1, are stated on it. The second embedding, in the section on
`float64` arithmetic below, rounds every operation as Go does; the theorems on the
refilled value and on the steady rate are stated on it. -/

/-- Go `config.RateLimitConfig`; durations in nanoseconds. -/
structure RateLimitConfig where
  Enabled : Bool
  RequestsPerSec : ℚ
  BurstSize : Int
  WindowSize : Int
  CleanupInterval : Int
  MaxClients : Int
deriving DecidableEq

/-- Go `ClientInfo`. -/
structure ClientInfo where
  Tokens : ℚ
  LastRefill : Int
  BurstTokens : Int
  LastRequest : Int
deriving DecidableEq

/-- Go `RateLimiter`: the configuration and the `lru.Cache`, kept as the list of its
entries from the most recently used to the least recently used one. -/
structure RateLimiter where
  config : RateLimitConfig
  cache : List (String × ClientInfo)
deriving DecidableEq

/-- Library call `lru.Cache.Get`: the value of the key, which becomes the most recently
used entry. -/
def lruGet (cache : List (String × ClientInfo)) (key : String) :
    Option ClientInfo × List (String × ClientInfo) :=
  match cache.find? (fun e => e.1 == key) with
  | some e => (some e.2, e :: cache.filter (fun x => !(x.1 == key)))
  | none => (none, cache)

/-- Library call `lru.Cache.Add` on a cache of capacity `size`: an existing key gets the
value and becomes the most recently used entry; a new key is put in front and, when the
cache then exceeds its capacity, the least recently used entry is removed. -/
def lruAdd (size : Int) (cache : List (String × ClientInfo)) (key : String)
    (value : ClientInfo) : List (String × ClientInfo) :=
  if cache.any (fun e => e.1 == key) then
    (key, value) :: cache.filter (fun x => !(x.1 == key))
  else if ((cache.length + 1 : Nat) : Int) > size then ((key, value) :: cache).dropLast
  else (key, value) :: cache

/-- Go `NewRateLimiter`; `none` is the panic raised when `lru.New` rejects a capacity
that is not positive. -/
def NewRateLimiter (cfg : RateLimitConfig) : Option RateLimiter :=
  if cfg.MaxClients ≤ 0 then none else some ⟨cfg, []⟩

/-- Go `RateLimiter.refillTokens`, with `now` the reading of `time.Now()`. -/
def refillTokens (rl : RateLimiter) (now : Int) (clientKey : String) : RateLimiter :=
  match lruGet rl.cache clientKey with
  | (none, cache) =>
    let client : ClientInfo := ⟨rl.config.RequestsPerSec, now, rl.config.BurstSize, now⟩
    { rl with cache := lruAdd rl.config.MaxClients cache clientKey client }
  | (some client, cache) =>
    let elapsed : ℚ := ((now - client.LastRefill : Int) : ℚ) / 1000000000
    let tokensToAdd := elapsed * rl.config.RequestsPerSec
    let tokens := client.Tokens + tokensToAdd
    let maxTokens : ℚ := (rl.config.BurstSize : ℚ)
    let tokens := if tokens > maxTokens then maxTokens else tokens
    let client := { client with Tokens := tokens, LastRefill := now, LastRequest := now }
    { rl with cache := lruAdd rl.config.MaxClients cache clientKey client }

/-- Go `RateLimiter.consumeToken`. -/
def consumeToken (rl : RateLimiter) (clientKey : String) : Bool × RateLimiter :=
  match lruGet rl.cache clientKey with
  | (none, cache) => (false, { rl with cache := cache })
  | (some client, cache) =>
    if client.Tokens < 1 then (false, { rl with cache := cache }) else
    let client := { client with Tokens := client.Tokens - 1 }
    (true, { rl with cache := lruAdd rl.config.MaxClients cache clientKey client })

/-- One admission as made by `RateLimitMiddleware` and `UserRateLimitMiddleware`:
`refillTokens` followed by `consumeToken` for the same key; `true` lets the request
through. -/
def admission (rl : RateLimiter) (now : Int) (clientKey : String) : Bool × RateLimiter :=
  consumeToken (refillTokens rl now clientKey) clientKey

/-- Admissions of one key at the given clock readings, in order: the decisions and the
final limiter. -/
def admissions (rl : RateLimiter) (clientKey : String) : List Int → List Bool × RateLimiter
  | [] => ([], rl)
  | now :: rest =>
    let r := admission rl now clientKey
    let rs := admissions r.2 clientKey rest
    (r.1 :: rs.1, rs.2)

/-! ### `float64` arithmetic of the token bucket

The embedding above computes with exact rationals. The definitions below repeat
`refillTokens` and `consumeToken` with the arithmetic of Go: a `float64` is the rational
it denotes, and every conversion and operation returns the nearest binary64 value, ties
to the even significand. Infinities and NaN are not represented: `float64` rounds a
magnitude above the largest finite binary64 value with the same 53 bits. For a bucket
with `Tokens >= 0`, a clock that does not run backwards and a rate that is not negative,
a sum that large exceeds `float64(BurstSize)`, as the infinity of Go does, and the cap
replaces both; the theorems on the refilled value carry these three conditions. -/

/-- Rounding of a rational to the nearest integer, ties to the even one. -/
def roundHalfEven (x : ℚ) : Int :=
  let f := ⌊x⌋
  let r := x - f
  if r < 1 / 2 then f
  else if 1 / 2 < r then f + 1
  else if f % 2 = 0 then f else f + 1

/-- Exponent of the last place of the binary64 values next to `q`: 52 below the binade
`⌊log₂ |q|⌋` for a normal magnitude, and `-1074` from the smallest normal binade
`-1022` down (subnormal values). For `q = 0` the binade is taken as 0; the rounding of 0
is 0 for every exponent. -/
def ulpExponent (q : ℚ) : Int := max (Int.log 2 |q|) (-1022) - 52

/-- Go conversion `float64(x)`, and the rounding of the result of every `float64`
operation: the multiple of `2 ^ ulpExponent q` nearest to `q`, ties to the even
significand. -/
def float64 (q : ℚ) : ℚ := (roundHalfEven (q / 2 ^ ulpExponent q) : ℚ) * 2 ^ ulpExponent q

/-- Library call `time.Time.Sub` on clock readings in nanoseconds: the difference as a
`time.Duration`, which is the largest or the smallest `int64` when the difference is out
of range. -/
def Time.Sub (t u : Int) : Int :=
  if t - u > 9223372036854775807 then 9223372036854775807
  else if t - u < -9223372036854775808 then -9223372036854775808
  else t - u

/-- Library call `time.Duration.Seconds`: `float64(sec) + float64(nsec)/1e9` with
`sec := d / Second` and `nsec := d % Second`, the quotient and remainder of the `int64`
division (truncated toward zero). -/
def Duration.Seconds (d : Int) : ℚ :=
  let sec := Int.tdiv d 1000000000
  let nsec := Int.tmod d 1000000000
  float64 (float64 (sec : ℚ) + float64 (float64 (nsec : ℚ) / 1000000000))

/-- Go `RateLimiter.refillTokens` in `float64` arithmetic, with `now` the reading of
`time.Now()`. The language lets a compiler fuse `elapsed * RequestsPerSec` with the
addition `client.Tokens += tokensToAdd` into one operation that is rounded once (as the
Go compiler does for arm64); `fused` tells whether it did. -/
def refillTokensRounded (fused : Bool) (rl : RateLimiter) (now : Int) (clientKey : String) :
    RateLimiter :=
  match lruGet rl.cache clientKey with
  | (none, cache) =>
    let client : ClientInfo := ⟨rl.config.RequestsPerSec, now, rl.config.BurstSize, now⟩
    { rl with cache := lruAdd rl.config.MaxClients cache clientKey client }
  | (some client, cache) =>
    let elapsed : ℚ := Duration.Seconds (Time.Sub now client.LastRefill)
    let tokens :=
      if fused then float64 (client.Tokens + elapsed * rl.config.RequestsPerSec)
      else
        let tokensToAdd := float64 (elapsed * rl.config.RequestsPerSec)
        float64 (client.Tokens + tokensToAdd)
    let maxTokens : ℚ := float64 (rl.config.BurstSize : ℚ)
    let tokens := if tokens > maxTokens then maxTokens else tokens
    let client := { client with Tokens := tokens, LastRefill := now, LastRequest := now }
    { rl with cache := lruAdd rl.config.MaxClients cache clientKey client }

/-- Go `RateLimiter.consumeToken` in `float64` arithmetic. -/
def consumeTokenRounded (rl : RateLimiter) (clientKey : String) : Bool × RateLimiter :=
  match lruGet rl.cache clientKey with
  | (none, cache) => (false, { rl with cache := cache })
  | (some client, cache) =>
    if client.Tokens < 1 then (false, { rl with cache := cache }) else
    let client := { client with Tokens := float64 (client.Tokens - 1) }
    (true, { rl with cache := lruAdd rl.config.MaxClients cache clientKey client })

/-- One admission in `float64` arithmetic: `refillTokensRounded` followed by
`consumeTokenRounded` for the same key. -/
def admissionRounded (fused : Bool) (rl : RateLimiter) (now : Int) (clientKey : String) :
    Bool × RateLimiter :=
  consumeTokenRounded (refillTokensRounded fused rl now clientKey) clientKey

/-- Admissions of one key in `float64` arithmetic at the given clock readings, in order:
the decisions and the final limiter. -/
def admissionsRounded (fused : Bool) (rl : RateLimiter) (clientKey : String) :
    List Int → List Bool × RateLimiter
  | [] => ([], rl)
  | now :: rest =>
    let r := admissionRounded fused rl now clientKey
    let rs := admissionsRounded fused r.2 clientKey rest
    (r.1 :: rs.1, rs.2)

/-! ## `utility/utility.go` and the flag validation of `services/challenges.go`

A Go string is the sequence of its bytes; for a string of the model that is its UTF-8
encoding. -/

/-- The bytes of a Go string, as numbers below 256. -/
def goBytes (s : String) : List Nat :=
  s.toList.flatMap (fun c => (String.utf8EncodeChar c).map UInt8.toNat)

/-- Go `utility.ConstantTimeStringEqual`: length test, then the bitwise OR of the
bytewise XORs is compared with 0.  OR and XOR of two bytes are bytes, nothing wraps. -/
def ConstantTimeStringEqual (a b : String) : Bool :=
  if (goBytes a).length ≠ (goBytes b).length then false else
  let diff : Nat := ((goBytes a).zip (goBytes b)).foldl (fun diff p => diff ||| (p.1 ^^^ p.2)) 0
  diff == 0

/-- The world outside the repository that the flag validation calls: `strings.ToLower`,
the four digests printed with `%x` (lower-case hex), `pem.Decode` (the bytes of the first
block), `x509.ParsePKIXPublicKey` followed by the type assertion to `ed25519.PublicKey`
(`none` for a parse error, `some none` for a key of another type), and the primitives of
`jwt.ParseWithClaims` as in `AuthEnv`. -/
structure FlagEnv (EdKey : Type) where
  ToLower : String → String
  md5Hex : String → String
  sha1Hex : String → String
  sha256Hex : String → String
  keccak256Hex : String → String
  pemDecode : String → Option String
  ParsePKIXPublicKey : String → Option (Option EdKey)
  parseUnverified : String → Option UnverifiedToken
  verify : String → String → String → EdKey → Bool
  validateClaims : List (String × JsonValue) → Bool

/-- Number of leading `0` digits: `len(hashHex) - len(strings.TrimLeft(hashHex, "0"))`. -/
def leadingZeros (hashHex : String) : Int :=
  ((hashHex.toList.takeWhile (fun c => c = '0')).length : Int)

/-- Go `ChallengeClient.validateHashOfUsername`.  The thresholds
`int(float64(requiredZeros) * 0.75)` and `int(float64(requiredZeros) * 0.50)` are the
truncated products; 0.75 and 0.5 are exact binary fractions, so they are
`3 * requiredZeros / 4` and `requiredZeros / 2` in integer division for every count below
2^51, and above that both thresholds exceed the length of any digest. -/
def validateHashOfUsername {EdKey : Type} (env : FlagEnv EdKey)
    (submittedFlag difficulty hashType userEmail : String) : Bool × String :=
  match Atoi difficulty with
  | none => (false, "")
  | some requiredZeros =>
  if requiredZeros < 0 then (false, "") else
  if !decide (userEmail.toList <:+: submittedFlag.toList) then (false, "") else
  let hash : Option String :=
    if hashType = "md5" then some (env.md5Hex submittedFlag)
    else if hashType = "sha1" then some (env.sha1Hex submittedFlag)
    else if hashType = "sha256" then some (env.sha256Hex submittedFlag)
    else if hashType = "keccak256" then some (env.keccak256Hex submittedFlag)
    else none
  match hash with
  | none => (false, "")
  | some hashHex =>
  if requiredZeros = 0 then (true, "") else
  let requiredPrefix := List.replicate requiredZeros.toNat '0'
  if requiredPrefix <+: hashHex.toList then (true, "") else
  let actualZeros := leadingZeros hashHex
  if actualZeros ≥ 2 then
    let threshold75 := 3 * requiredZeros / 4
    let threshold50 := requiredZeros / 2
    if actualZeros ≥ threshold75 then (false, "Need a little more work")
    else if actualZeros ≥ threshold50 then (false, "NEED EVEN MORE WORK")
    else (false, "Need more work")
  else (false, "")

/-- Library call `jwt.ParseWithClaims(tokenString, jwt.MapClaims, keyFunc)` of golang-jwt
on the primitives of a `FlagEnv`; the steps are those of `jwtParse`. -/
def jwtParseWithClaims {EdKey : Type} (env : FlagEnv EdKey) (tokenString : String)
    (keyFunc : UnverifiedToken → Except String EdKey) : Except String Token :=
  match env.parseUnverified tokenString with
  | none => .error "token is malformed"
  | some t =>
  match keyFunc t with
  | .error e => .error ("error while executing keyfunc: " ++ e)
  | .ok key =>
  if !env.verify t.alg t.signingString t.signature key then
    .error "token signature is invalid" else
  if !env.validateClaims t.claims then .error "token has invalid claims" else
  .ok ⟨t.alg, t.claims, true⟩

/-- Go `ChallengeClient.validateClientSideWasm`.  The signing method is
`*jwt.SigningMethodEd25519` exactly when the `alg` of the token is `EdDSA`. -/
def validateClientSideWasm {EdKey : Type} (env : FlagEnv EdKey)
    (submittedFlag publicKeyPEM _userEmail : String) : Bool :=
  match env.pemDecode publicKeyPEM with
  | none => false
  | some blockBytes =>
  match env.ParsePKIXPublicKey blockBytes with
  | none => false
  | some none => false
  | some (some publicKey) =>
  match jwtParseWithClaims env submittedFlag (fun token =>
      if token.alg ≠ "EdDSA" then .error "unexpected signing method" else .ok publicKey) with
  | .error _ => false
  | .ok token =>
  if token.Valid then
    match claimGet token.Claims "is_admin" with
    | some (.bool adminBool) => adminBool
    | _ => false
  else false

/-- Go `ChallengeClient.ValidateFlag`. -/
def ValidateFlag {EdKey : Type} (env : FlagEnv EdKey)
    (submittedFlag expectedFlagValue validationHandler userEmail : String) : Bool × String :=
  if validationHandler = "StringEqual" then
    (ConstantTimeStringEqual (env.ToLower submittedFlag) (env.ToLower expectedFlagValue), "")
  else if validationHandler = "Md5HashOfUsername" then
    validateHashOfUsername env submittedFlag expectedFlagValue "md5" userEmail
  else if validationHandler = "Sha1HashOfUsername" then
    validateHashOfUsername env submittedFlag expectedFlagValue "sha1" userEmail
  else if validationHandler = "Sha256HashOfUsername" then
    validateHashOfUsername env submittedFlag expectedFlagValue "sha256" userEmail
  else if validationHandler = "Keccak256HashOfUsername" then
    validateHashOfUsername env submittedFlag expectedFlagValue "keccak256" userEmail
  else if validationHandler = "ClientSideWasm" then
    (validateClientSideWasm env submittedFlag expectedFlagValue userEmail, "")
  else
    (ConstantTimeStringEqual (env.ToLower submittedFlag) (env.ToLower expectedFlagValue), "")


/-! ## `services/slack.go` -/

/-- Result of running Go code that may panic: a normal return with a value, or a run-time
panic with its message. -/
inductive Run (α : Type) where
  | done (a : α)
  | panic (msg : String)
deriving DecidableEq

/-- Message of the run-time panic raised by reading a field through a nil pointer. -/
def nilDereference : String :=
  "runtime error: invalid memory address or nil pointer dereference"

/-- Go `SlackMessage`. -/
structure SlackMessage where
  Text : String
  IsPrivate : Bool
deriving DecidableEq

/-- Go `SlackService`: the two webhook URLs and the buffered channel `messageChan`
(capacity 128), kept as the list of queued messages.  The service shares the store of
the container (`db`), which the operations receive as an argument; the dispatcher
goroutine that drains the channel is not part of the model.  A `*SlackService` is an
`Option SlackService`, `none` being the nil pointer. -/
structure SlackService where
  privateWebhookURL : String
  publicWebhookURL : String
  messageChan : List SlackMessage
deriving DecidableEq

/-- Go `NewSlackService`; the arguments are the environment variables
`SLACK_PRIVATE_WEBHOOK` and `SLACK_PUBLIC_WEBHOOK`. -/
def NewSlackService (privateWebhookURL publicWebhookURL : String) : Option SlackService :=
  if privateWebhookURL = "" ∧ publicWebhookURL = "" then none
  else some ⟨privateWebhookURL, publicWebhookURL, []⟩

/-- Go `SlackService.SendMessageAsync`: nil check, then a non-blocking send that drops
the message when the channel is full. -/
def SendMessageAsync (s : Option SlackService) (text : String) (isPrivate : Bool) :
    Run (Option SlackService) :=
  match s with
  | none => .done none
  | some svc =>
    if svc.messageChan.length < 128 then
      .done (some { svc with messageChan := svc.messageChan ++ [⟨text, isPrivate⟩] })
    else .done (some svc)

/-- Go `SlackService.getUserAlias`: it reads `s.db` without a nil check; `fault` is an
error of the query (no row included), answered with the empty alias. -/
def getUserAlias (s : Option SlackService) (db : Store) (fault : Bool) (userEmail : String) :
    Run String :=
  match s with
  | none => .panic nilDereference
  | some _ =>
    if fault then .done "" else
    match findActiveAlias db userEmail with
    | some r => .done r.alias_
    | none => .done ""

/-- The two sends that end the notification operations. -/
def sendBoth (s : Option SlackService) (privateText publicText : String) :
    Run (Option SlackService) :=
  match SendMessageAsync s privateText true with
  | .panic msg => .panic msg
  | .done s => SendMessageAsync s publicText false

/-- Go `SlackService.SendChallengeCompletion`: no nil check before `getUserAlias`. -/
def SendChallengeCompletion (s : Option SlackService) (db : Store) (fault : Bool)
    (userEmail challengeName : String) : Run (Option SlackService) :=
  match getUserAlias s db fault userEmail with
  | .panic msg => .panic msg
  | .done aliasValue =>
    if aliasValue ≠ "" then
      sendBoth s
        ("🎉 *" ++ userEmail ++ "* (" ++ aliasValue ++ ") solved challenge *" ++
          challengeName ++ "*")
        ("🎉 *" ++ aliasValue ++ "* solved challenge *" ++ challengeName ++ "*")
    else
      sendBoth s ("🎉 *" ++ userEmail ++ "* solved challenge *" ++ challengeName ++ "*")
        ("🎉 *" ++ userEmail ++ "* solved challenge *" ++ challengeName ++ "*")

/-- Go `SlackService.SendExamChallengeFailedAttempt`. -/
def SendExamChallengeFailedAttempt (s : Option SlackService) (db : Store) (fault : Bool)
    (userEmail challengeName : String) : Run (Option SlackService) :=
  match s with
  | none => .done none
  | some _ =>
  match getUserAlias s db fault userEmail with
  | .panic msg => .panic msg
  | .done aliasValue =>
    if aliasValue ≠ "" then
      sendBoth s
        ("❌ *" ++ userEmail ++ "* (" ++ aliasValue ++
          ") submitted a wrong flag for exam challenge *" ++ challengeName ++ "*")
        ("❌ *" ++ aliasValue ++ "* submitted a wrong flag for exam challenge *" ++
          challengeName ++ "*")
    else
      sendBoth s
        ("❌ *" ++ userEmail ++ "* submitted a wrong flag for exam challenge *" ++
          challengeName ++ "*")
        ("❌ *" ++ userEmail ++ "* submitted a wrong flag for exam challenge *" ++
          challengeName ++ "*")

/-- Go `SlackService.SendExamChallengeCompletion`. -/
def SendExamChallengeCompletion (s : Option SlackService) (db : Store) (fault : Bool)
    (userEmail challengeName : String) : Run (Option SlackService) :=
  match s with
  | none => .done none
  | some _ =>
  match getUserAlias s db fault userEmail with
  | .panic msg => .panic msg
  | .done aliasValue =>
    if aliasValue ≠ "" then
      sendBoth s
        ("🎉 *" ++ userEmail ++ "* (" ++ aliasValue ++ ") solved exam challenge *" ++
          challengeName ++ "*")
        ("🎉 *" ++ aliasValue ++ "* solved exam challenge *" ++ challengeName ++ "*")
    else
      sendBoth s
        ("🎉 *" ++ userEmail ++ "* solved exam challenge *" ++ challengeName ++ "*")
        ("🎉 *" ++ userEmail ++ "* solved exam challenge *" ++ challengeName ++ "*")

/-- Go `TopScorer`. -/
structure TopScorer where
  UserEmail : String
  Alias : String
  Points : Int
  ExamChallengesSolved : Int
deriving DecidableEq

/-- Go `LeaderboardStats`. -/
structure LeaderboardStats where
  TopScorers : List TopScorer
  TotalUsers : Int
  TotalSubmissions : Int
  SuccessfulSubmissions : Int
  WrongSubmissions : Int
deriving DecidableEq

/-- The statistics block appended by both leaderboard messages. -/
def statisticsText (stats : LeaderboardStats) : String :=
  "\n*Statistics:*\n" ++
  "• Total Users: " ++ toString stats.TotalUsers ++ "\n" ++
  "• Total Submissions: " ++ toString stats.TotalSubmissions ++ "\n" ++
  "• Successful Submissions: " ++ toString stats.SuccessfulSubmissions ++ "\n" ++
  "• Wrong Submissions: " ++ toString stats.WrongSubmissions ++ "\n"

/-- Lines of the private leaderboard for the scorers from rank `i + 1` on. -/
def privateScorerLines (i : Nat) : List TopScorer → String
  | [] => ""
  | scorer :: rest =>
    (if scorer.Alias ≠ "" then
      toString (i + 1) ++ ". `" ++ scorer.UserEmail ++ " (" ++ scorer.Alias ++ ")` - " ++
        toString scorer.ExamChallengesSolved ++ " exam challenges - " ++
        toString scorer.Points ++ " points\n"
    else
      toString (i + 1) ++ ". `" ++ scorer.UserEmail ++ "` - " ++
        toString scorer.ExamChallengesSolved ++ " exam challenges - " ++
        toString scorer.Points ++ " points\n") ++ privateScorerLines (i + 1) rest

/-- Lines of the public leaderboard for the scorers from rank `i + 1` on. -/
def publicScorerLines (i : Nat) : List TopScorer → String
  | [] => ""
  | scorer :: rest =>
    (if scorer.Alias ≠ "" then
      toString (i + 1) ++ ". `" ++ scorer.Alias ++ "` - " ++
        toString scorer.ExamChallengesSolved ++ " exam challenges - " ++
        toString scorer.Points ++ " points\n"
    else
      toString (i + 1) ++ ". `" ++ scorer.UserEmail ++ "` - " ++
        toString scorer.ExamChallengesSolved ++ " exam challenges - " ++
        toString scorer.Points ++ " points\n") ++ publicScorerLines (i + 1) rest

/-- Go `SlackService.SendPrivateLeaderboardUpdate`. -/
def SendPrivateLeaderboardUpdate (s : Option SlackService) (stats : LeaderboardStats) :
    Run (Option SlackService) :=
  match s with
  | none => .done none
  | some _ =>
    SendMessageAsync s
      ("🏆 *Leaderboard Update*\n\n" ++ "*Top 16 Scorers:*\n" ++
        privateScorerLines 0 stats.TopScorers ++ statisticsText stats) true

/-- Go `SlackService.SendPublicLeaderboardUpdate`. -/
def SendPublicLeaderboardUpdate (s : Option SlackService) (stats : LeaderboardStats) :
    Run (Option SlackService) :=
  match s with
  | none => .done none
  | some _ =>
    SendMessageAsync s
      ("🏆 *Leaderboard Update*\n\n" ++ "*Top 16 Scorers:*\n" ++
        publicScorerLines 0 stats.TopScorers ++ statisticsText stats) false

/-! ## `routes/routes.go`: the general challenge handlers -/

/-- Row selected by `WHERE c.id = $1 AND c.category != 'exam'`. -/
def findGeneralChallenge (db : Store) (challengeID : Int) : Option ChallengeRow :=
  db.challenges.find? (fun c => c.id == challengeID && !(c.category == "exam"))

/-- Go `GetChallenge`.  `user` is the result of `GetUserFromContext`, `id` the path
variable, `qfault` a driver error of the challenge query, `getAsset` the answer of
`AssetService.GetAsset`.  The handler writes nothing to the store. -/
def GetChallenge (uc : UserClient) (getAsset : String → Option String) (qfault : Bool)
    (user : Option String) (id : String) : Response :=
  match user with
  | none => internalError
  | some userEmail =>
  match validateChallengeID id with
  | .error _ => .jsonError 400 "Invalid Request"
  | .ok challengeID =>
  if qfault then internalError else
  match findGeneralChallenge uc.db challengeID with
  | none => notFoundError
  | some c =>
  let challenge : DetailedChallenge :=
    ⟨c.id, c.nested_id, c.name, c.description, c.category, c.point_reward_amount,
      c.file_asset, c.text_asset, hasCompleted uc.db.user_challenges_completed userEmail c.id⟩
  if challenge.Category = "exam" then notFoundError else
  match challenge.FileAsset with
  | none => .challenge challenge
  | some path =>
    if path = "" then .challenge challenge else
    match getAsset path with
    | none => internalError
    | some presignedURL => .challenge { challenge with FileAsset := some presignedURL }

/-- Driver faults met by the calls of `SubmitChallenge`, one field per call site;
`notify` is an error of the alias query of the Slack notification. -/
structure SubmitChallengeFaults where
  check : Bool
  fetch : Bool
  logWrong : Bool
  complete : Nat → Bool
  notify : Bool

/-- Go `SubmitChallenge`.  `user` is the result of `GetUserFromContext`, `id` the path
variable, `body` the decoded `flag` of the request (`none` when decoding fails),
`validateFlag` stands for `ChallengeClient.ValidateFlag`, `slack` is
`container.SlackService`.  A panic of the handler leaves the request without the
response that follows it. -/
def SubmitChallenge (uc : UserClient) (slack : Option SlackService)
    (validateFlag : String → String → String → String → Bool × String)
    (f : SubmitChallengeFaults) (now : Int) (user : Option String) (id : String)
    (body : Option String) : Run Response × UserClient × Option SlackService :=
  match user with
  | none => (.done internalError, uc, slack)
  | some userEmail =>
  match validateChallengeID id with
  | .error _ => (.done (.error 400 "Invalid Request"), uc, slack)
  | .ok challengeID =>
  match body with
  | none => (.done (.jsonError 400 "Invalid Request"), uc, slack)
  | some flag =>
  match SanitizeFlag flag with
  | .error msg => (.done (.jsonError 400 msg), uc, slack)
  | .ok flag =>
  match CheckUserCompletedChallenge uc.db f.check userEmail challengeID with
  | .error _ => (.done internalError, uc, slack)
  | .ok (true, completedAt) =>
    (.done (.submit ⟨"Challenge already completed", some completedAt, none, none, none⟩),
      uc, slack)
  | .ok (false, _) =>
  match GetChallengeFlagAndReward uc.db f.fetch challengeID with
  | .error err =>
    if err = .noRows then (.done notFoundError, uc, slack)
    else (.done internalError, uc, slack)
  | .ok fr =>
  if fr.category = "exam" then (.done notFoundError, uc, slack) else
  let (isValid, customIncorrectMessage) :=
    validateFlag flag fr.flagValue fr.validationHandler userEmail
  if !isValid then
    let db := if f.logWrong then uc.db else
      { uc.db with user_history_log := (insertHistory uc.db.user_history_log userEmail
          ("Wrong flag attempt for challenge " ++ toString challengeID ++ ": " ++ flag) now) }
    let errorMessage := if customIncorrectMessage ≠ "" then customIncorrectMessage
      else "Incorrect flag"
    (.done (.submit ⟨errorMessage, none, none, none, none⟩), { uc with db := db }, slack)
  else
  match CompleteChallenge uc f.complete now userEmail fr.pointRewardAmount challengeID with
  | (some _, uc) => (.done internalError, uc, slack)
  | (none, uc) =>
  match SendChallengeCompletion slack uc.db f.notify userEmail fr.challengeName with
  | .panic msg => (.panic msg, uc, slack)
  | .done slack =>
    (.done (.submit ⟨"Challenge completed successfully!", none, none, some 1,
      some fr.pointRewardAmount⟩), uc, slack)
/-! ## Specification vocabulary -/

/-- Number of completion records of the pair. -/
def completionCount (db : Store) (userEmail : String) (challengeID : Int) : Nat :=
  db.user_challenges_completed.countP
    (fun r => r.user_email == userEmail && r.challenge_id == challengeID)

/-- Store written by a successful `CompleteChallenge`. -/
def completedStore (db : Store) (now : Int) (e : String) (p c : Int) : Store :=
  { db with
    users := upsertCompletion db.users e p now,
    user_challenges_completed := db.user_challenges_completed ++ [⟨e, c, now⟩],
    user_history_log := db.user_history_log ++
      [⟨e, "Completed challenge " ++ toString c ++ ": added 1 token and " ++
          toString p ++ " points", now⟩] }

/-- Store written by a successful `CompleteExamChallenge`. -/
def examCompletedStore (db : Store) (now : Int) (e : String) (c : Int) : Store :=
  { db with
    users := upsertExamCompletion db.users e now,
    user_challenges_completed := db.user_challenges_completed ++ [⟨e, c, now⟩],
    user_history_log := db.user_history_log ++
      [⟨e, "Completed exam challenge " ++ toString c ++ ": added 1 token", now⟩] }

/-- Store written by a successful `BurnToken`. -/
def burnedStore (db : Store) (now : Int) (e : String) (c : Int) : Store :=
  { db with
    users := burnUpdate db.users e,
    user_history_log := db.user_history_log ++
      [⟨e, "Burned 1 token for exam challenge " ++ toString c, now⟩] }

/-- Store written by a successful `RefundToken`. -/
def refundedStore (db : Store) (now : Int) (e : String) (c : Int) : Store :=
  { db with
    users := refundUpdate db.users e,
    user_history_log := db.user_history_log ++
      [⟨e, "Refunded 1 token for exam challenge " ++ toString c, now⟩] }

/-- Store written by a successful `SetAlias` with the trimmed alias `a`. -/
def aliasSetStore (db : Store) (now : Int) (e a : String) : Store :=
  { db with
    user_aliases := upsertAlias db.user_aliases e a now,
    user_history_log := db.user_history_log ++ [⟨e, "Set alias to '" ++ a ++ "'", now⟩] }

/-- Store written by a successful `RemoveAlias` that found the active alias `a`. -/
def aliasRemovedStore (db : Store) (now : Int) (e a : String) : Store :=
  { db with
    user_aliases := softDeleteAlias db.user_aliases e now,
    user_history_log := db.user_history_log ++ [⟨e, "Removed alias '" ++ a ++ "'", now⟩] }

/-- One call of an Economy operation, with any arguments, clock reading and driver
faults, taking the client state `uc` to `uc'`. -/
inductive EconomyStep (sc : Schema) (isProfane : String → Bool) :
    UserClient → UserClient → Prop
  | getProfile (uc : UserClient) (fails : Nat → Bool) (now : Int) (e : String) :
      EconomyStep sc isProfane uc (GetUserProfile uc fails now e).2
  | completeChallenge (uc : UserClient) (fails : Nat → Bool) (now : Int) (e : String)
      (p c : Int) : EconomyStep sc isProfane uc (CompleteChallenge uc fails now e p c).2
  | completeExamChallenge (uc : UserClient) (fails : Nat → Bool) (now : Int) (e : String)
      (c : Int) : EconomyStep sc isProfane uc (CompleteExamChallenge uc fails now e c).2
  | burnToken (uc : UserClient) (fails : Nat → Bool) (now : Int) (e : String) (c : Int) :
      EconomyStep sc isProfane uc (BurnToken uc fails now e c).2
  | refundToken (uc : UserClient) (fails : Nat → Bool) (now : Int) (e : String) (c : Int) :
      EconomyStep sc isProfane uc (RefundToken uc fails now e c).2
  | setAlias (uc : UserClient) (fails : Nat → Bool) (now : Int) (e a : String) :
      EconomyStep sc isProfane uc (SetAlias sc isProfane uc fails now e a).2
  | removeAlias (uc : UserClient) (fails : Nat → Bool) (now : Int) (e : String) :
      EconomyStep sc isProfane uc (RemoveAlias uc fails now e).2

/-- States reachable through the Economy operations from a freshly seeded store: no
profile, alias, completion or history row yet, any challenge data, empty profile cache
(`NewUserClient`). -/
inductive Reachable (sc : Schema) (isProfane : String → Bool) : UserClient → Prop
  | init (challenges : List ChallengeRow) (flags : List FlagRow) :
      Reachable sc isProfane ⟨⟨[], [], [], [], challenges, flags⟩, []⟩
  | step {uc uc' : UserClient} :
      Reachable sc isProfane uc → EconomyStep sc isProfane uc uc' → Reachable sc isProfane uc'

/-- Profile built by `GetUserProfile` from a row of `users` and the active alias. -/
def profileOfRow (db : Store) (userEmail : String) (u : UserRow) : UserProfile :=
  ⟨userEmail, (match findActiveAlias db userEmail with
      | some r => r.alias_
      | none => ""), u.tokens_available, u.points_achieved, u.exam_challenges_solved,
    u.last_exam_challenge_solved_timestamp, u.last_challenge_solved_timestamp⟩

/-- Client created by `NewUserClient` on an empty store. -/
def freshClient : UserClient := ⟨⟨[], [], [], [], [], []⟩, []⟩

/-- Constraint behind `ON CONFLICT (user_email)` on `users`: one row per e-mail. -/
def UsersUnique (db : Store) : Prop := (db.users.map (fun r => r.user_email)).Nodup

/-- Rows of `users` that belong to other users than `e`. -/
def otherUsers (db : Store) (e : String) : List UserRow :=
  db.users.filter (fun r => !(r.user_email == e))

/-- State after `ann@example.com` completed challenge 1 (10 points) at time 100 on a
fresh client. -/
def annClient : UserClient :=
  (CompleteChallenge freshClient noFaults 100 "ann@example.com" 10 1).2

/-- State after `ann@example.com` burned her token for exam challenge 7 at time 300. -/
def annBurned : UserClient := (BurnToken annClient noFaults 300 "ann@example.com" 7).2

/-- The four counters of a `users` row are non-negative. -/
def RowNonNeg (r : UserRow) : Prop :=
  0 ≤ r.tokens_available ∧ 0 ≤ r.tokens_burned ∧ 0 ≤ r.points_achieved ∧
    0 ≤ r.exam_challenges_solved

/-- Every profile row of the store has non-negative counters. -/
def NonNeg (db : Store) : Prop := ∀ r ∈ db.users, RowNonNeg r

/-- State after `bob@example.com`, who has no profile row yet, set the alias `bob` at
time 100 on a fresh client. -/
def bobAliased : UserClient :=
  (SetAlias ⟨false⟩ (fun _ => false) freshClient noFaults 100 "bob@example.com" "bob").2

/-- State after the first profile read of `bob@example.com` that follows `bobAliased`. -/
def bobRead : UserClient := (GetUserProfile bobAliased noFaults 200 "bob@example.com").2

/-- No driver fault at any call site of `SubmitExamChallenge`. -/
def noSubmitFaults : SubmitFaults :=
  ⟨noFaults, false, false, noFaults, false, false, noFaults, noFaults⟩

/-- Sample environment with keys in `Nat`: the header segment `h` decodes to a header
signed by `arn:instance` and issued by `issuer`, the endpoint serves a PEM parsed as key
7, the token carries the e-mail claim of `ann@example.com`, and the only signature that
verifies under key 7 is `s`. -/
def demoEnv : AuthEnv Nat where
  now := 1000
  nowStore := 1001
  httpGet := fun _ => some (200, some "PEM")
  ParseECPublicKeyFromPEM := fun _ => some 7
  base64Decode := fun s => if s = "h" then some "header" else none
  unmarshalHeader := fun _ => some ⟨"ES384", "kid-1", "arn:instance", "issuer", 0⟩
  parseUnverified := fun _ =>
    some ⟨"ES384", [("email", .str "ann@example.com")], "h.p", "s"⟩
  verify := fun _ _ sig key => sig == "s" && key == 7
  validateClaims := fun _ => true

/-- Sample `AuthClient` expecting signer `arn:instance` and issuer `issuer`, with an
empty key cache (`NewAuthClient`). -/
def demoAuth : AuthClient Nat := ⟨⟨"arn:instance", "issuer", "us-east-1", 0⟩, []⟩

/-- Sample `AuthClient` that expects another signer than the one of the sample header. -/
def otherSignerAuth : AuthClient Nat := ⟨⟨"arn:other", "issuer", "us-east-1", 0⟩, []⟩

/-- The counters of every cached profile are those of the user's row in the store. -/
def CacheCountersAgree (uc : UserClient) : Prop :=
  ∀ e p, cacheGet uc.cache e = some p →
    ∃ u, findUser uc.db e = some u ∧ p.Tokens = u.tokens_available ∧
      p.Points = u.points_achieved ∧ p.ExamChallengesSolved = u.exam_challenges_solved

/-- The cheap checks of the token validation in the order in which the specification
lists them, as a function of the two decoders, the configuration and the token alone:
the error of the first step that fails, or `none` when all six pass.  Step 1: the token
is empty or does not split into exactly three segments.  Step 2: the first segment is
not base64url or not a header object.  Step 3: signer mismatch.  Step 4: issuer
mismatch.  Step 5: empty configured region.  Step 6: empty `kid`. -/
def firstFailure (base64Decode : String → Option String)
    (unmarshalHeader : String → Option JwtHeader) (cfg : AuthConfig) (tok : String) :
    Option String :=
  if tok = "" then some "blank access token" else
  if (Split tok).length ≠ 3 then some "invalid JWT format" else
  match base64Decode ((Split tok).getD 0 "") with
  | none => some "invalid JWT header"
  | some headerBytes =>
  match unmarshalHeader headerBytes with
  | none => some "failed to parse JWT header"
  | some header =>
  if header.Signer ≠ cfg.ExpectedVerifiedAccessInstanceARN then some "invalid signer" else
  if header.Iss ≠ cfg.ExpectedIssuer then some "invalid issuer" else
  if cfg.AWSRegion = "" then some "invalid AWS region" else
  if header.Kid = "" then some "invalid kid" else none

/-- Sample `AuthClient` that expects another issuer than the one of the sample header. -/
def otherIssuerAuth : AuthClient Nat := ⟨⟨"arn:instance", "elsewhere", "us-east-1", 0⟩, []⟩

/-- Sample `AuthClient` holding a key for the sample header that expires at instant 2000,
after the clock reading 1000 of the sample environment. -/
def warmAuth : AuthClient Nat :=
  ⟨⟨"arn:instance", "issuer", "us-east-1", 0⟩, [("us-east-1:kid-1", ⟨9, 2000⟩)]⟩

/-- The bucket the limiter holds for a key, if any. -/
def bucket (rl : RateLimiter) (clientKey : String) : Option ClientInfo :=
  (rl.cache.find? (fun e => e.1 == clientKey)).map Prod.snd

/-- A rate-limit configuration that passes the validation tags of `RateLimitConfig`:
`RequestsPerSec` at least 0.1, `BurstSize` and `MaxClients` at least 1. -/
def ValidRateLimit (cfg : RateLimitConfig) : Prop :=
  (1 / 10 : ℚ) ≤ cfg.RequestsPerSec ∧ 1 ≤ cfg.BurstSize ∧ 1 ≤ cfg.MaxClients

/-- Tokens of a bucket after the refill at `now`: the sum
`Tokens + elapsed seconds * RequestsPerSec`, replaced by `BurstSize` when it exceeds
it. -/
def refilled (cfg : RateLimitConfig) (c : ClientInfo) (now : Int) : ℚ :=
  min (c.Tokens + ((now - c.LastRefill : Int) : ℚ) / 1000000000 * cfg.RequestsPerSec)
    (cfg.BurstSize : ℚ)

/-- The entries of the cache other than the one of `clientKey`, in their order. -/
def otherBuckets (rl : RateLimiter) (clientKey : String) : List (String × ClientInfo) :=
  rl.cache.filter (fun x => !(x.1 == clientKey))

/-- Limiter states reachable from `NewRateLimiter cfg` by calls of `refillTokens` and
`consumeToken`, for any keys and clock readings. -/
inductive LimiterReachable (cfg : RateLimitConfig) : RateLimiter → Prop
  | init : LimiterReachable cfg ⟨cfg, []⟩
  | refill {rl : RateLimiter} (now : Int) (k : String) :
      LimiterReachable cfg rl → LimiterReachable cfg (refillTokens rl now k)
  | consume {rl : RateLimiter} (k : String) :
      LimiterReachable cfg rl → LimiterReachable cfg (consumeToken rl k).2

/-- Limiter states reached from `NewRateLimiter cfg` by admissions under a
non-decreasing clock; the first index is the latest clock reading. -/
inductive LimiterRun (cfg : RateLimitConfig) : Int → RateLimiter → Prop
  | init (t : Int) : LimiterRun cfg t ⟨cfg, []⟩
  | step {t : Int} {rl : RateLimiter} (now : Int) (k : String) :
      LimiterRun cfg t rl → t ≤ now → LimiterRun cfg now (admission rl now k).2

/-- Valid sample configuration with a refill rate above the burst size: 5 requests per
second, burst 1, 10 clients. -/
def fastConfig : RateLimitConfig := ⟨true, 5, 1, 60000000000, 60000000000, 10⟩

/-- Valid sample configuration: 2 requests per second, burst 5, 2 clients. -/
def slowConfig : RateLimitConfig := ⟨true, 2, 5, 60000000000, 60000000000, 2⟩

/-- Clock readings spaced exactly `1 / rps` seconds apart, starting after `t`: each
elapsed time, in seconds, times the rate is 1. -/
def Spaced (rps : ℚ) : Int → List Int → Prop
  | _, [] => True
  | t, t1 :: ts => ((t1 - t : Int) : ℚ) / 1000000000 * rps = 1 ∧ Spaced rps t1 ts

/-- New limiter of `slowConfig` (capacity 2) after the first requests of keys `a` and
`b`, in that order: the store is full and `a` is the least recently used key. -/
def fullLimiter : RateLimiter := (admission (admission ⟨slowConfig, []⟩ 0 "a").2 0 "b").2

/-- Tokens of a bucket after the refill at `now` in `float64` arithmetic: the sum
`Tokens + elapsed seconds * RequestsPerSec`, the product and the sum each rounded (the
two rounded once when `fused`), replaced by `float64(BurstSize)` when it exceeds it. -/
def refilledRounded (fused : Bool) (cfg : RateLimitConfig) (c : ClientInfo) (now : Int) : ℚ :=
  min
    (if fused then
      float64 (c.Tokens + Duration.Seconds (Time.Sub now c.LastRefill) * cfg.RequestsPerSec)
    else
      float64 (c.Tokens +
        float64 (Duration.Seconds (Time.Sub now c.LastRefill) * cfg.RequestsPerSec)))
    (float64 (cfg.BurstSize : ℚ))

/-- Valid sample configuration whose rate 625/1024 = 0.6103515625 is a binary64 value
and whose period 1/RequestsPerSec = 1.6384 s is a whole number of nanoseconds; burst 1,
10 clients. -/
def dyadicConfig : RateLimitConfig := ⟨true, 625 / 1024, 1, 60000000000, 60000000000, 10⟩


/-- Digest that `validateHashOfUsername` computes for a hash handler of `ValidateFlag`. -/
def handlerDigest {EdKey : Type} (env : FlagEnv EdKey) (validationHandler s : String) : String :=
  if validationHandler = "Md5HashOfUsername" then env.md5Hex s
  else if validationHandler = "Sha1HashOfUsername" then env.sha1Hex s
  else if validationHandler = "Sha256HashOfUsername" then env.sha256Hex s
  else env.keccak256Hex s

/-- The four proof-of-work handlers. -/
def HashHandler (validationHandler : String) : Prop :=
  validationHandler = "Md5HashOfUsername" ∨ validationHandler = "Sha1HashOfUsername" ∨
  validationHandler = "Sha256HashOfUsername" ∨ validationHandler = "Keccak256HashOfUsername"

/-- Progress hint of an invalid proof of work with required count `d` and `z` leading
zero digits, with the thresholds truncated to integers. -/
def progressHint (d z : Int) : String :=
  if z < 2 then ""
  else if 3 * d / 4 ≤ z then "Need a little more work"
  else if d / 2 ≤ z then "NEED EVEN MORE WORK"
  else "Need more work"

/-- Sample environment of the flag validation.  `ToLower` is the ASCII lower-casing;
the SHA-256 table holds the digest of the sample submission `ann@example.com 11325`,
which has three leading zero digits; every other input of a digest is given the digest
of the empty string; no PEM block decodes. -/
def demoFlagEnv : FlagEnv Nat where
  ToLower := fun s => String.mk (s.toList.map Char.toLower)
  md5Hex := fun _ => "d41d8cd98f00b204e9800998ecf8427e"
  sha1Hex := fun _ => "da39a3ee5e6b4b0d3255bfef95601890afd80709"
  sha256Hex := fun s =>
    if s = "ann@example.com 11325" then
      "0008712a23cc59c57f4a8a769f369f39fd924b96e3f8b112dde5a9e8223f3084"
    else "e3b0c44298fc1c149afbf4c8996fb92427ae41e4649b934ca495991b7852b855"
  keccak256Hex := fun _ => "c5d2460186f7233c927e7db2dcc703c0e500b653ca82273b7bfad8045d85a470"
  pemDecode := fun _ => none
  ParsePKIXPublicKey := fun _ => none
  parseUnverified := fun _ => none
  verify := fun _ _ _ _ => false
  validateClaims := fun _ => false

/-- Sample environment for the `ClientSideWasm` handler: the PEM text `PEM` decodes to a
block that parses as the Ed25519 key 5; `admin.token.sig` is an `EdDSA` token with the
claim `is_admin` true and `user.token.sig` one whose `is_admin` is the string `true`;
the signature `sig` verifies under key 5.  The digests are those of `demoFlagEnv`. -/
def wasmEnv : FlagEnv Nat :=
  { demoFlagEnv with
    pemDecode := fun s => if s = "PEM" then some "DER" else none
    ParsePKIXPublicKey := fun b => if b = "DER" then some (some 5) else none
    parseUnverified := fun s =>
      if s = "admin.token.sig" then
        some ⟨"EdDSA", [("is_admin", .bool true)], "admin.token", "sig"⟩
      else if s = "user.token.sig" then
        some ⟨"EdDSA", [("is_admin", .str "true")], "user.token", "sig"⟩
      else none
    verify := fun _ _ sig key => sig == "sig" && key == 5
    validateClaims := fun _ => true }

/-- Constraints of the specification on an alias: 1 to 24 characters, each of them in
`[A-Za-z0-9_.-]`. -/
def AliasOk (t : String) : Prop :=
  1 ≤ t.length ∧ t.length ≤ 24 ∧ ∀ c ∈ t.toList, isAliasChar c = true

/-- State after `bob@example.com` removed his alias one hour after setting it in
`bobAliased`. -/
def bobRemoved : UserClient := (RemoveAlias bobAliased noFaults 3600000000100 "bob@example.com").2

/-- Sample client: the store holds the web challenge 1 (10 points) and the exam challenge
with id 7 and ordinal 1, each with a `StringEqual` flag, and `ann@example.com` has
completed challenge 1 at time 100, so she owns one token. -/
def examClient : UserClient :=
  (CompleteChallenge
    ⟨⟨[], [], [], [],
      [⟨1, 1, "warmup", "first steps", "web", 10, none, none⟩,
       ⟨7, 1, "exam-1", "first exam", "exam", 0, none, none⟩],
      [⟨1, "flag-one", "StringEqual"⟩, ⟨7, "flag-seven", "StringEqual"⟩]⟩, []⟩
    noFaults 100 "ann@example.com" 10 1).2

/-- No driver fault at any call site of `SubmitChallenge`. -/
def noChallengeFaults : SubmitChallengeFaults := ⟨false, false, false, noFaults, false⟩

/-- State after `ann@example.com` solved the first exam challenge (id 7) through
`SubmitExamChallenge` at time 500, starting from `examClient`. -/
def annExamDone : UserClient :=
  (SubmitExamChallenge examClient (ValidateFlag demoFlagEnv) noSubmitFaults 500
    (some "ann@example.com") "1" (some "flag-seven")).2
/-! ## Outcome lemmas of the operations -/

theorem filter_length_eq_zero {α : Type} (p : α → Bool) (l : List α) :
    ((l.filter p).length = 0) = (l.any p = false) := by
  induction l with
  | nil => simp
  | cons x xs ih =>
    by_cases hx : p x = true
    · simp [List.filter_cons, hx]
    · simp only [Bool.not_eq_true] at hx
      simp [List.filter_cons, hx, ih]

theorem CompleteChallenge_cases (uc : UserClient) (fails : Nat → Bool) (now : Int)
    (e : String) (p c : Int) :
    ((CompleteChallenge uc fails now e p c).1 ≠ none ∧
      (CompleteChallenge uc fails now e p c).2 = uc) ∨
    ((CompleteChallenge uc fails now e p c).1 = none ∧
      hasCompleted uc.db.user_challenges_completed e c = false ∧
      (CompleteChallenge uc fails now e p c).2 =
        ⟨completedStore uc.db now e p c, cacheDelete uc.cache e⟩) := by
  by_cases h0 : fails 0 = true <;> by_cases h1 : fails 1 = true <;>
    by_cases h2 : fails 2 = true <;> by_cases h3 : fails 3 = true <;>
    by_cases h4 : fails 4 = true <;>
    by_cases hc : hasCompleted uc.db.user_challenges_completed e c = true <;>
    simp [CompleteChallenge, insertCompleted, completedStore, h0, h1, h2, h3, h4, hc,
      insertHistory]

theorem CompleteChallenge_noFaults (uc : UserClient) (now : Int) (e : String) (p c : Int)
    (hc : hasCompleted uc.db.user_challenges_completed e c = false) :
    CompleteChallenge uc noFaults now e p c =
      (none, ⟨completedStore uc.db now e p c, cacheDelete uc.cache e⟩) := by
  simp [CompleteChallenge, insertCompleted, completedStore, noFaults, hc, insertHistory]

theorem CompleteExamChallenge_cases (uc : UserClient) (fails : Nat → Bool) (now : Int)
    (e : String) (c : Int) :
    ((CompleteExamChallenge uc fails now e c).1 ≠ none ∧
      (CompleteExamChallenge uc fails now e c).2 = uc) ∨
    ((CompleteExamChallenge uc fails now e c).1 = none ∧
      hasCompleted uc.db.user_challenges_completed e c = false ∧
      (CompleteExamChallenge uc fails now e c).2 =
        ⟨examCompletedStore uc.db now e c, cacheDelete uc.cache e⟩) := by
  by_cases h0 : fails 0 = true <;> by_cases h1 : fails 1 = true <;>
    by_cases h2 : fails 2 = true <;> by_cases h3 : fails 3 = true <;>
    by_cases h4 : fails 4 = true <;>
    by_cases hc : hasCompleted uc.db.user_challenges_completed e c = true <;>
    simp [CompleteExamChallenge, insertCompleted, examCompletedStore, h0, h1, h2, h3, h4, hc,
      insertHistory]

theorem CompleteExamChallenge_noFaults (uc : UserClient) (now : Int) (e : String) (c : Int)
    (hc : hasCompleted uc.db.user_challenges_completed e c = false) :
    CompleteExamChallenge uc noFaults now e c =
      (none, ⟨examCompletedStore uc.db now e c, cacheDelete uc.cache e⟩) := by
  simp [CompleteExamChallenge, insertCompleted, examCompletedStore, noFaults, hc,
    insertHistory]

theorem BurnToken_cases (uc : UserClient) (fails : Nat → Bool) (now : Int)
    (e : String) (c : Int) :
    ((BurnToken uc fails now e c).1.1 = 0 ∧ (BurnToken uc fails now e c).2 = uc) ∨
    ((BurnToken uc fails now e c).1 = (1, none) ∧
      uc.db.users.any (burnable e) = true ∧
      (BurnToken uc fails now e c).2 = ⟨burnedStore uc.db now e c, cacheDelete uc.cache e⟩) := by
  by_cases h0 : fails 0 = true <;> by_cases h1 : fails 1 = true <;>
    by_cases h2 : fails 2 = true <;> by_cases h3 : fails 3 = true <;>
    by_cases hc : uc.db.users.any (burnable e) = true <;>
    simp [BurnToken, burnedStore, h0, h1, h2, h3, hc, insertHistory]

theorem BurnToken_noFaults (uc : UserClient) (now : Int) (e : String) (c : Int) :
    BurnToken uc noFaults now e c =
      if uc.db.users.any (burnable e) then
        ((1, none), ⟨burnedStore uc.db now e c, cacheDelete uc.cache e⟩)
      else ((0, none), uc) := by
  by_cases hc : uc.db.users.any (burnable e) = true <;>
    simp [BurnToken, burnedStore, noFaults, hc, insertHistory]

theorem RefundToken_cases (uc : UserClient) (fails : Nat → Bool) (now : Int)
    (e : String) (c : Int) :
    ((RefundToken uc fails now e c).1 ≠ none ∧ (RefundToken uc fails now e c).2 = uc) ∨
    ((RefundToken uc fails now e c).1 = none ∧
      uc.db.users.any (refundable e) = true ∧
      (RefundToken uc fails now e c).2 =
        ⟨refundedStore uc.db now e c, cacheDelete uc.cache e⟩) := by
  by_cases h0 : fails 0 = true <;> by_cases h1 : fails 1 = true <;>
    by_cases h2 : fails 2 = true <;> by_cases h3 : fails 3 = true <;>
    by_cases h4 : fails 4 = true <;>
    by_cases hc : uc.db.users.any (refundable e) = true <;>
    simp only [RefundToken, filter_length_eq_zero] <;>
    simp [refundedStore, h0, h1, h2, h3, h4, hc, insertHistory]

theorem RefundToken_noFaults (uc : UserClient) (now : Int) (e : String) (c : Int) :
    RefundToken uc noFaults now e c =
      if uc.db.users.any (refundable e) then
        (none, ⟨refundedStore uc.db now e c, cacheDelete uc.cache e⟩)
      else (some (.internal ("no tokens to refund for user " ++ e)), uc) := by
  by_cases hc : uc.db.users.any (refundable e) = true <;>
    simp only [RefundToken, filter_length_eq_zero] <;>
    simp [refundedStore, noFaults, hc, insertHistory]

theorem SetAlias_cases (sc : Schema) (isProfane : String → Bool) (uc : UserClient)
    (fails : Nat → Bool) (now : Int) (e a : String) :
    ((SetAlias sc isProfane uc fails now e a).1 ≠ none ∧
      (SetAlias sc isProfane uc fails now e a).2 = uc) ∨
    ((SetAlias sc isProfane uc fails now e a).1 = none ∧
      (SetAlias sc isProfane uc fails now e a).2 =
        ⟨aliasSetStore uc.db now e (TrimSpace a), cacheDelete uc.cache e⟩) := by
  unfold SetAlias
  simp only []
  by_cases hA : TrimSpace a = ""
  · simp [hA]
  by_cases hL : (TrimSpace a).utf8ByteSize > 24
  · simp [hA, hL]
  by_cases hR : validAliasRegex (TrimSpace a) = true
  swap
  · simp [hA, hL, hR]
  by_cases hP : isProfane (TrimSpace a) = true
  · simp [hA, hL, hR, hP]
  by_cases h0 : fails 0 = true
  · simp [hA, hL, hR, hP, h0]
  by_cases h1 : fails 1 = true
  · simp [hA, hL, hR, hP, h0, h1]
  simp only [hA, hL, hR, hP, h0, h1, if_false, if_true, Bool.not_true, Bool.false_eq_true]
  split
  · simp
  · by_cases h2 : fails 2 = true
    · simp [h2]
    by_cases hT : aliasTaken sc uc.db e (TrimSpace a) = true
    · simp [h2, hT]
    by_cases h3 : fails 3 = true
    · simp [h2, hT, h3]
    by_cases h4 : fails 4 = true
    · simp [h2, hT, h3, h4]
    · simp [h2, hT, h3, h4, aliasSetStore, insertHistory]

theorem RemoveAlias_cases (uc : UserClient) (fails : Nat → Bool) (now : Int) (e : String) :
    ((RemoveAlias uc fails now e).1 ≠ none ∧ (RemoveAlias uc fails now e).2 = uc) ∨
    (∃ row, findActiveAlias uc.db e = some row ∧ (RemoveAlias uc fails now e).1 = none ∧
      (RemoveAlias uc fails now e).2 =
        ⟨aliasRemovedStore uc.db now e row.alias_, cacheDelete uc.cache e⟩) := by
  unfold RemoveAlias
  simp only []
  by_cases h0 : fails 0 = true
  · simp [h0]
  by_cases h1 : fails 1 = true
  · simp [h0, h1]
  cases hf : findActiveAlias uc.db e with
  | none => simp [h0, h1]
  | some row =>
    by_cases h2 : fails 2 = true
    · simp [h0, h1, h2]
    by_cases h3 : fails 3 = true
    · simp [h0, h1, h2, h3]
    by_cases hz : softDeleteAliasRows uc.db.user_aliases e = 0
    · simp [h0, h1, h2, h3, hz]
    by_cases h4 : fails 4 = true
    · simp [h0, h1, h2, h3, hz, h4]
    by_cases h5 : fails 5 = true
    · simp [h0, h1, h2, h3, hz, h4, h5]
    · simp [h0, h1, h2, h3, hz, h4, h5, aliasRemovedStore, insertHistory]

theorem GetUserProfile_cases (uc : UserClient) (fails : Nat → Bool) (now : Int) (e : String) :
    (∃ p, cacheGet uc.cache e = some p ∧ GetUserProfile uc fails now e = (.ok p, uc)) ∨
    (cacheGet uc.cache e = none ∧ (∃ err, GetUserProfile uc fails now e = (.error err, uc))) ∨
    (∃ u, cacheGet uc.cache e = none ∧ findUser uc.db e = some u ∧
      GetUserProfile uc fails now e =
        (.ok (profileOfRow uc.db e u), ⟨uc.db, cacheSet uc.cache e (profileOfRow uc.db e u)⟩)) ∨
    (cacheGet uc.cache e = none ∧ findUser uc.db e = none ∧
      GetUserProfile uc fails now e =
        (.ok ⟨e, "", 0, 0, 0, now, now⟩,
          ⟨{ uc.db with users := uc.db.users ++ [⟨e, 0, 0, 0, 0, now, now⟩] },
            cacheSet uc.cache e ⟨e, "", 0, 0, 0, now, now⟩⟩)) := by
  unfold GetUserProfile getUserProfileData
  cases hc : cacheGet uc.cache e with
  | some p => simp
  | none =>
    by_cases h0 : fails 0 = true
    · simp [h0]
    · cases hu : findUser uc.db e with
      | none =>
        by_cases h1 : fails 1 = true
        · simp [h0, h1]
        · simp [h0, h1]
      | some u => simp [h0, profileOfRow]

/-! ## Exactly-once completion -/

theorem EconomyStep_completed {sc : Schema} {isProfane : String → Bool} {uc uc' : UserClient}
    (h : EconomyStep sc isProfane uc uc') :
    uc'.db.user_challenges_completed = uc.db.user_challenges_completed ∨
    ∃ e c now, hasCompleted uc.db.user_challenges_completed e c = false ∧
      uc'.db.user_challenges_completed = uc.db.user_challenges_completed ++ [⟨e, c, now⟩] := by
  cases h with
  | getProfile fails now e =>
    rcases GetUserProfile_cases uc fails now e with ⟨p, _, h⟩ | ⟨_, err, h⟩ | ⟨u, _, _, h⟩ |
      ⟨_, _, h⟩ <;> simp [h]
  | completeChallenge fails now e p c =>
    rcases CompleteChallenge_cases uc fails now e p c with ⟨_, h⟩ | ⟨_, hc, h⟩
    · simp [h]
    · right; exact ⟨e, c, now, hc, by simp [h, completedStore]⟩
  | completeExamChallenge fails now e c =>
    rcases CompleteExamChallenge_cases uc fails now e c with ⟨_, h⟩ | ⟨_, hc, h⟩
    · simp [h]
    · right; exact ⟨e, c, now, hc, by simp [h, examCompletedStore]⟩
  | burnToken fails now e c =>
    rcases BurnToken_cases uc fails now e c with ⟨_, h⟩ | ⟨_, _, h⟩ <;>
      simp [h, burnedStore]
  | refundToken fails now e c =>
    rcases RefundToken_cases uc fails now e c with ⟨_, h⟩ | ⟨_, _, h⟩ <;>
      simp [h, refundedStore]
  | setAlias fails now e a =>
    rcases SetAlias_cases sc isProfane uc fails now e a with ⟨_, h⟩ | ⟨_, h⟩ <;>
      simp [h, aliasSetStore]
  | removeAlias fails now e =>
    rcases RemoveAlias_cases uc fails now e with ⟨_, h⟩ | ⟨row, _, _, h⟩ <;>
      simp [h, aliasRemovedStore]

theorem completionCount_append_fresh (rows : List CompletedRow) (e e' : String)
    (c c' now : Int) (hfresh : hasCompleted rows e c = false)
    (hle : rows.countP (fun r => r.user_email == e' && r.challenge_id == c') ≤ 1) :
    (rows ++ [(⟨e, c, now⟩ : CompletedRow)]).countP
      (fun r => r.user_email == e' && r.challenge_id == c') ≤ 1 := by
  rw [List.countP_append]
  by_cases hp : e = e' ∧ c = c'
  · obtain ⟨rfl, rfl⟩ := hp
    have hz : rows.countP (fun r => r.user_email == e && r.challenge_id == c) = 0 := by
      rw [List.countP_eq_zero]
      intro r hr
      unfold hasCompleted at hfresh
      rw [List.any_eq_false] at hfresh
      exact hfresh r hr
    rw [hz]
    simp [List.countP_cons]
  · have : ([(⟨e, c, now⟩ : CompletedRow)]).countP
        (fun r => r.user_email == e' && r.challenge_id == c') = 0 := by
      rw [List.countP_eq_zero]
      intro r hr
      simp only [List.mem_singleton] at hr
      subst hr
      simpa using hp
    omega

theorem Reachable_completion_unique {sc : Schema} {isProfane : String → Bool} {uc : UserClient}
    (h : Reachable sc isProfane uc) (e : String) (c : Int) : completionCount uc.db e c ≤ 1 := by
  induction h with
  | init challenges flags => simp [completionCount]
  | step _ hstep ih =>
    unfold completionCount at ih ⊢
    rcases EconomyStep_completed hstep with h | ⟨e1, c1, now, hfresh, h⟩
    · rw [h]; exact ih
    · rw [h]; exact completionCount_append_fresh _ e1 e c1 c now hfresh ih

/-- C1. In every state reachable through the Economy operations each (userEmail,
challengeId) pair has at most one completion record, and `CompleteChallenge` as well as
`CompleteExamChallenge`, called for a pair that already has a record, return an error and
leave the whole client state (store and cache, hence the user's tokens, points, exam
counter and history log) exactly as it was, whatever the driver faults. -/
theorem C1_exactly_once_completion (sc : Schema) (isProfane : String → Bool)
    (uc : UserClient) (h : Reachable sc isProfane uc) :
    (∀ e c, completionCount uc.db e c ≤ 1) ∧
    (∀ fails now e p c, hasCompleted uc.db.user_challenges_completed e c = true →
      (CompleteChallenge uc fails now e p c).1 ≠ none ∧
      (CompleteChallenge uc fails now e p c).2 = uc) ∧
    (∀ fails now e c, hasCompleted uc.db.user_challenges_completed e c = true →
      (CompleteExamChallenge uc fails now e c).1 ≠ none ∧
      (CompleteExamChallenge uc fails now e c).2 = uc) := by
  refine ⟨fun e c => Reachable_completion_unique h e c, ?_, ?_⟩
  · intro fails now e p c hc
    rcases CompleteChallenge_cases uc fails now e p c with h | ⟨_, h, _⟩
    · exact h
    · rw [hc] at h; exact absurd h (by simp)
  · intro fails now e c hc
    rcases CompleteExamChallenge_cases uc fails now e c with h | ⟨_, h, _⟩
    · exact h
    · rw [hc] at h; exact absurd h (by simp)

/-- Witness for C1: after one completion of challenge 1 by `ann@example.com` the state is
reachable, holds the record, and a second completion of the same pair is refused and
changes nothing. -/
theorem C1_exactly_once_completion_witness :
    hasCompleted (CompleteChallenge freshClient noFaults 100 "ann@example.com" 10 1).2.db.user_challenges_completed
        "ann@example.com" 1 = true ∧
    (CompleteChallenge (CompleteChallenge freshClient noFaults 100 "ann@example.com" 10 1).2
        noFaults 200 "ann@example.com" 10 1).1 ≠ none ∧
    (CompleteChallenge (CompleteChallenge freshClient noFaults 100 "ann@example.com" 10 1).2
        noFaults 200 "ann@example.com" 10 1).2 =
      (CompleteChallenge freshClient noFaults 100 "ann@example.com" 10 1).2 :=
  have hr : Reachable ⟨true⟩ (fun _ => false)
      (CompleteChallenge freshClient noFaults 100 "ann@example.com" 10 1).2 :=
    Reachable.step (Reachable.init [] [])
      (EconomyStep.completeChallenge freshClient noFaults 100 "ann@example.com" 10 1)
  have hc : hasCompleted
      (CompleteChallenge freshClient noFaults 100 "ann@example.com" 10 1).2.db.user_challenges_completed
      "ann@example.com" 1 = true := by decide
  ⟨hc, (C1_exactly_once_completion ⟨true⟩ (fun _ => false) _ hr).2.1 noFaults 200
    "ann@example.com" 10 1 hc⟩

/-! ## Rows of one user -/

theorem find_map_keep_email (rows : List UserRow) (e : String) (f : UserRow → UserRow)
    (hf : ∀ r, (f r).user_email = r.user_email) :
    (rows.map f).find? (fun r => r.user_email == e) =
      (rows.find? (fun r => r.user_email == e)).map f := by
  induction rows with
  | nil => rfl
  | cons x xs ih =>
    by_cases hx : x.user_email = e
    · simp [List.find?_cons, hf, hx]
    · simp [List.find?_cons, hf, hx, ih]

theorem filter_map_other (rows : List UserRow) (e : String) (f : UserRow → UserRow)
    (hf : ∀ r, (f r).user_email = r.user_email) (hid : ∀ r, r.user_email ≠ e → f r = r) :
    (rows.map f).filter (fun r => !(r.user_email == e)) =
      rows.filter (fun r => !(r.user_email == e)) := by
  induction rows with
  | nil => rfl
  | cons x xs ih =>
    by_cases hx : x.user_email = e
    · simp [List.filter_cons, hf, hx, ih]
    · simp [List.filter_cons, hf, hx, ih, hid x hx]

theorem any_email_iff_find (rows : List UserRow) (e : String) :
    rows.any (fun r => r.user_email == e) = (rows.find? (fun r => r.user_email == e)).isSome := by
  induction rows with
  | nil => rfl
  | cons x xs ih =>
    by_cases hx : x.user_email = e
    · simp [List.find?_cons, hx]
    · simp [List.find?_cons, hx, ih]

theorem find_append_new (rows : List UserRow) (e : String) (r : UserRow)
    (hr : r.user_email = e) (hnone : rows.find? (fun r => r.user_email == e) = none) :
    (rows ++ [r]).find? (fun r => r.user_email == e) = some r := by
  simp [List.find?_append, hnone, hr]

theorem filter_append_own (rows : List UserRow) (e : String) (r : UserRow)
    (hr : r.user_email = e) :
    (rows ++ [r]).filter (fun r => !(r.user_email == e)) =
      rows.filter (fun r => !(r.user_email == e)) := by
  simp [List.filter_append, hr]

/-! ## `CompleteChallenge` -/

theorem upsertCompletion_find_some (rows : List UserRow) (e : String) (p now : Int)
    (u : UserRow) (h : rows.find? (fun r => r.user_email == e) = some u) :
    (upsertCompletion rows e p now).find? (fun r => r.user_email == e) =
      some { u with tokens_available := u.tokens_available + 1,
                    points_achieved := u.points_achieved + p,
                    last_challenge_solved_timestamp := now } := by
  unfold upsertCompletion
  rw [any_email_iff_find, h]
  simp only [Option.isSome_some, if_true]
  rw [find_map_keep_email _ _ _ (by intro r; split <;> rfl), h]
  have he : u.user_email = e := by simpa using List.find?_some h
  simp [he]

theorem upsertCompletion_find_none (rows : List UserRow) (e : String) (p now : Int)
    (h : rows.find? (fun r => r.user_email == e) = none) :
    (upsertCompletion rows e p now).find? (fun r => r.user_email == e) =
      some ⟨e, 1, 0, p, 0, now, now⟩ := by
  unfold upsertCompletion
  rw [any_email_iff_find, h]
  simp only [Option.isSome_none, Bool.false_eq_true, if_false]
  exact find_append_new _ _ _ rfl h

theorem upsertCompletion_other (rows : List UserRow) (e : String) (p now : Int) :
    (upsertCompletion rows e p now).filter (fun r => !(r.user_email == e)) =
      rows.filter (fun r => !(r.user_email == e)) := by
  unfold upsertCompletion
  split
  · apply filter_map_other
    · intro r; split <;> rfl
    · intro r hr; simp [hr]
  · exact filter_append_own _ _ _ rfl

theorem completionCount_fresh (rows : List CompletedRow) (e : String) (c now : Int)
    (hfresh : hasCompleted rows e c = false) :
    (rows ++ [(⟨e, c, now⟩ : CompletedRow)]).countP
      (fun r => r.user_email == e && r.challenge_id == c) = 1 := by
  have hz : rows.countP (fun r => r.user_email == e && r.challenge_id == c) = 0 := by
    rw [List.countP_eq_zero]
    intro r hr
    unfold hasCompleted at hfresh
    rw [List.any_eq_false] at hfresh
    exact hfresh r hr
  rw [List.countP_append, hz]
  simp [List.countP_cons]

/-- C2. `CompleteChallenge` succeeds for a pair without completion record when no driver
call fails, and every successful call was made for such a pair and: adds exactly 1 to
`tokens_available` and `pointAmount` to `points_achieved` of the user's row, leaving
`tokens_burned` and `exam_challenges_solved` (and the e-mail) as they were, or creates the
row (1, 0, pointAmount, 0) when absent; appends exactly one completion record for the
pair, which is then its only record; appends exactly one history entry; and changes no
row of another user nor any alias row. -/
theorem C2_completeChallenge_effect (uc : UserClient) (fails : Nat → Bool) (now : Int)
    (e : String) (p c : Int) :
    (hasCompleted uc.db.user_challenges_completed e c = false →
      (CompleteChallenge uc noFaults now e p c).1 = none) ∧
    ((CompleteChallenge uc fails now e p c).1 = none →
      hasCompleted uc.db.user_challenges_completed e c = false ∧
      (∀ u, findUser uc.db e = some u →
        findUser (CompleteChallenge uc fails now e p c).2.db e =
          some { u with tokens_available := u.tokens_available + 1,
                        points_achieved := u.points_achieved + p,
                        last_challenge_solved_timestamp := now }) ∧
      (findUser uc.db e = none →
        findUser (CompleteChallenge uc fails now e p c).2.db e =
          some ⟨e, 1, 0, p, 0, now, now⟩) ∧
      (CompleteChallenge uc fails now e p c).2.db.user_challenges_completed =
        uc.db.user_challenges_completed ++ [⟨e, c, now⟩] ∧
      completionCount (CompleteChallenge uc fails now e p c).2.db e c = 1 ∧
      (CompleteChallenge uc fails now e p c).2.db.user_history_log =
        uc.db.user_history_log ++
          [⟨e, "Completed challenge " ++ toString c ++ ": added 1 token and " ++
              toString p ++ " points", now⟩] ∧
      otherUsers (CompleteChallenge uc fails now e p c).2.db e = otherUsers uc.db e ∧
      (CompleteChallenge uc fails now e p c).2.db.user_aliases = uc.db.user_aliases) := by
  constructor
  · intro hc
    rw [CompleteChallenge_noFaults uc now e p c hc]
  · intro hok
    rcases CompleteChallenge_cases uc fails now e p c with ⟨hne, _⟩ | ⟨_, hc, h⟩
    · exact absurd hok hne
    · rw [h]
      refine ⟨hc, ?_, ?_, rfl, ?_, rfl, ?_, rfl⟩
      · intro u hu
        exact upsertCompletion_find_some _ _ _ _ _ hu
      · intro hu
        exact upsertCompletion_find_none _ _ _ _ hu
      · exact completionCount_fresh _ _ _ _ hc
      · exact upsertCompletion_other _ _ _ _

/-- Witness for C2: `ann@example.com`, holding 1 token and 10 points, completes
challenge 2 for 5 points and then holds 2 tokens and 15 points. -/
theorem C2_completeChallenge_effect_witness :
    findUser (CompleteChallenge annClient noFaults 200 "ann@example.com" 5 2).2.db
        "ann@example.com" =
      some ⟨"ann@example.com", 2, 0, 15, 0, 100, 200⟩ :=
  ((C2_completeChallenge_effect annClient noFaults 200 "ann@example.com" 5 2).2
    (by decide)).2.1 ⟨"ann@example.com", 1, 0, 10, 0, 100, 100⟩ (by decide)

/-! ## `BurnToken` and `RefundToken` -/

theorem unique_row (db : Store) (hU : UsersUnique db) (e : String) (u r : UserRow)
    (hu : findUser db e = some u) (hr : r ∈ db.users) (he : r.user_email = e) : r = u := by
  unfold UsersUnique at hU
  unfold findUser at hu
  have hmem : u ∈ db.users := List.mem_of_find?_eq_some hu
  have hue : u.user_email = e := by simpa using List.find?_some hu
  exact List.inj_on_of_nodup_map hU hr hmem (by rw [he, hue])

theorem any_burnable_iff (db : Store) (hU : UsersUnique db) (e : String) :
    db.users.any (burnable e) = true ↔
      ∃ u, findUser db e = some u ∧ 1 ≤ u.tokens_available := by
  constructor
  · intro h
    rw [List.any_eq_true] at h
    obtain ⟨r, hr, hb⟩ := h
    simp only [burnable, Bool.and_eq_true, beq_iff_eq, decide_eq_true_eq] at hb
    cases hf : findUser db e with
    | none =>
      unfold findUser at hf
      rw [List.find?_eq_none] at hf
      exact absurd (by simpa using hb.1) (hf r hr)
    | some u =>
      have := unique_row db hU e u r hf hr hb.1
      subst this
      exact ⟨r, rfl, hb.2⟩
  · rintro ⟨u, hu, ht⟩
    rw [List.any_eq_true]
    refine ⟨u, List.mem_of_find?_eq_some hu, ?_⟩
    have hue : u.user_email = e := by simpa using List.find?_some hu
    simp [burnable, hue, ht]

theorem any_refundable_iff (db : Store) (hU : UsersUnique db) (e : String) :
    db.users.any (refundable e) = true ↔
      ∃ u, findUser db e = some u ∧ 1 ≤ u.tokens_burned := by
  constructor
  · intro h
    rw [List.any_eq_true] at h
    obtain ⟨r, hr, hb⟩ := h
    simp only [refundable, Bool.and_eq_true, beq_iff_eq, decide_eq_true_eq] at hb
    cases hf : findUser db e with
    | none =>
      unfold findUser at hf
      rw [List.find?_eq_none] at hf
      exact absurd (by simpa using hb.1) (hf r hr)
    | some u =>
      have := unique_row db hU e u r hf hr hb.1
      subst this
      exact ⟨r, rfl, hb.2⟩
  · rintro ⟨u, hu, ht⟩
    rw [List.any_eq_true]
    refine ⟨u, List.mem_of_find?_eq_some hu, ?_⟩
    have hue : u.user_email = e := by simpa using List.find?_some hu
    simp [refundable, hue, ht]

theorem burnUpdate_find (rows : List UserRow) (e : String) (u : UserRow)
    (h : rows.find? (fun r => r.user_email == e) = some u) (ht : 1 ≤ u.tokens_available) :
    (burnUpdate rows e).find? (fun r => r.user_email == e) =
      some { u with tokens_available := u.tokens_available - 1,
                    tokens_burned := u.tokens_burned + 1 } := by
  unfold burnUpdate
  rw [find_map_keep_email _ _ _ (by intro r; split <;> rfl), h]
  have hue : u.user_email = e := by simpa using List.find?_some h
  simp [burnable, hue, ht]

theorem burnUpdate_other (rows : List UserRow) (e : String) :
    (burnUpdate rows e).filter (fun r => !(r.user_email == e)) =
      rows.filter (fun r => !(r.user_email == e)) := by
  unfold burnUpdate
  apply filter_map_other
  · intro r; split <;> rfl
  · intro r hr; simp [burnable, hr]

theorem refundUpdate_find (rows : List UserRow) (e : String) (u : UserRow)
    (h : rows.find? (fun r => r.user_email == e) = some u) (ht : 1 ≤ u.tokens_burned) :
    (refundUpdate rows e).find? (fun r => r.user_email == e) =
      some { u with tokens_available := u.tokens_available + 1,
                    tokens_burned := u.tokens_burned - 1 } := by
  unfold refundUpdate
  rw [find_map_keep_email _ _ _ (by intro r; split <;> rfl), h]
  have hue : u.user_email = e := by simpa using List.find?_some h
  simp [refundable, hue, ht]

theorem refundUpdate_other (rows : List UserRow) (e : String) :
    (refundUpdate rows e).filter (fun r => !(r.user_email == e)) =
      rows.filter (fun r => !(r.user_email == e)) := by
  unfold refundUpdate
  apply filter_map_other
  · intro r; split <;> rfl
  · intro r hr; simp [refundable, hr]

theorem emails_map_keep (rows : List UserRow) (f : UserRow → UserRow)
    (hf : ∀ r, (f r).user_email = r.user_email) :
    (rows.map f).map (fun r => r.user_email) = rows.map (fun r => r.user_email) := by
  rw [List.map_map]
  apply List.map_congr_left
  intro r _
  exact hf r

theorem emails_append_new (rows : List UserRow) (x : UserRow)
    (hnew : rows.find? (fun r => r.user_email == x.user_email) = none)
    (h : (rows.map (fun r => r.user_email)).Nodup) :
    ((rows ++ [x]).map (fun r => r.user_email)).Nodup := by
  rw [List.map_append, List.nodup_append]
  refine ⟨h, by simp, ?_⟩
  intro e he hx
  simp only [List.map_cons, List.map_nil, List.mem_singleton] at hx
  rw [List.mem_map] at he
  obtain ⟨r, hr, hre⟩ := he
  rw [List.find?_eq_none] at hnew
  exact hnew r hr (by simp [hre, hx])

theorem EconomyStep_usersUnique {sc : Schema} {isProfane : String → Bool} {uc uc' : UserClient}
    (h : EconomyStep sc isProfane uc uc') (hU : UsersUnique uc.db) : UsersUnique uc'.db := by
  unfold UsersUnique at hU ⊢
  cases h with
  | getProfile fails now e =>
    rcases GetUserProfile_cases uc fails now e with ⟨p, _, h⟩ | ⟨_, err, h⟩ | ⟨u, _, _, h⟩ |
      ⟨_, hu, h⟩
    · rw [h]; exact hU
    · rw [h]; exact hU
    · rw [h]; exact hU
    · rw [h]; exact emails_append_new _ _ hu hU
  | completeChallenge fails now e p c =>
    rcases CompleteChallenge_cases uc fails now e p c with ⟨_, h⟩ | ⟨_, _, h⟩
    · rw [h]; exact hU
    · rw [h]
      simp only [completedStore, upsertCompletion]
      split
      · rw [emails_map_keep _ _ (by intro r; split <;> rfl)]; exact hU
      · rename_i hany
        apply emails_append_new _ _ _ hU
        rw [any_email_iff_find] at hany
        simpa using hany
  | completeExamChallenge fails now e c =>
    rcases CompleteExamChallenge_cases uc fails now e c with ⟨_, h⟩ | ⟨_, _, h⟩
    · rw [h]; exact hU
    · rw [h]
      simp only [examCompletedStore, upsertExamCompletion]
      split
      · rw [emails_map_keep _ _ (by intro r; split <;> rfl)]; exact hU
      · rename_i hany
        apply emails_append_new _ _ _ hU
        rw [any_email_iff_find] at hany
        simpa using hany
  | burnToken fails now e c =>
    rcases BurnToken_cases uc fails now e c with ⟨_, h⟩ | ⟨_, _, h⟩
    · rw [h]; exact hU
    · rw [h]
      simp only [burnedStore, burnUpdate]
      rw [emails_map_keep _ _ (by intro r; split <;> rfl)]; exact hU
  | refundToken fails now e c =>
    rcases RefundToken_cases uc fails now e c with ⟨_, h⟩ | ⟨_, _, h⟩
    · rw [h]; exact hU
    · rw [h]
      simp only [refundedStore, refundUpdate]
      rw [emails_map_keep _ _ (by intro r; split <;> rfl)]; exact hU
  | setAlias fails now e a =>
    rcases SetAlias_cases sc isProfane uc fails now e a with ⟨_, h⟩ | ⟨_, h⟩ <;>
      (rw [h]; exact hU)
  | removeAlias fails now e =>
    rcases RemoveAlias_cases uc fails now e with ⟨_, h⟩ | ⟨row, _, _, h⟩ <;>
      (rw [h]; exact hU)

/-- Every reachable state has one `users` row per e-mail. -/
theorem Reachable_usersUnique {sc : Schema} {isProfane : String → Bool} {uc : UserClient}
    (h : Reachable sc isProfane uc) : UsersUnique uc.db := by
  induction h with
  | init challenges flags => simp [UsersUnique]
  | step _ hstep ih => exact EconomyStep_usersUnique hstep ih

/-- C3. On a store with one `users` row per e-mail, `BurnToken` returns 0 or 1.  It
returns 1 only without error, only when the user's row exists with
`tokens_available >= 1`, and then that row has `tokens_available - 1` and
`tokens_burned + 1`, one history entry is appended and other users' rows are untouched.
Whenever it returns 0 the client state (balances, history log, cache) is unchanged.  When
it returns no error it returned 1 exactly when the row exists with
`tokens_available >= 1`; and when no driver call fails it returns no error, so a missing
row or a zero balance gives `(0, nil)`. -/
theorem C3_burnToken (uc : UserClient) (fails : Nat → Bool) (now : Int) (e : String) (c : Int)
    (hU : UsersUnique uc.db) :
    ((BurnToken uc fails now e c).1.1 = 0 ∨ (BurnToken uc fails now e c).1.1 = 1) ∧
    ((BurnToken uc fails now e c).1.1 = 1 →
      (BurnToken uc fails now e c).1.2 = none ∧
      ∃ u, findUser uc.db e = some u ∧ 1 ≤ u.tokens_available ∧
        findUser (BurnToken uc fails now e c).2.db e =
          some { u with tokens_available := u.tokens_available - 1,
                        tokens_burned := u.tokens_burned + 1 } ∧
        (BurnToken uc fails now e c).2.db.user_history_log =
          uc.db.user_history_log ++
            [⟨e, "Burned 1 token for exam challenge " ++ toString c, now⟩] ∧
        otherUsers (BurnToken uc fails now e c).2.db e = otherUsers uc.db e) ∧
    ((BurnToken uc fails now e c).1.1 = 0 → (BurnToken uc fails now e c).2 = uc) ∧
    ((BurnToken uc fails now e c).1.2 = none →
      ((BurnToken uc fails now e c).1.1 = 1 ↔
        ∃ u, findUser uc.db e = some u ∧ 1 ≤ u.tokens_available)) ∧
    (BurnToken uc noFaults now e c).1.2 = none := by
  have key : (BurnToken uc fails now e c).1.1 = 1 →
      (BurnToken uc fails now e c).1.2 = none ∧
      ∃ u, findUser uc.db e = some u ∧ 1 ≤ u.tokens_available ∧
        findUser (BurnToken uc fails now e c).2.db e =
          some { u with tokens_available := u.tokens_available - 1,
                        tokens_burned := u.tokens_burned + 1 } ∧
        (BurnToken uc fails now e c).2.db.user_history_log =
          uc.db.user_history_log ++
            [⟨e, "Burned 1 token for exam challenge " ++ toString c, now⟩] ∧
        otherUsers (BurnToken uc fails now e c).2.db e = otherUsers uc.db e := by
    intro h1
    rcases BurnToken_cases uc fails now e c with ⟨h0, _⟩ | ⟨hr, hany, hst⟩
    · rw [h0] at h1; exact absurd h1 (by decide)
    · obtain ⟨u, hu, ht⟩ := (any_burnable_iff uc.db hU e).1 hany
      rw [hr, hst]
      exact ⟨rfl, u, hu, ht, burnUpdate_find _ _ _ hu ht, rfl, burnUpdate_other _ _⟩
  refine ⟨?_, key, ?_, ?_, ?_⟩
  · rcases BurnToken_cases uc fails now e c with ⟨h0, _⟩ | ⟨hr, _, _⟩
    · exact Or.inl h0
    · exact Or.inr (by rw [hr])
  · intro h0
    rcases BurnToken_cases uc fails now e c with ⟨_, h⟩ | ⟨hr, _, _⟩
    · exact h
    · rw [hr] at h0; exact absurd h0 (by decide)
  · intro hnone
    constructor
    · intro h1
      obtain ⟨_, u, hu, ht, _⟩ := key h1
      exact ⟨u, hu, ht⟩
    · intro hex
      have hany := (any_burnable_iff uc.db hU e).2 hex
      by_cases h0 : fails 0 = true
      · simp [BurnToken, h0] at hnone
      by_cases h1 : fails 1 = true
      · simp [BurnToken, h0, h1] at hnone
      by_cases h2 : fails 2 = true
      · simp [BurnToken, h0, h1, h2, hany] at hnone
      by_cases h3 : fails 3 = true
      · simp [BurnToken, h0, h1, h2, h3, hany] at hnone
      · simp [BurnToken, h0, h1, h2, h3, hany]
  · rw [BurnToken_noFaults]
    split <;> rfl

/-- Witness for C3: `ann@example.com` holds one token, the burn returns 1 and leaves
0 available and 1 burned. -/
theorem C3_burnToken_witness :
    (BurnToken annClient noFaults 300 "ann@example.com" 7).1.2 = none ∧
    ∃ u, findUser annClient.db "ann@example.com" = some u ∧ 1 ≤ u.tokens_available ∧
      findUser (BurnToken annClient noFaults 300 "ann@example.com" 7).2.db "ann@example.com" =
        some { u with tokens_available := u.tokens_available - 1,
                      tokens_burned := u.tokens_burned + 1 } ∧
      (BurnToken annClient noFaults 300 "ann@example.com" 7).2.db.user_history_log =
        annClient.db.user_history_log ++
          [⟨"ann@example.com", "Burned 1 token for exam challenge " ++ toString (7 : Int), 300⟩] ∧
      otherUsers (BurnToken annClient noFaults 300 "ann@example.com" 7).2.db "ann@example.com" =
        otherUsers annClient.db "ann@example.com" :=
  (C3_burnToken annClient noFaults 300 "ann@example.com" 7
    (by unfold UsersUnique; decide)).2.1 (by decide)

theorem burnUpdate_emails (rows : List UserRow) (e : String) :
    (burnUpdate rows e).map (fun r => r.user_email) = rows.map (fun r => r.user_email) := by
  unfold burnUpdate
  rw [List.map_map]
  apply List.map_congr_left
  intro r _
  simp only [Function.comp]
  split <;> rfl

/-- C4. On a store with one `users` row per e-mail, a `RefundToken` that returns no error
found the user's row with `tokens_burned >= 1` and left it with `tokens_available + 1` and
`tokens_burned - 1`, appended one history entry and touched no other user's row; a
`RefundToken` that returns an error leaves the client state (balances, history log,
cache) unchanged; when no driver call fails it succeeds exactly when the row exists with
`tokens_burned >= 1`; and after a `BurnToken` that returned 1 on a row with
`tokens_burned >= 0`, a `RefundToken` without driver faults succeeds and gives the user
the row held before the burn. -/
theorem C4_refundToken (uc : UserClient) (fails : Nat → Bool) (now : Int) (e : String)
    (c : Int) (hU : UsersUnique uc.db) :
    ((RefundToken uc fails now e c).1 = none →
      ∃ u, findUser uc.db e = some u ∧ 1 ≤ u.tokens_burned ∧
        findUser (RefundToken uc fails now e c).2.db e =
          some { u with tokens_available := u.tokens_available + 1,
                        tokens_burned := u.tokens_burned - 1 } ∧
        (RefundToken uc fails now e c).2.db.user_history_log =
          uc.db.user_history_log ++
            [⟨e, "Refunded 1 token for exam challenge " ++ toString c, now⟩] ∧
        otherUsers (RefundToken uc fails now e c).2.db e = otherUsers uc.db e) ∧
    ((RefundToken uc fails now e c).1 ≠ none → (RefundToken uc fails now e c).2 = uc) ∧
    ((RefundToken uc noFaults now e c).1 = none ↔
      ∃ u, findUser uc.db e = some u ∧ 1 ≤ u.tokens_burned) ∧
    (∀ (bfails : Nat → Bool) (bnow : Int) (bc : Int) (u : UserRow),
      findUser uc.db e = some u → 0 ≤ u.tokens_burned →
      (BurnToken uc bfails bnow e bc).1.1 = 1 →
      (RefundToken (BurnToken uc bfails bnow e bc).2 noFaults now e c).1 = none ∧
      findUser (RefundToken (BurnToken uc bfails bnow e bc).2 noFaults now e c).2.db e =
        some u) := by
  refine ⟨?_, ?_, ?_, ?_⟩
  · intro hok
    rcases RefundToken_cases uc fails now e c with ⟨hne, _⟩ | ⟨_, hany, hst⟩
    · exact absurd hok hne
    · obtain ⟨u, hu, ht⟩ := (any_refundable_iff uc.db hU e).1 hany
      rw [hst]
      exact ⟨u, hu, ht, refundUpdate_find _ _ _ hu ht, rfl, refundUpdate_other _ _⟩
  · intro hne
    rcases RefundToken_cases uc fails now e c with ⟨_, h⟩ | ⟨hok, _, _⟩
    · exact h
    · exact absurd hok hne
  · rw [RefundToken_noFaults, ← any_refundable_iff uc.db hU e]
    by_cases h : uc.db.users.any (refundable e) = true <;> simp [h]
  · intro bfails bnow bc u hu hnn hb
    rcases BurnToken_cases uc bfails bnow e bc with ⟨h0, _⟩ | ⟨_, hany, hst⟩
    · rw [h0] at hb; exact absurd hb (by decide)
    · obtain ⟨u', hu', ht⟩ := (any_burnable_iff uc.db hU e).1 hany
      have huu : u' = u := by rw [hu] at hu'; exact (Option.some.inj hu').symm
      subst huu
      have hf1 : findUser (burnedStore uc.db bnow e bc) e =
          some { u' with tokens_available := u'.tokens_available - 1,
                         tokens_burned := u'.tokens_burned + 1 } :=
        burnUpdate_find _ _ _ hu ht
      have hU1 : UsersUnique (burnedStore uc.db bnow e bc) := by
        unfold UsersUnique burnedStore
        simp only [burnUpdate_emails]
        exact hU
      have hany1 : (burnedStore uc.db bnow e bc).users.any (refundable e) = true :=
        (any_refundable_iff _ hU1 e).2 ⟨_, hf1, by simp only; omega⟩
      rw [hst, RefundToken_noFaults]
      rw [if_pos hany1]
      refine ⟨rfl, ?_⟩
      have := refundUpdate_find _ _ _ hf1 (by simp only; omega)
      simp only [refundedStore, findUser]
      rw [this]
      simp

/-- Witness for C4: after her burn `ann@example.com` has `tokens_burned = 1`; the refund
succeeds and restores 1 available and 0 burned. -/
theorem C4_refundToken_witness :
    ∃ u, findUser annBurned.db "ann@example.com" = some u ∧ 1 ≤ u.tokens_burned ∧
      findUser (RefundToken annBurned noFaults 400 "ann@example.com" 7).2.db
          "ann@example.com" =
        some { u with tokens_available := u.tokens_available + 1,
                      tokens_burned := u.tokens_burned - 1 } ∧
      (RefundToken annBurned noFaults 400 "ann@example.com" 7).2.db.user_history_log =
        annBurned.db.user_history_log ++
          [⟨"ann@example.com", "Refunded 1 token for exam challenge " ++ toString (7 : Int),
            400⟩] ∧
      otherUsers (RefundToken annBurned noFaults 400 "ann@example.com" 7).2.db
          "ann@example.com" = otherUsers annBurned.db "ann@example.com" :=
  (C4_refundToken annBurned noFaults 400 "ann@example.com" 7
    (by unfold UsersUnique; decide)).1 (by decide)

/-! ## Non-negative counters -/

theorem nonNeg_map (rows : List UserRow) (f : UserRow → UserRow)
    (hf : ∀ r, RowNonNeg r → RowNonNeg (f r)) (h : ∀ r ∈ rows, RowNonNeg r) :
    ∀ r ∈ rows.map f, RowNonNeg r := by
  intro r hr
  rw [List.mem_map] at hr
  obtain ⟨r0, hr0, rfl⟩ := hr
  exact hf r0 (h r0 hr0)

theorem nonNeg_append (rows : List UserRow) (x : UserRow) (hx : RowNonNeg x)
    (h : ∀ r ∈ rows, RowNonNeg r) : ∀ r ∈ rows ++ [x], RowNonNeg r := by
  intro r hr
  rw [List.mem_append, List.mem_singleton] at hr
  rcases hr with hr | rfl
  · exact h r hr
  · exact hx

theorem nonNeg_upsertCompletion (rows : List UserRow) (e : String) (p now : Int) (hp : 0 ≤ p)
    (h : ∀ r ∈ rows, RowNonNeg r) : ∀ r ∈ upsertCompletion rows e p now, RowNonNeg r := by
  unfold upsertCompletion
  split
  · apply nonNeg_map _ _ _ h
    intro r hr
    unfold RowNonNeg at hr ⊢
    split
    · simp only; omega
    · exact hr
  · apply nonNeg_append _ _ _ h
    unfold RowNonNeg
    simp only; omega

theorem nonNeg_upsertExamCompletion (rows : List UserRow) (e : String) (now : Int)
    (h : ∀ r ∈ rows, RowNonNeg r) : ∀ r ∈ upsertExamCompletion rows e now, RowNonNeg r := by
  unfold upsertExamCompletion
  split
  · apply nonNeg_map _ _ _ h
    intro r hr
    unfold RowNonNeg at hr ⊢
    split
    · simp only; omega
    · exact hr
  · apply nonNeg_append _ _ _ h
    unfold RowNonNeg
    simp only; omega

theorem nonNeg_burnUpdate (rows : List UserRow) (e : String)
    (h : ∀ r ∈ rows, RowNonNeg r) : ∀ r ∈ burnUpdate rows e, RowNonNeg r := by
  unfold burnUpdate
  apply nonNeg_map _ _ _ h
  intro r hr
  unfold RowNonNeg at hr ⊢
  split
  · rename_i hb
    simp only [burnable, Bool.and_eq_true, decide_eq_true_eq] at hb
    simp only; omega
  · exact hr

theorem nonNeg_refundUpdate (rows : List UserRow) (e : String)
    (h : ∀ r ∈ rows, RowNonNeg r) : ∀ r ∈ refundUpdate rows e, RowNonNeg r := by
  unfold refundUpdate
  apply nonNeg_map _ _ _ h
  intro r hr
  unfold RowNonNeg at hr ⊢
  split
  · rename_i hb
    simp only [refundable, Bool.and_eq_true, decide_eq_true_eq] at hb
    simp only; omega
  · exact hr

/-- C5 as stated fails: `ann@example.com` holds 10 points (all counters non-negative) and
`CompleteChallenge` accepts the point amount -20, which leaves her `points_achieved`
at -10. -/
theorem C5_negative_points_counterexample :
    NonNeg annClient.db ∧
    (CompleteChallenge annClient noFaults 200 "ann@example.com" (-20) 2).1 = none ∧
    ¬ NonNeg (CompleteChallenge annClient noFaults 200 "ann@example.com" (-20) 2).2.db := by
  refine ⟨?_, by decide, ?_⟩
  · unfold NonNeg RowNonNeg; decide
  · unfold NonNeg RowNonNeg; decide

/-- C5 amended. From a store whose profile rows all have non-negative
`tokens_available`, `tokens_burned`, `points_achieved` and `exam_challenges_solved`, every
Economy operation, for every argument, clock reading and driver fault, leaves all four
non-negative in every row, provided the point amount given to `CompleteChallenge` is
itself non-negative. -/
theorem C5_nonneg_preserved (sc : Schema) (isProfane : String → Bool) (uc : UserClient)
    (h : NonNeg uc.db) :
    (∀ fails now e, NonNeg (GetUserProfile uc fails now e).2.db) ∧
    (∀ fails now e p c, 0 ≤ p → NonNeg (CompleteChallenge uc fails now e p c).2.db) ∧
    (∀ fails now e c, NonNeg (CompleteExamChallenge uc fails now e c).2.db) ∧
    (∀ fails now e c, NonNeg (BurnToken uc fails now e c).2.db) ∧
    (∀ fails now e c, NonNeg (RefundToken uc fails now e c).2.db) ∧
    (∀ fails now e a, NonNeg (SetAlias sc isProfane uc fails now e a).2.db) ∧
    (∀ fails now e, NonNeg (RemoveAlias uc fails now e).2.db) := by
  refine ⟨?_, ?_, ?_, ?_, ?_, ?_, ?_⟩
  · intro fails now e
    rcases GetUserProfile_cases uc fails now e with ⟨p, _, hr⟩ | ⟨_, err, hr⟩ | ⟨u, _, _, hr⟩ |
      ⟨_, _, hr⟩
    · rw [hr]; exact h
    · rw [hr]; exact h
    · rw [hr]; exact h
    · rw [hr]
      exact nonNeg_append _ _ (by unfold RowNonNeg; simp) h
  · intro fails now e p c hp
    rcases CompleteChallenge_cases uc fails now e p c with ⟨_, hr⟩ | ⟨_, _, hr⟩
    · rw [hr]; exact h
    · rw [hr]; exact nonNeg_upsertCompletion _ _ _ _ hp h
  · intro fails now e c
    rcases CompleteExamChallenge_cases uc fails now e c with ⟨_, hr⟩ | ⟨_, _, hr⟩
    · rw [hr]; exact h
    · rw [hr]; exact nonNeg_upsertExamCompletion _ _ _ h
  · intro fails now e c
    rcases BurnToken_cases uc fails now e c with ⟨_, hr⟩ | ⟨_, _, hr⟩
    · rw [hr]; exact h
    · rw [hr]; exact nonNeg_burnUpdate _ _ h
  · intro fails now e c
    rcases RefundToken_cases uc fails now e c with ⟨_, hr⟩ | ⟨_, _, hr⟩
    · rw [hr]; exact h
    · rw [hr]; exact nonNeg_refundUpdate _ _ h
  · intro fails now e a
    rcases SetAlias_cases sc isProfane uc fails now e a with ⟨_, hr⟩ | ⟨_, hr⟩
    · rw [hr]; exact h
    · rw [hr]; exact h
  · intro fails now e
    rcases RemoveAlias_cases uc fails now e with ⟨_, hr⟩ | ⟨row, _, _, hr⟩
    · rw [hr]; exact h
    · rw [hr]; exact h

/-- Witness for C5 amended: from the non-negative store of `annClient` a completion worth
5 points keeps every counter non-negative. -/
theorem C5_nonneg_preserved_witness :
    NonNeg (CompleteChallenge annClient noFaults 200 "ann@example.com" 5 2).2.db :=
  (C5_nonneg_preserved ⟨true⟩ (fun _ => false) annClient
    (by unfold NonNeg RowNonNeg; decide)).2.1 noFaults 200 "ann@example.com" 5 2 (by decide)

/-! ## `CompleteExamChallenge` -/

theorem upsertExamCompletion_find_some (rows : List UserRow) (e : String) (now : Int)
    (u : UserRow) (h : rows.find? (fun r => r.user_email == e) = some u) :
    (upsertExamCompletion rows e now).find? (fun r => r.user_email == e) =
      some { u with tokens_available := u.tokens_available + 1,
                    exam_challenges_solved := u.exam_challenges_solved + 1,
                    last_exam_challenge_solved_timestamp := now } := by
  unfold upsertExamCompletion
  rw [any_email_iff_find, h]
  simp only [Option.isSome_some, if_true]
  rw [find_map_keep_email _ _ _ (by intro r; split <;> rfl), h]
  have he : u.user_email = e := by simpa using List.find?_some h
  simp [he]

theorem upsertExamCompletion_find_none (rows : List UserRow) (e : String) (now : Int)
    (h : rows.find? (fun r => r.user_email == e) = none) :
    (upsertExamCompletion rows e now).find? (fun r => r.user_email == e) =
      some ⟨e, 1, 0, 0, 1, now, now⟩ := by
  unfold upsertExamCompletion
  rw [any_email_iff_find, h]
  simp only [Option.isSome_none, Bool.false_eq_true, if_false]
  exact find_append_new _ _ _ rfl h

theorem upsertExamCompletion_other (rows : List UserRow) (e : String) (now : Int) :
    (upsertExamCompletion rows e now).filter (fun r => !(r.user_email == e)) =
      rows.filter (fun r => !(r.user_email == e)) := by
  unfold upsertExamCompletion
  split
  · apply filter_map_other
    · intro r; split <;> rfl
    · intro r hr; simp [hr]
  · exact filter_append_own _ _ _ rfl

/-- C6. `CompleteExamChallenge` succeeds for a pair without completion record when no
driver call fails, and every successful call was made for such a pair and: when the
profile row exists, adds exactly 1 to `tokens_available` and to `exam_challenges_solved`,
sets `last_exam_challenge_solved_timestamp` to the current time and leaves
`points_achieved`, `tokens_burned` and the other columns as they were; when the row is
absent, creates it with 1 token, 0 burned, 0 points, 1 exam challenge solved and the
current time as stamp; appends exactly one completion record for the pair, then its only
record; appends exactly one history entry; and changes no row of another user. -/
theorem C6_completeExamChallenge_effect (uc : UserClient) (fails : Nat → Bool) (now : Int)
    (e : String) (c : Int) :
    (hasCompleted uc.db.user_challenges_completed e c = false →
      (CompleteExamChallenge uc noFaults now e c).1 = none) ∧
    ((CompleteExamChallenge uc fails now e c).1 = none →
      hasCompleted uc.db.user_challenges_completed e c = false ∧
      (∀ u, findUser uc.db e = some u →
        findUser (CompleteExamChallenge uc fails now e c).2.db e =
          some { u with tokens_available := u.tokens_available + 1,
                        exam_challenges_solved := u.exam_challenges_solved + 1,
                        last_exam_challenge_solved_timestamp := now }) ∧
      (findUser uc.db e = none →
        findUser (CompleteExamChallenge uc fails now e c).2.db e =
          some ⟨e, 1, 0, 0, 1, now, now⟩) ∧
      (CompleteExamChallenge uc fails now e c).2.db.user_challenges_completed =
        uc.db.user_challenges_completed ++ [⟨e, c, now⟩] ∧
      completionCount (CompleteExamChallenge uc fails now e c).2.db e c = 1 ∧
      (CompleteExamChallenge uc fails now e c).2.db.user_history_log =
        uc.db.user_history_log ++
          [⟨e, "Completed exam challenge " ++ toString c ++ ": added 1 token", now⟩] ∧
      otherUsers (CompleteExamChallenge uc fails now e c).2.db e = otherUsers uc.db e) := by
  constructor
  · intro hc
    rw [CompleteExamChallenge_noFaults uc now e c hc]
  · intro hok
    rcases CompleteExamChallenge_cases uc fails now e c with ⟨hne, _⟩ | ⟨_, hc, h⟩
    · exact absurd hok hne
    · rw [h]
      refine ⟨hc, ?_, ?_, rfl, ?_, rfl, ?_⟩
      · intro u hu
        exact upsertExamCompletion_find_some _ _ _ _ hu
      · intro hu
        exact upsertExamCompletion_find_none _ _ _ hu
      · exact completionCount_fresh _ _ _ _ hc
      · exact upsertExamCompletion_other _ _ _

/-- Witness for C6: `ann@example.com` (1 token, 10 points, no exam solved, stamps 100)
completes exam challenge 9 at time 500: 2 tokens, 10 points, 1 exam solved, exam stamp
500. -/
theorem C6_completeExamChallenge_effect_witness :
    findUser (CompleteExamChallenge annClient noFaults 500 "ann@example.com" 9).2.db
        "ann@example.com" =
      some ⟨"ann@example.com", 2, 0, 10, 1, 500, 100⟩ :=
  ((C6_completeExamChallenge_effect annClient noFaults 500 "ann@example.com" 9).2
    (by decide)).2.1 ⟨"ann@example.com", 1, 0, 10, 0, 100, 100⟩ (by decide)

/-! ## Cache invalidation -/

theorem cacheGet_cacheDelete (cache : List (String × UserProfile)) (e : String) :
    cacheGet (cacheDelete cache e) e = none := by
  unfold cacheGet cacheDelete
  rw [Option.map_eq_none', List.find?_eq_none]
  intro x hx
  rw [List.mem_filter] at hx
  simpa using hx.2

/-- Every Economy mutation that returns success leaves no cache entry for its user. -/
theorem mutation_success_invalidates (sc : Schema) (isProfane : String → Bool)
    (uc : UserClient) (fails : Nat → Bool) (now : Int) (e : String) :
    (∀ a, (SetAlias sc isProfane uc fails now e a).1 = none →
      cacheGet (SetAlias sc isProfane uc fails now e a).2.cache e = none) ∧
    ((RemoveAlias uc fails now e).1 = none →
      cacheGet (RemoveAlias uc fails now e).2.cache e = none) ∧
    (∀ p c, (CompleteChallenge uc fails now e p c).1 = none →
      cacheGet (CompleteChallenge uc fails now e p c).2.cache e = none) ∧
    (∀ c, (CompleteExamChallenge uc fails now e c).1 = none →
      cacheGet (CompleteExamChallenge uc fails now e c).2.cache e = none) ∧
    (∀ c, (BurnToken uc fails now e c).1.1 = 1 →
      cacheGet (BurnToken uc fails now e c).2.cache e = none) ∧
    (∀ c, (RefundToken uc fails now e c).1 = none →
      cacheGet (RefundToken uc fails now e c).2.cache e = none) := by
  refine ⟨?_, ?_, ?_, ?_, ?_, ?_⟩
  · intro a hok
    rcases SetAlias_cases sc isProfane uc fails now e a with ⟨hne, _⟩ | ⟨_, h⟩
    · exact absurd hok hne
    · rw [h]; exact cacheGet_cacheDelete _ _
  · intro hok
    rcases RemoveAlias_cases uc fails now e with ⟨hne, _⟩ | ⟨row, _, _, h⟩
    · exact absurd hok hne
    · rw [h]; exact cacheGet_cacheDelete _ _
  · intro p c hok
    rcases CompleteChallenge_cases uc fails now e p c with ⟨hne, _⟩ | ⟨_, _, h⟩
    · exact absurd hok hne
    · rw [h]; exact cacheGet_cacheDelete _ _
  · intro c hok
    rcases CompleteExamChallenge_cases uc fails now e c with ⟨hne, _⟩ | ⟨_, _, h⟩
    · exact absurd hok hne
    · rw [h]; exact cacheGet_cacheDelete _ _
  · intro c h1
    rcases BurnToken_cases uc fails now e c with ⟨h0, _⟩ | ⟨_, _, h⟩
    · rw [h0] at h1; exact absurd h1 (by decide)
    · rw [h]; exact cacheGet_cacheDelete _ _
  · intro c hok
    rcases RefundToken_cases uc fails now e c with ⟨hne, _⟩ | ⟨_, _, h⟩
    · exact absurd hok hne
    · rw [h]; exact cacheGet_cacheDelete _ _

theorem cacheGet_cacheDelete_ne (cache : List (String × UserProfile)) (e e0 : String)
    (hne : e ≠ e0) : cacheGet (cacheDelete cache e0) e = cacheGet cache e := by
  unfold cacheGet cacheDelete
  congr 1
  induction cache with
  | nil => rfl
  | cons x xs ih =>
    rw [List.filter_cons]
    by_cases hx0 : x.1 = e0
    · have hxe : (x.1 == e) = false := by
        rw [hx0]; exact beq_false_of_ne (fun h => hne h.symm)
      have h0 : (!(x.1 == e0)) = false := by simp [hx0]
      rw [h0, List.find?_cons, hxe]
      exact ih
    · have h0 : (!(x.1 == e0)) = true := by simp [hx0]
      rw [h0, if_pos rfl, List.find?_cons, List.find?_cons]
      cases hxe : (x.1 == e)
      · exact ih
      · rfl

theorem cacheGet_cacheSet (cache : List (String × UserProfile)) (e e0 : String)
    (p0 : UserProfile) :
    cacheGet (cacheSet cache e0 p0) e = if e = e0 then some p0 else cacheGet cache e := by
  by_cases h : e = e0
  · subst h
    simp [cacheGet, cacheSet, List.find?_cons]
  · rw [if_neg h, ← cacheGet_cacheDelete_ne cache e e0 h]
    have h' : ¬ e0 = e := fun hh => h hh.symm
    simp [cacheGet, cacheSet, List.find?_cons, h']

theorem find_other_map (rows : List UserRow) (e e0 : String) (f : UserRow → UserRow)
    (hne : e ≠ e0) (hf : ∀ r, (f r).user_email = r.user_email)
    (hid : ∀ r, r.user_email ≠ e0 → f r = r) :
    (rows.map f).find? (fun r => r.user_email == e) =
      rows.find? (fun r => r.user_email == e) := by
  rw [find_map_keep_email _ _ _ hf]
  cases h : rows.find? (fun r => r.user_email == e) with
  | none => rfl
  | some u =>
    have hue : u.user_email = e := by simpa using List.find?_some h
    simp only [Option.map_some']
    rw [hid u (by rw [hue]; exact hne)]

theorem find_other_append (rows : List UserRow) (e : String) (x : UserRow)
    (hne : e ≠ x.user_email) :
    (rows ++ [x]).find? (fun r => r.user_email == e) =
      rows.find? (fun r => r.user_email == e) := by
  have hx : ¬ x.user_email = e := fun h => hne h.symm
  cases h : rows.find? (fun r => r.user_email == e) with
  | none => simp [List.find?_append, h, hx]
  | some u => simp [List.find?_append, h]

theorem find_other_upsertCompletion (rows : List UserRow) (e e0 : String) (p now : Int)
    (hne : e ≠ e0) :
    (upsertCompletion rows e0 p now).find? (fun r => r.user_email == e) =
      rows.find? (fun r => r.user_email == e) := by
  unfold upsertCompletion
  split
  · exact find_other_map _ _ _ _ hne (by intro r; split <;> rfl) (by intro r hr; simp [hr])
  · exact find_other_append _ _ _ hne

theorem find_other_upsertExamCompletion (rows : List UserRow) (e e0 : String) (now : Int)
    (hne : e ≠ e0) :
    (upsertExamCompletion rows e0 now).find? (fun r => r.user_email == e) =
      rows.find? (fun r => r.user_email == e) := by
  unfold upsertExamCompletion
  split
  · exact find_other_map _ _ _ _ hne (by intro r; split <;> rfl) (by intro r hr; simp [hr])
  · exact find_other_append _ _ _ hne

theorem find_other_burnUpdate (rows : List UserRow) (e e0 : String) (hne : e ≠ e0) :
    (burnUpdate rows e0).find? (fun r => r.user_email == e) =
      rows.find? (fun r => r.user_email == e) := by
  unfold burnUpdate
  exact find_other_map _ _ _ _ hne (by intro r; split <;> rfl)
    (by intro r hr; simp [burnable, hr])

theorem find_other_refundUpdate (rows : List UserRow) (e e0 : String) (hne : e ≠ e0) :
    (refundUpdate rows e0).find? (fun r => r.user_email == e) =
      rows.find? (fun r => r.user_email == e) := by
  unfold refundUpdate
  exact find_other_map _ _ _ _ hne (by intro r; split <;> rfl)
    (by intro r hr; simp [refundable, hr])

theorem agree_after_mutation (uc : UserClient) (e0 : String) (db' : Store)
    (hother : ∀ e, e ≠ e0 → findUser db' e = findUser uc.db e)
    (h : CacheCountersAgree uc) : CacheCountersAgree ⟨db', cacheDelete uc.cache e0⟩ := by
  intro e p hp
  by_cases he : e = e0
  · subst he
    rw [cacheGet_cacheDelete] at hp
    exact absurd hp (by simp)
  · simp only at hp
    rw [cacheGet_cacheDelete_ne _ _ _ he] at hp
    obtain ⟨u, hu, hrest⟩ := h e p hp
    exact ⟨u, by rw [hother e he]; exact hu, hrest⟩

theorem EconomyStep_cacheCountersAgree {sc : Schema} {isProfane : String → Bool}
    {uc uc' : UserClient} (h : EconomyStep sc isProfane uc uc') (hA : CacheCountersAgree uc) :
    CacheCountersAgree uc' := by
  cases h with
  | getProfile fails now e0 =>
    rcases GetUserProfile_cases uc fails now e0 with ⟨p, _, h⟩ | ⟨_, err, h⟩ |
      ⟨u, _, hu, h⟩ | ⟨_, hu, h⟩
    · rw [h]; exact hA
    · rw [h]; exact hA
    · rw [h]
      intro e p hp
      simp only at hp
      rw [cacheGet_cacheSet] at hp
      by_cases he : e = e0
      · subst he
        rw [if_pos rfl] at hp
        cases hp
        exact ⟨u, hu, rfl, rfl, rfl⟩
      · rw [if_neg he] at hp
        exact hA e p hp
    · rw [h]
      intro e p hp
      simp only at hp
      rw [cacheGet_cacheSet] at hp
      by_cases he : e = e0
      · subst he
        rw [if_pos rfl] at hp
        cases hp
        exact ⟨⟨e, 0, 0, 0, 0, now, now⟩, find_append_new _ _ _ rfl hu, rfl, rfl, rfl⟩
      · rw [if_neg he] at hp
        obtain ⟨u, hu', hrest⟩ := hA e p hp
        refine ⟨u, ?_, hrest⟩
        unfold findUser at hu' ⊢
        simp only
        rw [find_other_append _ _ _ (by exact he)]
        exact hu'
  | completeChallenge fails now e0 p c =>
    rcases CompleteChallenge_cases uc fails now e0 p c with ⟨_, h⟩ | ⟨_, _, h⟩
    · rw [h]; exact hA
    · rw [h]
      exact agree_after_mutation uc e0 _
        (fun e he => find_other_upsertCompletion _ _ _ _ _ he) hA
  | completeExamChallenge fails now e0 c =>
    rcases CompleteExamChallenge_cases uc fails now e0 c with ⟨_, h⟩ | ⟨_, _, h⟩
    · rw [h]; exact hA
    · rw [h]
      exact agree_after_mutation uc e0 _
        (fun e he => find_other_upsertExamCompletion _ _ _ _ he) hA
  | burnToken fails now e0 c =>
    rcases BurnToken_cases uc fails now e0 c with ⟨_, h⟩ | ⟨_, _, h⟩
    · rw [h]; exact hA
    · rw [h]
      exact agree_after_mutation uc e0 _ (fun e he => find_other_burnUpdate _ _ _ he) hA
  | refundToken fails now e0 c =>
    rcases RefundToken_cases uc fails now e0 c with ⟨_, h⟩ | ⟨_, _, h⟩
    · rw [h]; exact hA
    · rw [h]
      exact agree_after_mutation uc e0 _ (fun e he => find_other_refundUpdate _ _ _ he) hA
  | setAlias fails now e0 a =>
    rcases SetAlias_cases sc isProfane uc fails now e0 a with ⟨_, h⟩ | ⟨_, h⟩
    · rw [h]; exact hA
    · rw [h]
      exact agree_after_mutation uc e0 _ (fun e _ => rfl) hA
  | removeAlias fails now e0 =>
    rcases RemoveAlias_cases uc fails now e0 with ⟨_, h⟩ | ⟨row, _, _, h⟩
    · rw [h]; exact hA
    · rw [h]
      exact agree_after_mutation uc e0 _ (fun e _ => rfl) hA

/-- In every reachable state the tokens, points and exam counter of a cached profile are
those of the user's row in the store. -/
theorem Reachable_cacheCountersAgree {sc : Schema} {isProfane : String → Bool}
    {uc : UserClient} (h : Reachable sc isProfane uc) : CacheCountersAgree uc := by
  induction h with
  | init challenges flags =>
    intro e p hp
    simp [cacheGet] at hp
  | step _ hstep ih => exact EconomyStep_cacheCountersAgree hstep ih

/-- C7 (failing input). `bob@example.com` has no row in `users`.  `SetAlias` with alias
`bob` returns success and the cache holds no entry for him, yet the next
`GetUserProfile` takes the new-user path of `getUserProfileData`, returns the alias `""`
and caches that profile, while the store holds his active alias `bob`: a read of the
store made afterwards returns `bob`, and the cached profile keeps answering `""`. -/
theorem C7_stale_alias_after_setAlias :
    (SetAlias ⟨false⟩ (fun _ => false) freshClient noFaults 100 "bob@example.com" "bob").1 =
      none ∧
    cacheGet bobAliased.cache "bob@example.com" = none ∧
    (GetUserProfile bobAliased noFaults 200 "bob@example.com").1 =
      .ok ⟨"bob@example.com", "", 0, 0, 0, 200, 200⟩ ∧
    findActiveAlias bobRead.db "bob@example.com" = some ⟨"bob@example.com", "bob", 100, none⟩ ∧
    (getUserProfileData bobRead.db noFaults 300 "bob@example.com").1 =
      .ok ⟨false, "bob", 0, 0, 0, 200, 200⟩ ∧
    (GetUserProfile bobRead noFaults 300 "bob@example.com").1 =
      .ok ⟨"bob@example.com", "", 0, 0, 0, 200, 200⟩ :=
  ⟨by decide, by decide, rfl, by decide, rfl, rfl⟩

/-! ## Sequential access to exam challenges -/

theorem GetUserProfile_db (uc : UserClient) (fails : Nat → Bool) (now : Int) (e : String) :
    ((cacheGet uc.cache e ≠ none ∨ findUser uc.db e ≠ none) →
      (GetUserProfile uc fails now e).2.db = uc.db) ∧
    (GetUserProfile uc fails now e).2.db.user_history_log = uc.db.user_history_log ∧
    (GetUserProfile uc fails now e).2.db.user_challenges_completed =
      uc.db.user_challenges_completed ∧
    (GetUserProfile uc fails now e).2.db.user_aliases = uc.db.user_aliases ∧
    (∃ extra, (GetUserProfile uc fails now e).2.db.users = uc.db.users ++ extra ∧
      ∀ r ∈ extra, r = ⟨e, 0, 0, 0, 0, now, now⟩) := by
  rcases GetUserProfile_cases uc fails now e with ⟨p, hc, hr⟩ | ⟨hc, err, hr⟩ |
    ⟨u, hc, hu, hr⟩ | ⟨hc, hu, hr⟩
  · rw [hr]; exact ⟨fun _ => rfl, rfl, rfl, rfl, [], by simp, by simp⟩
  · rw [hr]; exact ⟨fun _ => rfl, rfl, rfl, rfl, [], by simp, by simp⟩
  · rw [hr]; exact ⟨fun _ => rfl, rfl, rfl, rfl, [], by simp, by simp⟩
  · rw [hr]
    refine ⟨?_, rfl, rfl, rfl, [⟨e, 0, 0, 0, 0, now, now⟩], rfl, by simp⟩
    intro h
    rcases h with h | h
    · exact absurd hc h
    · exact absurd hu h

/-- The store after `GetUserProfile`: the store before, or, for an e-mail without cache
entry and without `users` row, the store before with the default row of that e-mail. -/
theorem GetUserProfile_store (uc : UserClient) (fails : Nat → Bool) (now : Int) (e : String) :
    (GetUserProfile uc fails now e).2.db = uc.db ∨
    (cacheGet uc.cache e = none ∧ findUser uc.db e = none ∧
      (GetUserProfile uc fails now e).2.db =
        { uc.db with users := uc.db.users ++ [⟨e, 0, 0, 0, 0, now, now⟩] }) := by
  rcases GetUserProfile_cases uc fails now e with ⟨p, hc, hr⟩ | ⟨hc, err, hr⟩ |
    ⟨u, hc, hu, hr⟩ | ⟨hc, hu, hr⟩
  · left; rw [hr]
  · left; rw [hr]
  · left; rw [hr]
  · right; rw [hr]; exact ⟨hc, hu, rfl⟩

/-- C8 as stated fails: `carl@example.com` has neither a cache entry nor a `users` row
and asks for the exam ordinal 5; both handlers answer `Not Found`, but the profile read
that precedes the check has inserted his default row into the store. -/
theorem C8_profile_row_created_counterexample :
    findUser examClient.db "carl@example.com" = none ∧
    (GetExamChallenge examClient (fun _ => none) noFaults false 600
      (some "carl@example.com") "5").1 = notFoundError ∧
    findUser (GetExamChallenge examClient (fun _ => none) noFaults false 600
      (some "carl@example.com") "5").2.db "carl@example.com" =
      some ⟨"carl@example.com", 0, 0, 0, 0, 600, 600⟩ ∧
    (SubmitExamChallenge examClient (ValidateFlag demoFlagEnv) noSubmitFaults 600
      (some "carl@example.com") "5" (some "guess")).1 = notFoundError ∧
    findUser (SubmitExamChallenge examClient (ValidateFlag demoFlagEnv) noSubmitFaults 600
      (some "carl@example.com") "5" (some "guess")).2.db "carl@example.com" =
      some ⟨"carl@example.com", 0, 0, 0, 0, 600, 600⟩ :=
  ⟨by decide, by decide, by decide, by decide, by decide⟩

/-- C8 amended. Let the path variable `id` validate to the ordinal `N` (so `1 <= N <= 128`) and
let `GetUserProfile` hand the profile `profile` and the state `uc1` to the handler.
If `N > profile.ExamChallengesSolved + 1`, `GetExamChallenge` and `SubmitExamChallenge`
both answer 404 `Not Found` and end in `uc1`, whatever the challenge tables hold and even
when the challenge query would fail, so no lookup, burn or other statement is executed:
the store is the one before the request, except that for an e-mail that has neither a
cache entry nor a `users` row it holds in addition the default profile row (no tokens, no
points, no exam challenge solved) that `GetUserProfile`, which runs before the check, has
inserted.  The answer is the one given for an accessible ordinal that has no challenge.
For an accessible ordinal the lookup is executed: a failing query gives 500. -/
theorem C8_exam_sequential_access (uc : UserClient) (getAsset : String → Option String)
    (validateFlag : String → String → String → String → Bool × String)
    (f : SubmitFaults) (now : Int) (e id body flag : String) (N : Int)
    (profile : UserProfile) (uc1 : UserClient)
    (hid : validateChallengeID id = .ok N)
    (hflag : SanitizeFlag body = .ok flag)
    (hprof : GetUserProfile uc f.profile now e = (.ok profile, uc1)) :
    (1 ≤ N ∧ N ≤ 128) ∧
    (N > profile.ExamChallengesSolved + 1 →
      GetExamChallenge uc getAsset f.profile f.lookup now (some e) id = (notFoundError, uc1) ∧
      SubmitExamChallenge uc validateFlag f now (some e) id (some body) =
        (notFoundError, uc1)) ∧
    (N ≤ profile.ExamChallengesSolved + 1 → f.lookup = false →
      findExamChallenge uc1.db N = none →
      GetExamChallenge uc getAsset f.profile f.lookup now (some e) id = (notFoundError, uc1) ∧
      SubmitExamChallenge uc validateFlag f now (some e) id (some body) =
        (notFoundError, uc1)) ∧
    (N ≤ profile.ExamChallengesSolved + 1 → f.lookup = true →
      GetExamChallenge uc getAsset f.profile f.lookup now (some e) id = (internalError, uc1) ∧
      SubmitExamChallenge uc validateFlag f now (some e) id (some body) =
        (internalError, uc1)) ∧
    ((cacheGet uc.cache e ≠ none ∨ findUser uc.db e ≠ none) → uc1.db = uc.db) ∧
    uc1.db.user_history_log = uc.db.user_history_log ∧
    uc1.db.user_challenges_completed = uc.db.user_challenges_completed ∧
    (∃ extra, uc1.db.users = uc.db.users ++ extra ∧
      ∀ r ∈ extra, r = ⟨e, 0, 0, 0, 0, now, now⟩) ∧
    (uc1.db = uc.db ∨
      (cacheGet uc.cache e = none ∧ findUser uc.db e = none ∧
        uc1.db = { uc.db with users := uc.db.users ++ [⟨e, 0, 0, 0, 0, now, now⟩] })) := by
  have hdb := GetUserProfile_db uc f.profile now e
  rw [hprof] at hdb
  obtain ⟨hsame, hlog, hcomp, _, hextra⟩ := hdb
  have hexact := GetUserProfile_store uc f.profile now e
  rw [hprof] at hexact
  refine ⟨?_, ?_, ?_, ?_, hsame, hlog, hcomp, hextra, hexact⟩
  · unfold validateChallengeID at hid
    split at hid
    · exact absurd hid (by simp)
    · split at hid
      · exact absurd hid (by simp)
      · rename_i h
        have : _ = N := Except.ok.inj hid
        subst this
        omega
  · intro hgt
    constructor
    · simp [GetExamChallenge, hid, hprof, hgt]
    · simp [SubmitExamChallenge, hid, hflag, hprof, hgt]
  · intro hle hq hnone
    have hgt : ¬ N > profile.ExamChallengesSolved + 1 := by omega
    constructor
    · simp [GetExamChallenge, hid, hprof, hgt, hq, hnone]
    · simp [SubmitExamChallenge, hid, hflag, hprof, hgt, hq, hnone]
  · intro hle hq
    have hgt : ¬ N > profile.ExamChallengesSolved + 1 := by omega
    constructor
    · simp [GetExamChallenge, hid, hprof, hgt, hq]
    · simp [SubmitExamChallenge, hid, hflag, hprof, hgt, hq]

/-- Witness for C8 amended: `ann@example.com` has solved no exam challenge and asks for ordinal
5; both handlers answer `Not Found` and only the profile read has run. -/
theorem C8_exam_sequential_access_witness :
    GetExamChallenge annClient (fun _ => none) noFaults false 600 (some "ann@example.com") "5" =
      (notFoundError, (GetUserProfile annClient noFaults 600 "ann@example.com").2) ∧
    SubmitExamChallenge annClient (fun _ _ _ _ => (true, "")) noSubmitFaults 600
        (some "ann@example.com") "5" (some " guess ") =
      (notFoundError, (GetUserProfile annClient noFaults 600 "ann@example.com").2) :=
  (C8_exam_sequential_access annClient (fun _ => none) (fun _ _ _ _ => (true, ""))
    noSubmitFaults 600 "ann@example.com" "5" " guess " "guess" 5
    ⟨"ann@example.com", "", 1, 10, 0, 100, 100⟩
    (GetUserProfile annClient noFaults 600 "ann@example.com").2 rfl rfl rfl).2.1 (by decide)

/-! ## Access-token validation -/

theorem jwtParse_ok {Key : Type} (env : AuthEnv Key) (tok : String)
    (keyFunc : UnverifiedToken → Except String Key) (token : Token)
    (h : jwtParse env tok keyFunc = .ok token) :
    ∃ t key, env.parseUnverified tok = some t ∧ keyFunc t = .ok key ∧
      env.verify t.alg t.signingString t.signature key = true ∧
      env.validateClaims t.claims = true ∧ token = ⟨t.alg, t.claims, true⟩ := by
  unfold jwtParse at h
  split at h
  · exact absurd h (by simp)
  · rename_i t ht
    split at h
    · exact absurd h (by simp)
    · rename_i key hk
      split at h
      · exact absurd h (by simp)
      · rename_i hv
        split at h
        · exact absurd h (by simp)
        · rename_i hc
          refine ⟨t, key, ht, hk, by simpa using hv, by simpa using hc, ?_⟩
          exact (Except.ok.inj h).symm

theorem ValidateAccessToken_ok {Key : Type} (env : AuthEnv Key) (a : AuthClient Key)
    (tok : String) (user : User) (a' : AuthClient Key)
    (h : ValidateAccessToken env a tok = (.ok user, a')) :
    ∃ hb header key t,
      env.base64Decode ((Split tok).getD 0 "") = some hb ∧
      env.unmarshalHeader hb = some header ∧
      getPublicKey env a a.config.AWSRegion header.Kid = (.ok key, a') ∧
      env.parseUnverified tok = some t ∧ t.alg = "ES384" ∧
      env.verify "ES384" t.signingString t.signature key = true ∧
      claimGet t.claims "email" = some (.str user.Email) ∧ user.Email ≠ "" := by
  unfold ValidateAccessToken at h
  simp only [] at h
  split at h
  · exact absurd h (by simp)
  split at h
  · exact absurd h (by simp)
  split at h
  · exact absurd h (by simp)
  rename_i hb hhb
  split at h
  · exact absurd h (by simp)
  rename_i header hheader
  split at h
  · exact absurd h (by simp)
  split at h
  · exact absurd h (by simp)
  split at h
  · exact absurd h (by simp)
  split at h
  · exact absurd h (by simp)
  split at h
  · exact absurd h (by simp)
  rename_i key a1 hkey
  split at h
  · exact absurd h (by simp)
  rename_i token htoken
  split at h
  · exact absurd h (by simp)
  split at h
  · rename_i emailClaim hclaim
    split at h
    · exact absurd h (by simp)
    · rename_i hne
      obtain ⟨t, key', ht, hk, hv, _, rfl⟩ := jwtParse_ok env tok _ token htoken
      have halg : t.alg = "ES384" := by
        by_contra hna
        simp [hna] at hk
      simp only [halg, ne_eq, not_true_eq_false, if_false] at hk
      have hkk : key = key' := Except.ok.inj hk
      subst hkk
      simp only [Prod.mk.injEq, Except.ok.injEq] at h
      obtain ⟨hu, ha⟩ := h
      subst hu ha
      refine ⟨hb, header, key, t, hhb, hheader, hkey, ht, halg, ?_, hclaim, hne⟩
      rw [← halg]; exact hv
  · exact absurd h (by simp)

theorem getPublicKey_fetch_failure {Key : Type} (env : AuthEnv Key) (a : AuthClient Key)
    (region kid : String)
    (hmiss : ∀ cached, keyCacheGet a.publicKeyCache (region ++ ":" ++ kid) = some cached →
      ¬ env.now < cached.expiresAt)
    (hfail : env.httpGet ("https://public-keys.prod.verified-access." ++ region ++
        ".amazonaws.com/" ++ kid) = none ∨
      ∃ status body, env.httpGet ("https://public-keys.prod.verified-access." ++ region ++
        ".amazonaws.com/" ++ kid) = some (status, body) ∧
        (status ≠ 200 ∨ body = none ∨
          ∃ bytes, body = some bytes ∧ env.ParseECPublicKeyFromPEM bytes = none)) :
    ∃ err, getPublicKey env a region kid = (.error err, a) := by
  unfold getPublicKey
  simp only []
  have hhit : (match keyCacheGet a.publicKeyCache (region ++ ":" ++ kid) with
      | some cached => if env.now < cached.expiresAt then some cached.publicKey else none
      | none => none) = none := by
    split
    · rename_i cached hc
      rw [if_neg (hmiss cached hc)]
    · rfl
  rw [hhit]
  rcases hfail with h | ⟨status, body, h, hrest⟩
  · rw [h]; exact ⟨_, rfl⟩
  · rw [h]
    by_cases hs : status = 200
    · subst hs
      rcases hrest with h200 | hb | ⟨bytes, hb, hp⟩
      · exact absurd rfl h200
      · subst hb; exact ⟨_, rfl⟩
      · subst hb; simp only [ne_eq, not_true_eq_false, if_false, hp]; exact ⟨_, rfl⟩
    · simp only [ne_eq, hs, not_false_eq_true, if_true]; exact ⟨_, rfl⟩

/-- C9. `ValidateAccessToken` returns a user only if the header decoded, the key was
resolved by `getPublicKey` for the configured region and the header's `kid`, the token's
signing method is `ES384`, its signature verified with that method under the resolved
key, and the verified claims hold `email` as a non-empty string, which is the e-mail of
the returned user.  Hence a token whose signature does not verify under the resolved key
gets an error, and so does every token when key resolution fails (in which case the
cache is left as it was); key resolution fails whenever no live cache entry exists and
the fetch fails, answers another status than 200, or delivers bytes that do not parse. -/
theorem C9_validateAccessToken_sound {Key : Type} (env : AuthEnv Key) (a : AuthClient Key)
    (tok : String) :
    (∀ user a', ValidateAccessToken env a tok = (.ok user, a') →
      ∃ hb header key t,
        env.base64Decode ((Split tok).getD 0 "") = some hb ∧
        env.unmarshalHeader hb = some header ∧
        getPublicKey env a a.config.AWSRegion header.Kid = (.ok key, a') ∧
        env.parseUnverified tok = some t ∧ t.alg = "ES384" ∧
        env.verify "ES384" t.signingString t.signature key = true ∧
        claimGet t.claims "email" = some (.str user.Email) ∧ user.Email ≠ "") ∧
    (∀ hb header key a1 t,
      env.base64Decode ((Split tok).getD 0 "") = some hb →
      env.unmarshalHeader hb = some header →
      getPublicKey env a a.config.AWSRegion header.Kid = (.ok key, a1) →
      env.parseUnverified tok = some t →
      env.verify "ES384" t.signingString t.signature key = false →
      ∃ err, (ValidateAccessToken env a tok).1 = .error err) ∧
    (∀ hb header err,
      env.base64Decode ((Split tok).getD 0 "") = some hb →
      env.unmarshalHeader hb = some header →
      getPublicKey env a a.config.AWSRegion header.Kid = (.error err, a) →
      (∃ err', (ValidateAccessToken env a tok).1 = .error err') ∧
      (ValidateAccessToken env a tok).2 = a) ∧
    (∀ region kid,
      (∀ cached, keyCacheGet a.publicKeyCache (region ++ ":" ++ kid) = some cached →
        ¬ env.now < cached.expiresAt) →
      (env.httpGet ("https://public-keys.prod.verified-access." ++ region ++
          ".amazonaws.com/" ++ kid) = none ∨
        ∃ status body, env.httpGet ("https://public-keys.prod.verified-access." ++ region ++
          ".amazonaws.com/" ++ kid) = some (status, body) ∧
          (status ≠ 200 ∨ body = none ∨
            ∃ bytes, body = some bytes ∧ env.ParseECPublicKeyFromPEM bytes = none)) →
      ∃ err, getPublicKey env a region kid = (.error err, a)) := by
  refine ⟨fun user a' h => ValidateAccessToken_ok env a tok user a' h, ?_, ?_,
    fun region kid hmiss hfail => getPublicKey_fetch_failure env a region kid hmiss hfail⟩
  · intro hb header key a1 t hhb hh hkey ht hv
    cases hres : ValidateAccessToken env a tok with
    | mk r a2 =>
      cases r with
      | error err => exact ⟨err, rfl⟩
      | ok user =>
        obtain ⟨hb', header', key', t', hhb', hh', hkey', ht', _, hv', _⟩ :=
          ValidateAccessToken_ok env a tok user a2 hres
        rw [hhb] at hhb'
        cases hhb'
        rw [hh] at hh'
        cases hh'
        rw [hkey] at hkey'
        cases hkey'
        rw [ht] at ht'
        cases ht'
        rw [hv] at hv'
        exact absurd hv' (by decide)
  · intro hb header err hhb hh hkey
    cases hres : ValidateAccessToken env a tok with
    | mk r a2 =>
      cases r with
      | ok user =>
        obtain ⟨hb', header', key', t', hhb', hh', hkey', _⟩ :=
          ValidateAccessToken_ok env a tok user a2 hres
        rw [hhb] at hhb'
        cases hhb'
        rw [hh] at hh'
        cases hh'
        rw [hkey] at hkey'
        cases hkey'
      | error err' =>
        refine ⟨⟨err', rfl⟩, ?_⟩
        unfold ValidateAccessToken at hres
        simp only [hhb, hh, hkey] at hres
        split at hres
        · exact (Prod.mk.inj hres).2.symm
        split at hres
        · exact (Prod.mk.inj hres).2.symm
        split at hres
        · exact (Prod.mk.inj hres).2.symm
        split at hres
        · exact (Prod.mk.inj hres).2.symm
        split at hres
        · exact (Prod.mk.inj hres).2.symm
        split at hres
        · exact (Prod.mk.inj hres).2.symm
        · exact (Prod.mk.inj hres).2.symm

/-- Witness for C9: in the sample environment the token `h.p.s` is accepted, and the
theorem yields the resolved key under which its `ES384` signature verified and the e-mail
claim equal to the returned identity. -/
theorem C9_validateAccessToken_sound_witness :
    ∃ hb header key t,
      demoEnv.base64Decode ((Split "h.p.s").getD 0 "") = some hb ∧
      demoEnv.unmarshalHeader hb = some header ∧
      getPublicKey demoEnv demoAuth demoAuth.config.AWSRegion header.Kid =
        (.ok key, (ValidateAccessToken demoEnv demoAuth "h.p.s").2) ∧
      demoEnv.parseUnverified "h.p.s" = some t ∧ t.alg = "ES384" ∧
      demoEnv.verify "ES384" t.signingString t.signature key = true ∧
      claimGet t.claims "email" = some (.str (User.mk "ann@example.com").Email) ∧
      (User.mk "ann@example.com").Email ≠ "" :=
  (C9_validateAccessToken_sound demoEnv demoAuth "h.p.s").1 ⟨"ann@example.com"⟩
    (ValidateAccessToken demoEnv demoAuth "h.p.s").2 rfl

/-- C10. When the token is non-empty, has three segments and its header decodes with a
`signer` different from the configured one, `ValidateAccessToken` returns the
invalid-signer error and leaves the client, hence the key cache, unchanged; the same
holds with any other cache content, clock, key endpoint, PEM parser and token verifier in
place of the given ones, so key retrieval is never attempted. -/
theorem C10_invalid_signer_before_key_retrieval {Key : Type} (env : AuthEnv Key)
    (a : AuthClient Key) (tok hb : String) (header : JwtHeader)
    (hne : tok ≠ "") (hparts : (Split tok).length = 3)
    (hhb : env.base64Decode ((Split tok).getD 0 "") = some hb)
    (hh : env.unmarshalHeader hb = some header)
    (hs : header.Signer ≠ a.config.ExpectedVerifiedAccessInstanceARN) :
    ValidateAccessToken env a tok = (.error "invalid signer", a) ∧
    ∀ (env' : AuthEnv Key) (cache' : List (String × cachedPublicKey Key)),
      env'.base64Decode = env.base64Decode → env'.unmarshalHeader = env.unmarshalHeader →
      ValidateAccessToken env' { a with publicKeyCache := cache' } tok =
        (.error "invalid signer", { a with publicKeyCache := cache' }) := by
  constructor
  · unfold ValidateAccessToken
    simp only []
    rw [if_neg hne, if_neg (not_not.mpr hparts)]
    simp only [hhb, hh]
    rw [if_pos (Or.inr hs)]
  · intro env' cache' hb64 hun
    unfold ValidateAccessToken
    simp only []
    rw [if_neg hne, if_neg (not_not.mpr hparts)]
    simp only [hb64, hun, hhb, hh]
    rw [if_pos (Or.inr hs)]

/-- Witness for C10: the sample header is signed by `arn:instance` while the client
expects `arn:other`; the validation answers `invalid signer` and keeps the cache. -/
theorem C10_invalid_signer_before_key_retrieval_witness :
    ValidateAccessToken demoEnv otherSignerAuth "h.p.s" =
      (.error "invalid signer", otherSignerAuth) :=
  (C10_invalid_signer_before_key_retrieval demoEnv otherSignerAuth "h.p.s" "header"
    ⟨"ES384", "kid-1", "arn:instance", "issuer", 0⟩ (by decide) (by decide) rfl rfl
    (by decide)).1

/-! ## Order of the cheap checks and the key cache -/

/-- C11. For a configuration whose expected signer and issuer are set (they are
`required` by the configuration validation), `ValidateAccessToken` returns the error of
the first failing step in the order: empty token or not three segments, header not
base64url or not a header object, signer mismatch, issuer mismatch, empty region, empty
`kid`.  The error is a function of the two decoders, the configuration and the token
alone, the client (and its key cache) is returned unchanged, and this holds for every
clock, key endpoint, PEM parser and verifier, so none of these failures reaches key
retrieval; later fields of the token play no part.  When no step fails the header
decodes and the result is the one computed from `getPublicKey` on the header's `kid`
onwards. -/
theorem C11_first_failing_step {Key : Type} (env : AuthEnv Key) (a : AuthClient Key)
    (tok : String)
    (hsigner : a.config.ExpectedVerifiedAccessInstanceARN ≠ "")
    (hissuer : a.config.ExpectedIssuer ≠ "") :
    (∀ msg, firstFailure env.base64Decode env.unmarshalHeader a.config tok = some msg →
      ValidateAccessToken env a tok = (.error msg, a)) ∧
    (firstFailure env.base64Decode env.unmarshalHeader a.config tok = none →
      ∃ hb header, env.base64Decode ((Split tok).getD 0 "") = some hb ∧
        env.unmarshalHeader hb = some header ∧
        header.Signer = a.config.ExpectedVerifiedAccessInstanceARN ∧
        header.Iss = a.config.ExpectedIssuer ∧ a.config.AWSRegion ≠ "" ∧ header.Kid ≠ "" ∧
        ((∀ err a1, getPublicKey env a a.config.AWSRegion header.Kid = (.error err, a1) →
          ValidateAccessToken env a tok = (.error err, a1)))) := by
  unfold firstFailure ValidateAccessToken
  simp only []
  by_cases h1 : tok = ""
  · simp [h1]
  rw [if_neg h1, if_neg h1]
  by_cases h2 : (Split tok).length ≠ 3
  · rw [if_pos h2, if_pos h2]; simp
  rw [if_neg h2, if_neg h2]
  cases hb : env.base64Decode ((Split tok).getD 0 "") with
  | none => simp
  | some headerBytes =>
    simp only []
    cases hh : env.unmarshalHeader headerBytes with
    | none => simp
    | some header =>
      simp only []
      by_cases h3 : header.Signer = a.config.ExpectedVerifiedAccessInstanceARN
      swap
      · simp [h3]
      by_cases h4 : header.Iss = a.config.ExpectedIssuer
      swap
      · simp [h3, h4, hsigner]
      by_cases h5 : a.config.AWSRegion = ""
      · simp [h3, h4, h5, hsigner, hissuer]
      by_cases h6 : header.Kid = ""
      · simp [h3, h4, h5, h6, hsigner, hissuer]
      simp only [h3, h4, h5, h6, hsigner, hissuer, ne_eq, not_true_eq_false, if_false,
        or_self, false_implies, implies_true, true_and, forall_const, not_false_eq_true,
        and_true, reduceCtorEq]
      refine ⟨headerBytes, header, rfl, hh, h3, h4, h6, ?_⟩
      intro err a1 hk
      rw [hk]

/-- Witness for C11: the sample header is issued by `issuer` while the client expects
`elsewhere`; signer matches, so the first failing step is the issuer check. -/
theorem C11_first_failing_step_witness :
    ValidateAccessToken demoEnv otherIssuerAuth "h.p.s" =
      (.error "invalid issuer", otherIssuerAuth) :=
  (C11_first_failing_step demoEnv otherIssuerAuth "h.p.s" (by decide) (by decide)).1
    "invalid issuer" rfl

theorem keyCacheGet_keyCacheSet {Key : Type} (cache : List (String × cachedPublicKey Key))
    (k : String) (v : cachedPublicKey Key) : keyCacheGet (keyCacheSet cache k v) k = some v := by
  simp [keyCacheGet, keyCacheSet, List.find?_cons]

/-- C12. Write `cacheKey` for `region:kid` and call an entry live when the clock reading
`now` is before its `expiresAt`.  With a live entry `getPublicKey` returns the cached key
and the unchanged client whatever the endpoint, the parser and the second clock reading
are, so nothing is fetched.  Without a live entry the result is decided by the fetch: a
200 answer whose body parses gives that key, stored under `cacheKey` with `expiresAt`
equal to the clock reading taken when storing plus the TTL, the TTL being
`PublicKeyCacheTTL`, or one minute when that is 0; a transport error, a status other than
200, an unreadable body or a parse failure gives an error and the unchanged client.
Hence the cached key is returned without fetching exactly when a live entry exists. -/
theorem C12_getPublicKey_cache {Key : Type} (env : AuthEnv Key) (a : AuthClient Key)
    (region kid : String) :
    (∀ cached, keyCacheGet a.publicKeyCache (region ++ ":" ++ kid) = some cached →
      env.now < cached.expiresAt →
      ∀ env' : AuthEnv Key, env'.now = env.now →
        getPublicKey env' a region kid = (.ok cached.publicKey, a)) ∧
    ((∀ cached, keyCacheGet a.publicKeyCache (region ++ ":" ++ kid) = some cached →
        ¬ env.now < cached.expiresAt) →
      (∀ bytes key,
        env.httpGet ("https://public-keys.prod.verified-access." ++ region ++
          ".amazonaws.com/" ++ kid) = some (200, some bytes) →
        env.ParseECPublicKeyFromPEM bytes = some key →
        getPublicKey env a region kid =
          (.ok key, { a with publicKeyCache :=
            (keyCacheSet a.publicKeyCache (region ++ ":" ++ kid)
              ⟨key, env.nowStore + (if a.config.PublicKeyCacheTTL = 0 then Minute
                else a.config.PublicKeyCacheTTL)⟩) }) ∧
        keyCacheGet (getPublicKey env a region kid).2.publicKeyCache (region ++ ":" ++ kid) =
          some ⟨key, env.nowStore + (if a.config.PublicKeyCacheTTL = 0 then Minute
                else a.config.PublicKeyCacheTTL)⟩) ∧
      ((env.httpGet ("https://public-keys.prod.verified-access." ++ region ++
            ".amazonaws.com/" ++ kid) = none ∨
          ∃ status body, env.httpGet ("https://public-keys.prod.verified-access." ++ region ++
            ".amazonaws.com/" ++ kid) = some (status, body) ∧
            (status ≠ 200 ∨ body = none ∨
              ∃ bytes, body = some bytes ∧ env.ParseECPublicKeyFromPEM bytes = none)) →
        ∃ err, getPublicKey env a region kid = (.error err, a))) := by
  constructor
  · intro cached hc hlive env' henv
    unfold getPublicKey
    simp only [hc, henv, hlive, if_true]
  · intro hmiss
    have hhit : (match keyCacheGet a.publicKeyCache (region ++ ":" ++ kid) with
        | some cached => if env.now < cached.expiresAt then some cached.publicKey else none
        | none => none) = none := by
      split
      · rename_i cached hc
        rw [if_neg (hmiss cached hc)]
      · rfl
    constructor
    · intro bytes key hget hparse
      have hres : getPublicKey env a region kid =
          (.ok key, { a with publicKeyCache :=
            (keyCacheSet a.publicKeyCache (region ++ ":" ++ kid)
              ⟨key, env.nowStore + (if a.config.PublicKeyCacheTTL = 0 then Minute
                else a.config.PublicKeyCacheTTL)⟩) }) := by
        unfold getPublicKey
        simp only []
        rw [hhit]
        simp only [hget, hparse, ne_eq, not_true_eq_false, if_false, one_mul]
      refine ⟨hres, ?_⟩
      rw [hres]
      exact keyCacheGet_keyCacheSet _ _ _
    · intro hfail
      exact getPublicKey_fetch_failure env a region kid hmiss hfail

/-- Witness for C12: the sample client `warmAuth` holds key 9 for `us-east-1:kid-1` until
instant 2000 and the clock reads 1000, so key 9 is returned, not the key 7 that the
sample endpoint would serve. -/
theorem C12_getPublicKey_cache_witness :
    getPublicKey demoEnv warmAuth "us-east-1" "kid-1" = (.ok 9, warmAuth) :=
  (C12_getPublicKey_cache demoEnv warmAuth "us-east-1" "kid-1").1 ⟨9, 2000⟩ (by decide)
    (by decide) demoEnv rfl

/-! ## Rate limiter -/

theorem lruGet_eq (cache : List (String × ClientInfo)) (k : String) :
    lruGet cache k =
      match (cache.find? (fun e => e.1 == k)).map Prod.snd with
      | some c => (some c, (k, c) :: cache.filter (fun x => !(x.1 == k)))
      | none => (none, cache) := by
  unfold lruGet
  cases h : cache.find? (fun e => e.1 == k) with
  | none => rfl
  | some e =>
    have he : e.1 = k := by simpa using List.find?_some h
    obtain ⟨k', c⟩ := e
    simp only at he
    subst he
    rfl

theorem filter_ne_of_absent (cache : List (String × ClientInfo)) (k : String)
    (h : cache.find? (fun e => e.1 == k) = none) :
    cache.filter (fun x => !(x.1 == k)) = cache := by
  rw [List.filter_eq_self]
  intro x hx
  rw [List.find?_eq_none] at h
  have := h x hx
  simpa using this

theorem any_of_absent (cache : List (String × ClientInfo)) (k : String)
    (h : cache.find? (fun e => e.1 == k) = none) :
    cache.any (fun e => e.1 == k) = false := by
  rw [List.any_eq_false]
  rw [List.find?_eq_none] at h
  exact h

theorem filter_ne_idem (cache : List (String × ClientInfo)) (k : String) :
    (cache.filter (fun x => !(x.1 == k))).filter (fun x => !(x.1 == k)) =
      cache.filter (fun x => !(x.1 == k)) := by
  rw [List.filter_filter]
  simp

theorem find_filter_ne (cache : List (String × ClientInfo)) (k : String) :
    (cache.filter (fun x => !(x.1 == k))).find? (fun e => e.1 == k) = none := by
  rw [List.find?_eq_none]
  intro x hx
  rw [List.mem_filter] at hx
  simpa using hx.2

/-- Outcome of `refillTokens` for a key without bucket. -/
theorem refillTokens_new (rl : RateLimiter) (now : Int) (k : String)
    (hnew : bucket rl k = none) :
    refillTokens rl now k =
      ⟨rl.config, lruAdd rl.config.MaxClients rl.cache k
          ⟨rl.config.RequestsPerSec, now, rl.config.BurstSize, now⟩⟩ := by
  unfold bucket at hnew
  unfold refillTokens
  rw [lruGet_eq, hnew]

/-- Outcome of `refillTokens` for a key with bucket `c`. -/
theorem refillTokens_existing (rl : RateLimiter) (now : Int) (k : String) (c : ClientInfo)
    (hc : bucket rl k = some c) :
    refillTokens rl now k =
      ⟨rl.config,
        (k, ⟨refilled rl.config c now, now, c.BurstTokens, now⟩) :: otherBuckets rl k⟩ := by
  unfold bucket at hc
  unfold refillTokens
  rw [lruGet_eq, hc]
  simp only [lruAdd, List.any_cons, beq_self_eq_true, Bool.true_or, if_true,
    List.filter_cons, Bool.not_true, Bool.false_eq_true, if_false, filter_ne_idem]
  unfold refilled otherBuckets
  congr 3
  rw [min_def]
  by_cases h : c.Tokens + ((now - c.LastRefill : Int) : ℚ) / 1000000000 *
      rl.config.RequestsPerSec ≤ (rl.config.BurstSize : ℚ)
  · rw [if_pos h, if_neg (not_lt.mpr h)]
  · rw [if_neg h, if_pos (not_le.mp h)]

/-- Outcome of `consumeToken` when the key's bucket `c` is the most recently used entry. -/
theorem consumeToken_front (cfg : RateLimitConfig) (k : String) (c : ClientInfo)
    (rest : List (String × ClientInfo)) (hrest : rest.find? (fun e => e.1 == k) = none) :
    consumeToken ⟨cfg, (k, c) :: rest⟩ k =
      (decide (1 ≤ c.Tokens),
        ⟨cfg, (k, { c with Tokens := if 1 ≤ c.Tokens then c.Tokens - 1 else c.Tokens }) ::
          rest⟩) := by
  unfold consumeToken
  rw [lruGet_eq]
  simp only [List.find?_cons, beq_self_eq_true, Option.map_some', List.filter_cons,
    Bool.not_true, Bool.false_eq_true, if_false, filter_ne_of_absent rest k hrest]
  by_cases h : c.Tokens < 1
  · have h' : ¬ 1 ≤ c.Tokens := not_le.mpr h
    simp [h, h']
  · have h' : 1 ≤ c.Tokens := not_lt.mp h
    simp [h, h', lruAdd, filter_ne_of_absent rest k hrest]

theorem admission_existing (rl : RateLimiter) (now : Int) (k : String) (c : ClientInfo)
    (hc : bucket rl k = some c) :
    admission rl now k =
      (decide (1 ≤ refilled rl.config c now),
        ⟨rl.config,
          (k, ⟨if 1 ≤ refilled rl.config c now then refilled rl.config c now - 1
                else refilled rl.config c now, now, c.BurstTokens, now⟩) ::
            otherBuckets rl k⟩) := by
  unfold admission
  rw [refillTokens_existing rl now k c hc]
  exact consumeToken_front rl.config k _ _ (find_filter_ne rl.cache k)

/-- The older entries kept when a new key enters a cache of capacity `size`. -/
theorem lruAdd_new (size : Int) (hsize : 1 ≤ size) (cache : List (String × ClientInfo))
    (k : String) (v : ClientInfo) (hnew : cache.find? (fun e => e.1 == k) = none) :
    lruAdd size cache k v =
      (k, v) :: (if ((cache.length + 1 : Nat) : Int) > size then cache.dropLast else cache) := by
  unfold lruAdd
  rw [any_of_absent cache k hnew]
  simp only [Bool.false_eq_true, if_false]
  by_cases h : ((cache.length + 1 : Nat) : Int) > size
  · rw [if_pos h, if_pos h]
    have hne : cache ≠ [] := by
      intro he
      rw [he] at h
      simp at h
      omega
    exact List.dropLast_cons_of_ne_nil hne
  · rw [if_neg h, if_neg h]

theorem find_none_of_sublist {l l' : List (String × ClientInfo)} (k : String)
    (hs : l'.Sublist l) (h : l.find? (fun e => e.1 == k) = none) :
    l'.find? (fun e => e.1 == k) = none := by
  rw [List.find?_eq_none] at h ⊢
  intro x hx
  exact h x (hs.subset hx)

theorem admission_new (rl : RateLimiter) (now : Int) (k : String)
    (hsize : 1 ≤ rl.config.MaxClients) (hnew : bucket rl k = none) :
    admission rl now k =
      (decide (1 ≤ rl.config.RequestsPerSec),
        ⟨rl.config,
          (k, ⟨if 1 ≤ rl.config.RequestsPerSec then rl.config.RequestsPerSec - 1
                else rl.config.RequestsPerSec, now, rl.config.BurstSize, now⟩) ::
            (if ((rl.cache.length + 1 : Nat) : Int) > rl.config.MaxClients
              then rl.cache.dropLast else rl.cache)⟩) := by
  have hfind : rl.cache.find? (fun e => e.1 == k) = none := by
    unfold bucket at hnew
    simpa using hnew
  unfold admission
  rw [refillTokens_new rl now k hnew, lruAdd_new _ hsize _ _ _ hfind]
  apply consumeToken_front
  split
  · exact find_none_of_sublist k (List.dropLast_sublist _) hfind
  · exact hfind


theorem admission_config (rl : RateLimiter) (now : Int) (k : String)
    (hsize : 1 ≤ rl.config.MaxClients) : (admission rl now k).2.config = rl.config := by
  cases hb : bucket rl k with
  | none => rw [admission_new rl now k hsize hb]
  | some c => rw [admission_existing rl now k c hb]

theorem bucket_mem {rl : RateLimiter} {k : String} {c : ClientInfo} (h : bucket rl k = some c) :
    (k, c) ∈ rl.cache := by
  unfold bucket at h
  cases hf : rl.cache.find? (fun e => e.1 == k) with
  | none => rw [hf] at h; exact absurd h (by simp)
  | some e =>
    rw [hf] at h
    have he : e.1 = k := by simpa using List.find?_some hf
    have hc : e.2 = c := by simpa using h
    have := List.mem_of_find?_eq_some hf
    rw [← he, ← hc]
    exact this

/-- Under a non-decreasing clock and a valid configuration every bucket has a
`LastRefill` not after the latest clock reading and `Tokens >= 0`, and has
`Tokens <= BurstSize` when the refill rate does not exceed the burst size. -/
theorem LimiterRun_bounds (cfg : RateLimitConfig) (hv : ValidRateLimit cfg) (t : Int)
    (rl : RateLimiter) (h : LimiterRun cfg t rl) :
    rl.config = cfg ∧ ∀ e ∈ rl.cache, e.2.LastRefill ≤ t ∧ 0 ≤ e.2.Tokens ∧
      (cfg.RequestsPerSec ≤ (cfg.BurstSize : ℚ) → e.2.Tokens ≤ (cfg.BurstSize : ℚ)) := by
  obtain ⟨hrps, hburst, hmax⟩ := hv
  have hB : (1 : ℚ) ≤ (cfg.BurstSize : ℚ) := by exact_mod_cast hburst
  induction h with
  | init t => exact ⟨rfl, by simp⟩
  | @step t rl now k _ hle ih =>
    obtain ⟨hcfg, hall⟩ := ih
    have hsize : 1 ≤ rl.config.MaxClients := by rw [hcfg]; exact hmax
    refine ⟨by rw [admission_config rl now k hsize, hcfg], ?_⟩
    have hold : ∀ e ∈ rl.cache, e.2.LastRefill ≤ now ∧ 0 ≤ e.2.Tokens ∧
        (cfg.RequestsPerSec ≤ (cfg.BurstSize : ℚ) → e.2.Tokens ≤ (cfg.BurstSize : ℚ)) :=
      fun e he => ⟨le_trans (hall e he).1 hle, (hall e he).2⟩
    cases hb : bucket rl k with
    | none =>
      rw [admission_new rl now k hsize hb]
      intro e he
      simp only [List.mem_cons] at he
      rcases he with rfl | he
      · simp only [hcfg]
        refine ⟨le_refl _, ?_, ?_⟩
        · split <;> linarith
        · intro hle'
          split <;> linarith
      · apply hold
        split at he
        · exact (List.dropLast_sublist _).subset he
        · exact he
    | some c =>
      rw [admission_existing rl now k c hb]
      have hc := hall (k, c) (bucket_mem hb)
      simp only at hc
      have hel : (0 : ℚ) ≤ ((now - c.LastRefill : Int) : ℚ) / 1000000000 := by
        apply div_nonneg
        · have : (0 : Int) ≤ now - c.LastRefill := by linarith [hc.1]
          exact_mod_cast this
        · norm_num
      have hr0 : 0 ≤ refilled rl.config c now := by
        unfold refilled
        rw [hcfg]
        apply le_min
        · have : 0 ≤ ((now - c.LastRefill : Int) : ℚ) / 1000000000 * cfg.RequestsPerSec :=
            mul_nonneg hel (by linarith)
          linarith [hc.2.1]
        · linarith
      have hrB : refilled rl.config c now ≤ (cfg.BurstSize : ℚ) := by
        unfold refilled
        rw [hcfg]
        exact min_le_right _ _
      intro e he
      simp only [List.mem_cons] at he
      rcases he with rfl | he
      · refine ⟨le_refl _, ?_, ?_⟩
        · simp only
          split <;> linarith
        · intro _
          simp only
          split <;> linarith
      · apply hold
        unfold otherBuckets at he
        exact (List.mem_filter.mp he).1

/-- C13 (failing input). The configuration 5 requests per second with burst size 1
passes validation.  The first request of key `k` on the new limiter makes `refillTokens`
create the bucket with `Tokens = RequestsPerSec = 5`, above the burst size 1, and after
`consumeToken` it still holds 4. -/
theorem C13_first_bucket_above_burst :
    ValidRateLimit fastConfig ∧
    NewRateLimiter fastConfig = some ⟨fastConfig, []⟩ ∧
    bucket (refillTokens ⟨fastConfig, []⟩ 0 "k") "k" = some ⟨5, 0, 1, 0⟩ ∧
    admission ⟨fastConfig, []⟩ 0 "k" = (true, ⟨fastConfig, [("k", ⟨4, 0, 1, 0⟩)]⟩) ∧
    ¬ ((4 : ℚ) ≤ (fastConfig.BurstSize : ℚ)) := by
  refine ⟨?_, ?_, ?_, ?_, ?_⟩
  · unfold ValidRateLimit fastConfig; norm_num
  · rfl
  · rw [refillTokens_new ⟨fastConfig, []⟩ 0 "k" rfl]
    rfl
  · rw [admission_new ⟨fastConfig, []⟩ 0 "k" (by decide) rfl]
    simp [fastConfig]
    norm_num
  · simp [fastConfig]


/-! ### Bounded least-recently-used store -/

theorem lruFront_ok (size : Int) (cache : List (String × ClientInfo)) (k : String)
    (v : ClientInfo) (hpresent : cache.any (fun e => e.1 == k) = true)
    (hlen : (cache.length : Int) ≤ size) (hnd : (cache.map Prod.fst).Nodup) :
    ((((k, v) :: cache.filter (fun x => !(x.1 == k))).length : Nat) : Int) ≤ size ∧
    ((((k, v) :: cache.filter (fun x => !(x.1 == k))).map Prod.fst)).Nodup := by
  constructor
  · have hlt : (cache.filter (fun x => !(x.1 == k))).length < cache.length := by
      rw [List.any_eq_true] at hpresent
      obtain ⟨x, hx, hxk⟩ := hpresent
      apply List.length_filter_lt_length_iff_exists.mpr
      exact ⟨x, hx, by simpa using hxk⟩
    simp only [List.length_cons]
    omega
  · simp only [List.map_cons, List.nodup_cons]
    constructor
    · intro hmem
      rw [List.mem_map] at hmem
      obtain ⟨x, hx, hxk⟩ := hmem
      rw [List.mem_filter] at hx
      simp [hxk] at hx
    · exact hnd.sublist ((List.filter_sublist _).map Prod.fst)

theorem lruGet_ok (size : Int) (cache : List (String × ClientInfo)) (k : String)
    (hlen : (cache.length : Int) ≤ size) (hnd : (cache.map Prod.fst).Nodup) :
    (((lruGet cache k).2.length : Nat) : Int) ≤ size ∧
    ((lruGet cache k).2.map Prod.fst).Nodup := by
  rw [lruGet_eq]
  cases h : cache.find? (fun e => e.1 == k) with
  | none => exact ⟨hlen, hnd⟩
  | some e =>
    simp only [Option.map_some']
    apply lruFront_ok size cache k e.2 _ hlen hnd
    rw [List.any_eq_true]
    exact ⟨e, List.mem_of_find?_eq_some h,
      List.find?_some (p := fun (e : String × ClientInfo) => e.1 == k) h⟩

theorem lruAdd_ok (size : Int) (cache : List (String × ClientInfo)) (k : String)
    (v : ClientInfo) (hlen : (cache.length : Int) ≤ size)
    (hnd : (cache.map Prod.fst).Nodup) :
    (((lruAdd size cache k v).length : Nat) : Int) ≤ size ∧
    ((lruAdd size cache k v).map Prod.fst).Nodup := by
  unfold lruAdd
  by_cases hp : cache.any (fun e => e.1 == k) = true
  · rw [if_pos hp]
    exact lruFront_ok size cache k v hp hlen hnd
  · rw [if_neg hp]
    have hnew : (((k, v) :: cache).map Prod.fst).Nodup := by
      simp only [List.map_cons, List.nodup_cons]
      refine ⟨?_, hnd⟩
      intro hmem
      rw [List.mem_map] at hmem
      obtain ⟨x, hx, hxk⟩ := hmem
      apply hp
      rw [List.any_eq_true]
      exact ⟨x, hx, by simp [hxk]⟩
    by_cases h : ((cache.length + 1 : Nat) : Int) > size
    · rw [if_pos h]
      constructor
      · rw [List.length_dropLast]
        simp only [List.length_cons, Nat.add_sub_cancel]
        exact hlen
      · exact hnew.sublist ((List.dropLast_sublist _).map Prod.fst)
    · rw [if_neg h]
      constructor
      · simp only [List.length_cons]
        omega
      · exact hnew

theorem LimiterReachable_ok (cfg : RateLimitConfig) (hsize : 1 ≤ cfg.MaxClients)
    (rl : RateLimiter) (h : LimiterReachable cfg rl) :
    rl.config = cfg ∧ ((rl.cache.length : Nat) : Int) ≤ cfg.MaxClients ∧
      (rl.cache.map Prod.fst).Nodup := by
  induction h with
  | init => exact ⟨rfl, by simp only [List.length_nil]; omega, by simp⟩
  | @refill rl now k _ ih =>
    obtain ⟨hcfg, hlen, hnd⟩ := ih
    have hg := lruGet_ok cfg.MaxClients rl.cache k hlen hnd
    unfold refillTokens
    cases hget : lruGet rl.cache k with
    | mk found cache =>
      rw [hget] at hg
      cases found with
      | none =>
        simp only [hcfg]
        exact ⟨trivial, lruAdd_ok _ _ _ _ hg.1 hg.2⟩
      | some c =>
        simp only [hcfg]
        exact ⟨trivial, lruAdd_ok _ _ _ _ hg.1 hg.2⟩
  | @consume rl k _ ih =>
    obtain ⟨hcfg, hlen, hnd⟩ := ih
    have hg := lruGet_ok cfg.MaxClients rl.cache k hlen hnd
    unfold consumeToken
    cases hget : lruGet rl.cache k with
    | mk found cache =>
      rw [hget] at hg
      cases found with
      | none => exact ⟨hcfg, hg⟩
      | some c =>
        simp only
        split
        · exact ⟨hcfg, hg⟩
        · simp only [hcfg]
          exact ⟨trivial, lruAdd_ok _ _ _ _ hg.1 hg.2⟩

/-- C17. For a limiter of capacity `MaxClients >= 1`, in every state reachable by
`refillTokens` and `consumeToken` calls the store holds at most `MaxClients` buckets, one
per key.  The store is ordered by use: an admission of a key that has a bucket moves
that key to the most-recently-used end and keeps every other entry, bucket and relative
order included.  When the store is full, the admission of a key without bucket puts the
new bucket at the most-recently-used end and drops exactly the last entry, the
least-recently-used one; all remaining entries are unchanged.  When the store is not
full, nothing is dropped. -/
theorem C17_lru_bound_and_eviction (cfg : RateLimitConfig) (hsize : 1 ≤ cfg.MaxClients)
    (rl : RateLimiter) (h : LimiterReachable cfg rl) :
    ((rl.cache.length : Nat) : Int) ≤ cfg.MaxClients ∧
    (rl.cache.map Prod.fst).Nodup ∧
    (∀ now k c, bucket rl k = some c →
      ∃ c', (admission rl now k).2.cache = (k, c') :: otherBuckets rl k) ∧
    (∀ now k, bucket rl k = none → ((rl.cache.length : Nat) : Int) = cfg.MaxClients →
      ∃ c', (admission rl now k).2.cache = (k, c') :: rl.cache.dropLast) ∧
    (∀ now k, bucket rl k = none → ((rl.cache.length : Nat) : Int) < cfg.MaxClients →
      ∃ c', (admission rl now k).2.cache = (k, c') :: rl.cache) := by
  obtain ⟨hcfg, hlen, hnd⟩ := LimiterReachable_ok cfg hsize rl h
  have hsize' : 1 ≤ rl.config.MaxClients := by rw [hcfg]; exact hsize
  refine ⟨hlen, hnd, ?_, ?_, ?_⟩
  · intro now k c hc
    rw [admission_existing rl now k c hc]
    exact ⟨_, rfl⟩
  · intro now k hnew hfull
    have hgt : ((rl.cache.length + 1 : Nat) : Int) > rl.config.MaxClients := by
      rw [hcfg]; push_cast; omega
    rw [admission_new rl now k hsize' hnew]
    simp only
    rw [if_pos hgt]
    exact ⟨_, rfl⟩
  · intro now k hnew hroom
    have hngt : ¬ ((rl.cache.length + 1 : Nat) : Int) > rl.config.MaxClients := by
      rw [hcfg]; push_cast; omega
    rw [admission_new rl now k hsize' hnew]
    simp only
    rw [if_neg hngt]
    exact ⟨_, rfl⟩


/-- Witness for C17: the full store holds `b` then `a`; the first request of `c` puts
`c` in front and drops `a`, the least recently used key. -/
theorem C17_lru_bound_and_eviction_witness :
    ∃ c', (admission fullLimiter 1 "c").2.cache = ("c", c') :: fullLimiter.cache.dropLast :=
  (C17_lru_bound_and_eviction slowConfig (by decide) fullLimiter
    (LimiterReachable.consume "b" (LimiterReachable.refill 0 "b"
      (LimiterReachable.consume "a" (LimiterReachable.refill 0 "a"
        LimiterReachable.init))))).2.2.2.1 1 "c" (by decide) (by decide)

/-! ### Bursts at one clock reading -/

theorem bucket_front (cfg : RateLimitConfig) (k : String) (c : ClientInfo)
    (rest : List (String × ClientInfo)) : bucket ⟨cfg, (k, c) :: rest⟩ k = some c := by
  simp [bucket, List.find?_cons]

theorem burst_counts (m n : Nat) (hm : 1 ≤ m) :
    true :: (List.replicate (min (m - 1) n) true ++ List.replicate (n - (m - 1)) false) =
      List.replicate (min m (n + 1)) true ++ List.replicate (n + 1 - m) false := by
  have h1 : min m (n + 1) = min (m - 1) n + 1 := by omega
  have h2 : n + 1 - m = n - (m - 1) := by omega
  rw [h1, h2, List.replicate_succ]
  rfl

theorem admissions_burst (k : String) (t : Int) (n : Nat) :
    ∀ (rl : RateLimiter) (c : ClientInfo), bucket rl k = some c → c.LastRefill = t →
      0 ≤ c.Tokens → c.Tokens ≤ (rl.config.BurstSize : ℚ) →
      (admissions rl k (List.replicate n t)).1 =
        List.replicate (min ⌊c.Tokens⌋₊ n) true ++ List.replicate (n - ⌊c.Tokens⌋₊) false := by
  induction n with
  | zero => intro rl c _ _ _ _; simp [admissions]
  | succ n ih =>
    intro rl c hc ht h0 hB
    have hr : refilled rl.config c t = c.Tokens := by
      unfold refilled
      rw [ht]
      simp only [sub_self, Int.cast_zero, zero_div, zero_mul, add_zero]
      exact min_eq_left hB
    have hadm := admission_existing rl t k c hc
    rw [hr] at hadm
    by_cases h1 : 1 ≤ c.Tokens
    · simp only [h1, decide_True, if_true] at hadm
      have hfl : ⌊c.Tokens - 1⌋₊ = ⌊c.Tokens⌋₊ - 1 := Nat.floor_sub_one c.Tokens
      have hpos : 1 ≤ ⌊c.Tokens⌋₊ := Nat.floor_pos.mpr h1
      have := ih ⟨rl.config, (k, ⟨c.Tokens - 1, t, c.BurstTokens, t⟩) :: otherBuckets rl k⟩
        ⟨c.Tokens - 1, t, c.BurstTokens, t⟩ (bucket_front _ _ _ _) rfl
        (by simp only; linarith) (by simp only; linarith)
      simp only [List.replicate_succ, admissions, hadm]
      rw [this]
      simp only [hfl]
      exact burst_counts _ _ hpos
    · simp only [h1, decide_False, if_false] at hadm
      have hz : ⌊c.Tokens⌋₊ = 0 := Nat.floor_eq_zero.mpr (not_le.mp h1)
      have := ih ⟨rl.config, (k, ⟨c.Tokens, t, c.BurstTokens, t⟩) :: otherBuckets rl k⟩
        ⟨c.Tokens, t, c.BurstTokens, t⟩ (bucket_front _ _ _ _) rfl
        (by simp only; linarith) (by simp only; linarith)
      simp only [List.replicate_succ, admissions, hadm]
      rw [this]
      simp [hz, List.replicate_succ]

theorem admissions_first_burst (rl : RateLimiter) (k : String) (t : Int) (n : Nat)
    (hv : ValidRateLimit rl.config) (hnew : bucket rl k = none)
    (hle : rl.config.RequestsPerSec ≤ (rl.config.BurstSize : ℚ)) :
    (admissions rl k (List.replicate n t)).1 =
      List.replicate (min ⌊rl.config.RequestsPerSec⌋₊ n) true ++
        List.replicate (n - ⌊rl.config.RequestsPerSec⌋₊) false := by
  obtain ⟨hrps, hburst, hmax⟩ := hv
  cases n with
  | zero => simp [admissions]
  | succ n =>
    have hadm := admission_new rl t k hmax hnew
    by_cases h1 : 1 ≤ rl.config.RequestsPerSec
    · simp only [h1, decide_True, if_true] at hadm
      have hfl : ⌊rl.config.RequestsPerSec - 1⌋₊ = ⌊rl.config.RequestsPerSec⌋₊ - 1 :=
        Nat.floor_sub_one _
      have hpos : 1 ≤ ⌊rl.config.RequestsPerSec⌋₊ := Nat.floor_pos.mpr h1
      have := admissions_burst k t n
        ⟨rl.config, (k, ⟨rl.config.RequestsPerSec - 1, t, rl.config.BurstSize, t⟩) ::
          (if ((rl.cache.length + 1 : Nat) : Int) > rl.config.MaxClients
            then rl.cache.dropLast else rl.cache)⟩
        ⟨rl.config.RequestsPerSec - 1, t, rl.config.BurstSize, t⟩ (bucket_front _ _ _ _) rfl
        (by simp only; linarith) (by simp only; linarith)
      simp only [List.replicate_succ, admissions, hadm]
      rw [this]
      simp only [hfl]
      exact burst_counts _ _ hpos
    · simp only [h1, decide_False, if_false] at hadm
      have hz : ⌊rl.config.RequestsPerSec⌋₊ = 0 := Nat.floor_eq_zero.mpr (not_le.mp h1)
      have := admissions_burst k t n
        ⟨rl.config, (k, ⟨rl.config.RequestsPerSec, t, rl.config.BurstSize, t⟩) ::
          (if ((rl.cache.length + 1 : Nat) : Int) > rl.config.MaxClients
            then rl.cache.dropLast else rl.cache)⟩
        ⟨rl.config.RequestsPerSec, t, rl.config.BurstSize, t⟩ (bucket_front _ _ _ _) rfl
        (by simp only; linarith) (by simp only; linarith)
      simp only [List.replicate_succ, admissions, hadm]
      rw [this]
      simp [hz, List.replicate_succ]

/-- C16 as stated fails: with the valid configuration 2 requests per second and burst
size 5, a burst of six requests of a new key admits the first two and rejects the other
four, not five and one. -/
theorem C16_burst_counterexample :
    ValidRateLimit slowConfig ∧
    (admissions ⟨slowConfig, []⟩ "k" (List.replicate 6 0)).1 =
      [true, true, false, false, false, false] := by
  have hv : ValidRateLimit slowConfig := by unfold ValidRateLimit slowConfig; norm_num
  refine ⟨hv, ?_⟩
  rw [admissions_first_burst ⟨slowConfig, []⟩ "k" 0 6 hv rfl
    (by unfold slowConfig; norm_num)]
  have hf : ⌊(2 : ℚ)⌋₊ = 2 := Nat.floor_ofNat 2
  simp only [slowConfig, hf]
  rfl

/-- C16 amended. For a valid configuration whose `RequestsPerSec` does not exceed
`BurstSize`, a burst of `n` admissions of one key at one clock reading, the first of which
creates the bucket, admits exactly the first `floor RequestsPerSec` calls (all `n` when
`n` is smaller) and rejects every call after them. -/
theorem C16_burst_from_first_request (rl : RateLimiter) (k : String) (t : Int) (n : Nat)
    (hv : ValidRateLimit rl.config) (hnew : bucket rl k = none)
    (hle : rl.config.RequestsPerSec ≤ (rl.config.BurstSize : ℚ)) :
    (admissions rl k (List.replicate n t)).1 =
      List.replicate (min ⌊rl.config.RequestsPerSec⌋₊ n) true ++
        List.replicate (n - ⌊rl.config.RequestsPerSec⌋₊) false :=
  admissions_first_burst rl k t n hv hnew hle

/-- Witness for C16 amended: at 2 requests per second and burst 5, three simultaneous
requests of a new key give admitted, admitted, rejected. -/
theorem C16_burst_from_first_request_witness :
    (admissions ⟨slowConfig, []⟩ "k" (List.replicate 3 7)).1 =
      List.replicate (min ⌊slowConfig.RequestsPerSec⌋₊ 3) true ++
        List.replicate (3 - ⌊slowConfig.RequestsPerSec⌋₊) false :=
  C16_burst_from_first_request ⟨slowConfig, []⟩ "k" 7 3
    (by unfold ValidRateLimit slowConfig; norm_num) rfl (by unfold slowConfig; norm_num)

/-! ### Rounding to `float64` -/

theorem roundHalfEven_floor_le (x : ℚ) : ⌊x⌋ ≤ roundHalfEven x := by
  unfold roundHalfEven
  simp only []
  split_ifs <;> omega

theorem roundHalfEven_eq_of_close (x : ℚ) (n : Int) (h : |x - n| < 1 / 2) :
    roundHalfEven x = n := by
  rw [abs_lt] at h
  obtain ⟨h1, h2⟩ := h
  unfold roundHalfEven
  simp only []
  by_cases hn : (n : ℚ) ≤ x
  · have hf : ⌊x⌋ = n := by
      rw [Int.floor_eq_iff]
      constructor
      · exact hn
      · linarith
    rw [hf]
    rw [if_pos (by linarith)]
  · have hf : ⌊x⌋ = n - 1 := by
      rw [Int.floor_eq_iff]
      push_cast
      constructor <;> linarith
    rw [hf]
    push_cast
    rw [if_neg (by linarith), if_pos (by linarith)]
    ring

theorem float64_nonneg (q : ℚ) (h : 0 ≤ q) : 0 ≤ float64 q := by
  unfold float64
  have hpow : (0 : ℚ) < 2 ^ ulpExponent q := zpow_pos (by norm_num) _
  apply mul_nonneg _ hpow.le
  have : (0 : Int) ≤ roundHalfEven (q / 2 ^ ulpExponent q) := by
    refine le_trans ?_ (roundHalfEven_floor_le _)
    exact Int.floor_nonneg.mpr (div_nonneg h hpow.le)
  exact_mod_cast this

theorem two_zpow_split (L : Int) : ((2 ^ 52 : Int) : ℚ) * 2 ^ (L - 52) = 2 ^ L := by
  rw [zpow_sub₀ (by norm_num : (2 : ℚ) ≠ 0)]
  have : ((2 ^ 52 : Int) : ℚ) = 2 ^ (52 : Int) := by norm_num
  rw [this]
  field_simp

theorem float64_one_le (q : ℚ) (h : 1 ≤ q) : 1 ≤ float64 q := by
  have hq0 : 0 < q := by linarith
  have habs : |q| = q := abs_of_pos hq0
  have hlog0 : 0 ≤ Int.log 2 q := by
    rw [← Int.zpow_le_iff_le_log (by norm_num) hq0]
    simpa using h
  have hexp : ulpExponent q = Int.log 2 q - 52 := by
    unfold ulpExponent
    rw [habs, max_eq_left (by omega)]
  unfold float64
  rw [hexp]
  have hpow : (0 : ℚ) < 2 ^ (Int.log 2 q - 52) := zpow_pos (by norm_num) _
  have hle : (2 : ℚ) ^ Int.log 2 q ≤ q := by
    have := Int.zpow_log_le_self (b := 2) (r := q) (by norm_num) hq0
    simpa using this
  have h52 : ((2 ^ 52 : Int) : ℚ) ≤ q / 2 ^ (Int.log 2 q - 52) := by
    rw [le_div_iff₀ hpow]
    rw [two_zpow_split]
    exact hle
  have hr : (2 ^ 52 : Int) ≤ roundHalfEven (q / 2 ^ (Int.log 2 q - 52)) :=
    le_trans (Int.le_floor.mpr h52) (roundHalfEven_floor_le _)
  have hr' : ((2 ^ 52 : Int) : ℚ) ≤ (roundHalfEven (q / 2 ^ (Int.log 2 q - 52)) : ℚ) := by
    exact_mod_cast hr
  calc (1 : ℚ) ≤ 2 ^ Int.log 2 q := one_le_zpow₀ (by norm_num) hlog0
    _ = ((2 ^ 52 : Int) : ℚ) * 2 ^ (Int.log 2 q - 52) := (two_zpow_split _).symm
    _ ≤ _ := mul_le_mul_of_nonneg_right hr' hpow.le

theorem roundHalfEven_le_floor_add_one (x : ℚ) : roundHalfEven x ≤ ⌊x⌋ + 1 := by
  unfold roundHalfEven
  simp only []
  split_ifs <;> omega

theorem roundHalfEven_intCast (n : Int) : roundHalfEven (n : ℚ) = n :=
  roundHalfEven_eq_of_close _ n (by simp)

theorem float64_zero : float64 0 = 0 := by
  unfold float64
  rw [zero_div]
  have : roundHalfEven (0 : ℚ) = 0 := by
    have := roundHalfEven_intCast 0
    simpa using this
  rw [this]
  simp

theorem log_eq_of_bounds (q : ℚ) (L : Int) (h1 : (2 : ℚ) ^ L ≤ q) (h2 : q < 2 ^ (L + 1)) :
    Int.log 2 q = L := by
  have h0 : 0 < q := lt_of_lt_of_le (zpow_pos (by norm_num) _) h1
  apply le_antisymm
  · have := (Int.lt_zpow_iff_log_lt (b := 2) (by norm_num) h0).mp (by exact_mod_cast h2)
    omega
  · exact (Int.zpow_le_iff_le_log (b := 2) (by norm_num) h0).mp (by exact_mod_cast h1)

/-- Evaluation of `float64` at a positive value of known binade, away from a tie. -/
theorem float64_eval (q : ℚ) (L n : Int) (h1 : (2 : ℚ) ^ L ≤ q) (h2 : q < 2 ^ (L + 1))
    (hL : -1022 ≤ L) (hn : |q / 2 ^ (L - 52) - n| < 1 / 2) :
    float64 q = n * 2 ^ (L - 52) := by
  have h0 : 0 < q := lt_of_lt_of_le (zpow_pos (by norm_num) _) h1
  have hexp : ulpExponent q = L - 52 := by
    unfold ulpExponent
    rw [abs_of_pos h0, log_eq_of_bounds q L h1 h2, max_eq_left hL]
  unfold float64
  rw [hexp, roundHalfEven_eq_of_close _ n hn]

theorem roundHalfEven_tie (n : Int) (hn : n % 2 = 0) : roundHalfEven ((n : ℚ) + 1 / 2) = n := by
  have hf : ⌊(n : ℚ) + 1 / 2⌋ = n := by
    rw [Int.floor_eq_iff]
    constructor <;> linarith
  unfold roundHalfEven
  simp only []
  rw [hf]
  rw [if_neg (by norm_num), if_neg (by norm_num), if_pos hn]

/-- Evaluation of `float64` at a positive value of known binade that lies halfway
between two neighbours: the one with the even significand is taken. -/
theorem float64_eval_tie (q : ℚ) (L n : Int) (h1 : (2 : ℚ) ^ L ≤ q) (h2 : q < 2 ^ (L + 1))
    (hL : -1022 ≤ L) (hn : q / 2 ^ (L - 52) = n + 1 / 2) (heven : n % 2 = 0) :
    float64 q = n * 2 ^ (L - 52) := by
  have h0 : 0 < q := lt_of_lt_of_le (zpow_pos (by norm_num) _) h1
  have hexp : ulpExponent q = L - 52 := by
    unfold ulpExponent
    rw [abs_of_pos h0, log_eq_of_bounds q L h1 h2, max_eq_left hL]
  unfold float64
  rw [hexp, hn, roundHalfEven_tie n heven]

theorem log_bounds (q : ℚ) (h0 : 0 < q) :
    (2 : ℚ) ^ Int.log 2 q ≤ q ∧ q < 2 ^ (Int.log 2 q + 1) := by
  constructor
  · have := Int.zpow_log_le_self (b := 2) (r := q) (by norm_num) h0
    simpa using this
  · have := Int.lt_zpow_succ_log_self (b := 2) (by norm_num) q
    simpa using this

theorem ulpExponent_ge (q : ℚ) : -1074 ≤ ulpExponent q := by
  unfold ulpExponent
  have := le_max_right (Int.log 2 |q|) (-1022)
  omega

theorem float64_of_multiple (q : ℚ) (k : Int) (hk : q = (k : ℚ) * 2 ^ ulpExponent q) :
    float64 q = q := by
  have hpE : (0 : ℚ) < 2 ^ ulpExponent q := zpow_pos (by norm_num) _
  have hdiv : q / 2 ^ ulpExponent q = k := by
    rw [div_eq_iff hpE.ne']
    exact hk
  unfold float64
  rw [hdiv, roundHalfEven_intCast]
  exact hk.symm

/-- A value `m * 2 ^ e` with a significand of at most 53 bits and an exponent in the
range of binary64 is not changed by `float64`. -/
theorem float64_dyadic (m e : Int) (hm : |m| ≤ 2 ^ 53) (he : -1074 ≤ e) :
    float64 ((m : ℚ) * 2 ^ e) = (m : ℚ) * 2 ^ e := by
  by_cases hm0 : m = 0
  · subst hm0
    simp [float64_zero]
  have hpe : (0 : ℚ) < 2 ^ e := zpow_pos (by norm_num) _
  have hmq : (m : ℚ) ≠ 0 := by exact_mod_cast hm0
  have habs : |(m : ℚ) * 2 ^ e| = ((|m| : Int) : ℚ) * 2 ^ e := by
    rw [abs_mul, abs_of_pos hpe, Int.cast_abs]
  have hapos : 0 < |(m : ℚ) * 2 ^ e| := abs_pos.mpr (mul_ne_zero hmq hpe.ne')
  obtain ⟨hlo, hhi⟩ := log_bounds _ hapos
  have hEdef : ulpExponent ((m : ℚ) * 2 ^ e) =
      max (Int.log 2 |(m : ℚ) * 2 ^ e|) (-1022) - 52 := rfl
  generalize hL : Int.log 2 |(m : ℚ) * 2 ^ e| = L at hlo hhi hEdef
  have hm53 : ((|m| : Int) : ℚ) ≤ 2 ^ (53 : Int) := by
    calc ((|m| : Int) : ℚ) ≤ ((2 ^ 53 : Int) : ℚ) := by exact_mod_cast hm
      _ = 2 ^ (53 : Int) := by norm_num
  -- the binade of the value is at most `e + 53`
  have hLle : L ≤ e + 53 := by
    have h1 : (2 : ℚ) ^ L ≤ 2 ^ (53 : Int) * 2 ^ e := by
      rw [habs] at hlo
      exact le_trans hlo (mul_le_mul_of_nonneg_right hm53 hpe.le)
    rw [← zpow_add₀ (by norm_num : (2 : ℚ) ≠ 0)] at h1
    have := (zpow_le_zpow_iff_right₀ (by norm_num : (1 : ℚ) < 2)).mp h1
    omega
  by_cases hcase : ulpExponent ((m : ℚ) * 2 ^ e) ≤ e
  · apply float64_of_multiple _ (m * 2 ^ (e - ulpExponent ((m : ℚ) * 2 ^ e)).toNat)
    generalize ulpExponent ((m : ℚ) * 2 ^ e) = E at hcase
    have hnat : ((e - E).toNat : Int) = e - E := Int.toNat_of_nonneg (by omega)
    have hsplit : (2 : ℚ) ^ e = 2 ^ ((e - E).toNat : Int) * 2 ^ E := by
      rw [← zpow_add₀ (by norm_num : (2 : ℚ) ≠ 0), hnat]
      congr 1
      omega
    rw [hsplit, zpow_natCast]
    push_cast
    ring
  · have hLgt : -1022 < L := by
      by_contra hcon
      rw [hEdef, max_eq_right (by omega)] at hcase
      omega
    have hE : ulpExponent ((m : ℚ) * 2 ^ e) = e + 1 := by
      rw [hEdef, max_eq_left (by omega)] at hcase ⊢
      omega
    have hLeq : L = e + 53 := by
      rw [hEdef, max_eq_left (by omega)] at hE
      omega
    have hmge : (2 : ℚ) ^ (53 : Int) ≤ ((|m| : Int) : ℚ) := by
      rw [habs, hLeq, zpow_add₀ (by norm_num : (2 : ℚ) ≠ 0), mul_comm] at hlo
      exact le_of_mul_le_mul_right hlo hpe
    have hmabs : |m| = 2 ^ 53 := by
      apply le_antisymm hm
      have : ((2 ^ 53 : Int) : ℚ) ≤ ((|m| : Int) : ℚ) := by
        calc ((2 ^ 53 : Int) : ℚ) = 2 ^ (53 : Int) := by norm_num
          _ ≤ _ := hmge
      exact_mod_cast this
    have hhalf : m = 2 * (m / 2) := by
      rcases abs_eq (by norm_num : (0 : Int) ≤ 2 ^ 53) |>.mp hmabs with h | h <;> rw [h] <;> norm_num
    apply float64_of_multiple _ (m / 2)
    rw [hE, zpow_add₀ (by norm_num : (2 : ℚ) ≠ 0), zpow_one]
    have : (m : ℚ) = 2 * ((m / 2 : Int) : ℚ) := by exact_mod_cast hhalf
    rw [this]
    ring

/-- Every value of `float64` has a significand of at most 53 bits over an exponent in
the range of binary64. -/
theorem float64_representable (x : ℚ) :
    ∃ m e : Int, |m| ≤ 2 ^ 53 ∧ -1074 ≤ e ∧ float64 x = (m : ℚ) * 2 ^ e := by
  refine ⟨roundHalfEven (x / 2 ^ ulpExponent x), ulpExponent x, ?_, ulpExponent_ge x, rfl⟩
  have hpE : (0 : ℚ) < 2 ^ ulpExponent x := zpow_pos (by norm_num) _
  have hhi : |x| < 2 ^ (Int.log 2 |x| + 1) := by
    have := Int.lt_zpow_succ_log_self (b := 2) (by norm_num) |x|
    simpa using this
  have hle : (2 : ℚ) ^ (Int.log 2 |x| + 1) ≤ 2 ^ (53 : Int) * 2 ^ ulpExponent x := by
    rw [← zpow_add₀ (by norm_num : (2 : ℚ) ≠ 0)]
    apply zpow_le_zpow_right₀ (by norm_num)
    unfold ulpExponent
    have := le_max_left (Int.log 2 |x|) (-1022)
    omega
  have hlt : |x / 2 ^ ulpExponent x| < 2 ^ (53 : Int) := by
    rw [abs_div, abs_of_pos hpE, div_lt_iff₀ hpE]
    exact lt_of_lt_of_le hhi hle
  rw [abs_lt] at hlt
  have h53 : ((2 : ℚ) ^ (53 : Int)) = ((2 ^ 53 : Int) : ℚ) := by norm_num
  rw [h53] at hlt
  have hfl : -(2 ^ 53 : Int) ≤ ⌊x / 2 ^ ulpExponent x⌋ := by
    rw [Int.le_floor]
    push_cast
    push_cast at hlt
    exact hlt.1.le
  have hfu : ⌊x / 2 ^ ulpExponent x⌋ < (2 ^ 53 : Int) := by
    rw [Int.floor_lt]
    exact hlt.2
  have h1 := roundHalfEven_floor_le (x / 2 ^ ulpExponent x)
  have h2 := roundHalfEven_le_floor_add_one (x / 2 ^ ulpExponent x)
  rw [abs_le]
  constructor <;> omega

theorem float64_idem (x : ℚ) : float64 (float64 x) = float64 x := by
  obtain ⟨m, e, hm, he, h⟩ := float64_representable x
  rw [h]
  exact float64_dyadic m e hm he

theorem float64_intCast (n : Int) (hn : |n| ≤ 2 ^ 53) : float64 (n : ℚ) = n := by
  have := float64_dyadic n 0 hn (by norm_num)
  simpa using this

/-- Subtracting 1 from a value of `float64` between 1 and `2 ^ 53` is exact. -/
theorem float64_sub_one (y : ℚ) (hy : float64 y = y) (h1 : 1 ≤ y) (h2 : y ≤ 2 ^ 53) :
    float64 (y - 1) = y - 1 := by
  obtain ⟨m, e, hm, he, h⟩ := float64_representable y
  rw [hy] at h
  have hpe : (0 : ℚ) < 2 ^ e := zpow_pos (by norm_num) _
  by_cases hcase : 0 ≤ e
  · have hnat : ((e.toNat : Nat) : Int) = e := Int.toNat_of_nonneg hcase
    have hyint : y = ((m * 2 ^ e.toNat : Int) : ℚ) := by
      rw [h]
      push_cast
      rw [← zpow_natCast, hnat]
    have hsub : y - 1 = ((m * 2 ^ e.toNat - 1 : Int) : ℚ) := by
      rw [hyint]
      push_cast
      ring
    rw [hsub]
    apply float64_intCast
    rw [hyint] at h1 h2
    have h1' : (1 : Int) ≤ m * 2 ^ e.toNat := by exact_mod_cast h1
    have h2' : m * 2 ^ e.toNat ≤ (2 ^ 53 : Int) := by exact_mod_cast h2
    rw [abs_le]
    constructor <;> omega
  · have hnat : (((-e).toNat : Nat) : Int) = -e := Int.toNat_of_nonneg (by omega)
    have hone : (1 : ℚ) = ((2 ^ (-e).toNat : Int) : ℚ) * 2 ^ e := by
      push_cast
      rw [← zpow_natCast, hnat, ← zpow_add₀ (by norm_num : (2 : ℚ) ≠ 0)]
      simp
    have hsub : y - 1 = ((m - 2 ^ (-e).toNat : Int) : ℚ) * 2 ^ e := by
      rw [h]
      nth_rewrite 1 [hone]
      push_cast
      ring
    rw [hsub]
    apply float64_dyadic _ _ _ he
    have hge : (2 ^ (-e).toNat : Int) ≤ m := by
      have : ((2 ^ (-e).toNat : Int) : ℚ) * 2 ^ e ≤ (m : ℚ) * 2 ^ e := by
        rw [← hone, ← h]
        exact h1
      have := le_of_mul_le_mul_right this hpe
      exact_mod_cast this
    have hpos : (0 : Int) < 2 ^ (-e).toNat := by positivity
    have hmle : m ≤ 2 ^ 53 := le_trans (le_abs_self m) hm
    rw [abs_le]
    constructor <;> omega

theorem roundHalfEven_mono {a b : ℚ} (h : a ≤ b) : roundHalfEven a ≤ roundHalfEven b := by
  have hf : ⌊a⌋ ≤ ⌊b⌋ := Int.floor_mono h
  rcases lt_or_eq_of_le hf with hlt | heq
  · have h1 := roundHalfEven_le_floor_add_one a
    have h2 := roundHalfEven_floor_le b
    omega
  · unfold roundHalfEven
    simp only []
    rw [heq]
    have hab : a - (⌊b⌋ : ℚ) ≤ b - (⌊b⌋ : ℚ) := by linarith
    split_ifs <;> first | omega | (exfalso; linarith)

/-- A multiple of the last place of `x` that is not below `x` is not below
`float64 x`. -/
theorem float64_le_of_le_multiple (x : ℚ) (n : Int)
    (h : x ≤ (n : ℚ) * 2 ^ ulpExponent x) : float64 x ≤ (n : ℚ) * 2 ^ ulpExponent x := by
  have hpE : (0 : ℚ) < 2 ^ ulpExponent x := zpow_pos (by norm_num) _
  unfold float64
  apply mul_le_mul_of_nonneg_right _ hpE.le
  have hdiv : x / 2 ^ ulpExponent x ≤ (n : ℚ) := by
    rw [div_le_iff₀ hpE]
    exact h
  have := roundHalfEven_mono hdiv
  rw [roundHalfEven_intCast] at this
  exact_mod_cast this

/-- A multiple of the last place of `x` that is not above `x` is not above
`float64 x`. -/
theorem multiple_le_float64 (x : ℚ) (n : Int)
    (h : (n : ℚ) * 2 ^ ulpExponent x ≤ x) : (n : ℚ) * 2 ^ ulpExponent x ≤ float64 x := by
  have hpE : (0 : ℚ) < 2 ^ ulpExponent x := zpow_pos (by norm_num) _
  unfold float64
  apply mul_le_mul_of_nonneg_right _ hpE.le
  have hdiv : (n : ℚ) ≤ x / 2 ^ ulpExponent x := by
    rw [le_div_iff₀ hpE]
    exact h
  have := roundHalfEven_mono hdiv
  rw [roundHalfEven_intCast] at this
  exact_mod_cast this

theorem two_zpow_multiple (M E : Int) (h : E ≤ M) :
    (2 : ℚ) ^ M = ((2 ^ (M - E).toNat : Int) : ℚ) * 2 ^ E := by
  have hnat : (((M - E).toNat : Nat) : Int) = M - E := Int.toNat_of_nonneg (by omega)
  push_cast
  rw [← zpow_natCast, hnat, ← zpow_add₀ (by norm_num : (2 : ℚ) ≠ 0)]
  congr 1
  omega

/-- On values that are not negative `float64` is monotone. -/
theorem float64_mono_of_nonneg (x y : ℚ) (hx : 0 ≤ x) (hxy : x ≤ y) :
    float64 x ≤ float64 y := by
  rcases eq_or_lt_of_le hx with h0 | hpos
  · rw [← h0, float64_zero]
    exact float64_nonneg y (le_trans hx hxy)
  have hypos : 0 < y := lt_of_lt_of_le hpos hxy
  have hlog : Int.log 2 x ≤ Int.log 2 y := Int.log_mono_right hpos hxy
  have hEx : ulpExponent x = max (Int.log 2 x) (-1022) - 52 := by
    unfold ulpExponent
    rw [abs_of_pos hpos]
  have hEy : ulpExponent y = max (Int.log 2 y) (-1022) - 52 := by
    unfold ulpExponent
    rw [abs_of_pos hypos]
  have hE : ulpExponent x ≤ ulpExponent y := by
    rw [hEx, hEy]
    have := max_le_max hlog (le_refl (-1022 : Int))
    omega
  rcases eq_or_lt_of_le hE with heq | hlt
  · have hpE : (0 : ℚ) < 2 ^ ulpExponent y := zpow_pos (by norm_num) _
    unfold float64
    rw [heq]
    apply mul_le_mul_of_nonneg_right _ hpE.le
    have : x / 2 ^ ulpExponent y ≤ y / 2 ^ ulpExponent y :=
      div_le_div_of_nonneg_right hxy hpE.le
    exact_mod_cast roundHalfEven_mono this
  · have hLy : -1022 < Int.log 2 y := by
      by_contra hcon
      rw [hEy, max_eq_right (by omega)] at hlt
      have := ulpExponent_ge x
      omega
    have hEy' : ulpExponent y = Int.log 2 y - 52 := by
      rw [hEy, max_eq_left (by omega)]
    have hLx : Int.log 2 x + 1 ≤ Int.log 2 y := by
      by_contra hcon
      have : Int.log 2 x = Int.log 2 y := by omega
      rw [hEx, hEy, this] at hlt
      omega
    have hxlt : x ≤ 2 ^ Int.log 2 y :=
      le_trans (log_bounds x hpos).2.le (zpow_le_zpow_right₀ (by norm_num) hLx)
    have hyge : (2 : ℚ) ^ Int.log 2 y ≤ y := (log_bounds y hypos).1
    have h1 : float64 x ≤ 2 ^ Int.log 2 y := by
      rw [two_zpow_multiple (Int.log 2 y) (ulpExponent x) (by omega)] at hxlt ⊢
      exact float64_le_of_le_multiple x _ hxlt
    have h2 : (2 : ℚ) ^ Int.log 2 y ≤ float64 y := by
      rw [two_zpow_multiple (Int.log 2 y) (ulpExponent y) (by omega)] at hyge ⊢
      exact multiple_le_float64 y _ hyge
    exact le_trans h1 h2

theorem float64_one : float64 1 = 1 := by
  have := float64_intCast 1 (by norm_num)
  simpa using this

/-! ### `Time.Sub` and `Duration.Seconds` -/

theorem Time.Sub_of_range (t u : Int) (h1 : -9223372036854775808 ≤ t - u)
    (h2 : t - u ≤ 9223372036854775807) : Time.Sub t u = t - u := by
  unfold Time.Sub
  rw [if_neg (by omega), if_neg (by omega)]

theorem Time.Sub_nonneg (t u : Int) (h : u ≤ t) : 0 ≤ Time.Sub t u := by
  unfold Time.Sub
  split_ifs <;> omega

theorem Duration.Seconds_nonneg (d : Int) (h : 0 ≤ d) : 0 ≤ Duration.Seconds d := by
  unfold Duration.Seconds
  simp only []
  apply float64_nonneg
  apply add_nonneg
  · apply float64_nonneg
    exact_mod_cast Int.tdiv_nonneg h (by norm_num)
  · apply float64_nonneg
    apply div_nonneg _ (by norm_num)
    apply float64_nonneg
    exact_mod_cast Int.tmod_nonneg _ h


/-! ### The token bucket in `float64` arithmetic -/

/-- Outcome of `refillTokensRounded` for a key without bucket. -/
theorem refillTokensRounded_new (fused : Bool) (rl : RateLimiter) (now : Int) (k : String)
    (hnew : bucket rl k = none) :
    refillTokensRounded fused rl now k =
      ⟨rl.config, lruAdd rl.config.MaxClients rl.cache k
          ⟨rl.config.RequestsPerSec, now, rl.config.BurstSize, now⟩⟩ := by
  unfold bucket at hnew
  unfold refillTokensRounded
  rw [lruGet_eq, hnew]

/-- Outcome of `refillTokensRounded` for a key with bucket `c`. -/
theorem refillTokensRounded_existing (fused : Bool) (rl : RateLimiter) (now : Int)
    (k : String) (c : ClientInfo) (hc : bucket rl k = some c) :
    refillTokensRounded fused rl now k =
      ⟨rl.config,
        (k, ⟨refilledRounded fused rl.config c now, now, c.BurstTokens, now⟩) ::
          otherBuckets rl k⟩ := by
  unfold bucket at hc
  unfold refillTokensRounded
  rw [lruGet_eq, hc]
  simp only [lruAdd, List.any_cons, beq_self_eq_true, Bool.true_or, if_true,
    List.filter_cons, Bool.not_true, Bool.false_eq_true, if_false, filter_ne_idem]
  unfold refilledRounded otherBuckets
  congr 3
  rw [min_def]
  generalize (if fused = true then
      float64 (c.Tokens + Duration.Seconds (Time.Sub now c.LastRefill) *
        rl.config.RequestsPerSec)
    else
      float64 (c.Tokens +
        float64 (Duration.Seconds (Time.Sub now c.LastRefill) *
          rl.config.RequestsPerSec))) = s
  by_cases h : s ≤ float64 (rl.config.BurstSize : ℚ)
  · rw [if_pos h, if_neg (not_lt.mpr h)]
  · rw [if_neg h, if_pos (not_le.mp h)]

/-- Outcome of `consumeTokenRounded` when the key's bucket `c` is the most recently used
entry. -/
theorem consumeTokenRounded_front (cfg : RateLimitConfig) (k : String) (c : ClientInfo)
    (rest : List (String × ClientInfo)) (hrest : rest.find? (fun e => e.1 == k) = none) :
    consumeTokenRounded ⟨cfg, (k, c) :: rest⟩ k =
      (decide (1 ≤ c.Tokens),
        ⟨cfg, (k, { c with
            Tokens := if 1 ≤ c.Tokens then float64 (c.Tokens - 1) else c.Tokens }) ::
          rest⟩) := by
  unfold consumeTokenRounded
  rw [lruGet_eq]
  simp only [List.find?_cons, beq_self_eq_true, Option.map_some', List.filter_cons,
    Bool.not_true, Bool.false_eq_true, if_false, filter_ne_of_absent rest k hrest]
  by_cases h : c.Tokens < 1
  · have h' : ¬ 1 ≤ c.Tokens := not_le.mpr h
    simp [h, h']
  · have h' : 1 ≤ c.Tokens := not_lt.mp h
    simp [h, h', lruAdd, filter_ne_of_absent rest k hrest]

theorem admissionRounded_existing (fused : Bool) (rl : RateLimiter) (now : Int)
    (k : String) (c : ClientInfo) (hc : bucket rl k = some c) :
    admissionRounded fused rl now k =
      (decide (1 ≤ refilledRounded fused rl.config c now),
        ⟨rl.config,
          (k, ⟨if 1 ≤ refilledRounded fused rl.config c now
                then float64 (refilledRounded fused rl.config c now - 1)
                else refilledRounded fused rl.config c now, now, c.BurstTokens, now⟩) ::
            otherBuckets rl k⟩) := by
  unfold admissionRounded
  rw [refillTokensRounded_existing fused rl now k c hc]
  exact consumeTokenRounded_front rl.config k _ _ (find_filter_ne rl.cache k)

theorem admissionRounded_new (fused : Bool) (rl : RateLimiter) (now : Int) (k : String)
    (hsize : 1 ≤ rl.config.MaxClients) (hnew : bucket rl k = none) :
    admissionRounded fused rl now k =
      (decide (1 ≤ rl.config.RequestsPerSec),
        ⟨rl.config,
          (k, ⟨if 1 ≤ rl.config.RequestsPerSec then float64 (rl.config.RequestsPerSec - 1)
                else rl.config.RequestsPerSec, now, rl.config.BurstSize, now⟩) ::
            (if ((rl.cache.length + 1 : Nat) : Int) > rl.config.MaxClients
              then rl.cache.dropLast else rl.cache)⟩) := by
  have hfind : rl.cache.find? (fun e => e.1 == k) = none := by
    unfold bucket at hnew
    simpa using hnew
  unfold admissionRounded
  rw [refillTokensRounded_new fused rl now k hnew, lruAdd_new _ hsize _ _ _ hfind]
  apply consumeTokenRounded_front
  split
  · exact find_none_of_sublist k (List.dropLast_sublist _) hfind
  · exact hfind

/-- The sum of the refill before the cap. -/
theorem refill_sum_le (fused : Bool) (T S r lo : ℚ) (hT : 0 ≤ T) (hS : 0 ≤ S) (hr : 0 ≤ r)
    (hlo : lo ≤ float64 (S * r)) (hlo0 : 0 ≤ lo) (hfix : float64 lo = lo) :
    lo ≤ (if fused then float64 (T + S * r) else float64 (T + float64 (S * r))) := by
  have hSr : 0 ≤ S * r := mul_nonneg hS hr
  cases fused with
  | true =>
    simp only [if_true]
    exact le_trans hlo (float64_mono_of_nonneg _ _ hSr (by linarith))
  | false =>
    simp only [Bool.false_eq_true, if_false]
    rw [← hfix]
    exact float64_mono_of_nonneg _ _ hlo0 (by linarith)

theorem refilledRounded_nonneg (fused : Bool) (cfg : RateLimitConfig) (c : ClientInfo)
    (now : Int) (hv : ValidRateLimit cfg) (hT : 0 ≤ c.Tokens) (hclock : c.LastRefill ≤ now) :
    0 ≤ refilledRounded fused cfg c now := by
  obtain ⟨hrps, hburst, _⟩ := hv
  have hS := Duration.Seconds_nonneg _ (Time.Sub_nonneg now c.LastRefill hclock)
  have hr : 0 ≤ cfg.RequestsPerSec := by linarith
  unfold refilledRounded
  apply le_min
  · exact refill_sum_le fused _ _ _ 0 hT hS hr (float64_nonneg _ (mul_nonneg hS hr))
      (le_refl _) float64_zero
  · apply float64_nonneg
    have : (1 : ℚ) ≤ (cfg.BurstSize : ℚ) := by exact_mod_cast hburst
    linarith

theorem refilledRounded_fixed (fused : Bool) (cfg : RateLimitConfig) (c : ClientInfo)
    (now : Int) : float64 (refilledRounded fused cfg c now) = refilledRounded fused cfg c now := by
  unfold refilledRounded
  rw [min_def]
  split_ifs <;> exact float64_idem _

theorem refilledRounded_le_burst (fused : Bool) (cfg : RateLimitConfig) (c : ClientInfo)
    (now : Int) (h1 : 1 ≤ cfg.BurstSize) (h2 : cfg.BurstSize ≤ 2 ^ 53) :
    refilledRounded fused cfg c now ≤ (cfg.BurstSize : ℚ) := by
  have hB : float64 (cfg.BurstSize : ℚ) = cfg.BurstSize :=
    float64_intCast _ (by rw [abs_le]; constructor <;> omega)
  unfold refilledRounded
  rw [hB]
  exact min_le_right _ _


/-! ### Sample values of the `float64` refill -/

theorem Seconds_sample :
    Duration.Seconds 1638400000 = 1844674407370955 / 1125899906842624 := by
  have hd : Int.tdiv 1638400000 1000000000 = 1 := by decide
  have hm : Int.tmod 1638400000 1000000000 = 638400000 := by decide
  have e0 : float64 (638400000 : ℚ) = 638400000 := by
    have := float64_intCast 638400000 (by norm_num)
    simpa using this
  have e1 : float64 ((638400000 : ℚ) / 1000000000) =
      5750196004226649 / 9007199254740992 := by
    rw [float64_eval _ (-1) 5750196004226649 (by norm_num) (by norm_num) (by norm_num)
      (by rw [abs_lt]; norm_num)]
    norm_num
  have e2 : float64 ((1 : ℚ) + 5750196004226649 / 9007199254740992) =
      1844674407370955 / 1125899906842624 := by
    rw [float64_eval_tie _ 0 7378697629483820 (by norm_num) (by norm_num) (by norm_num)
      (by norm_num) (by decide)]
    norm_num
  unfold Duration.Seconds
  simp only [hd, hm]
  push_cast
  rw [float64_one, e0, e1, e2]

theorem product_sample :
    float64 ((1844674407370955 : ℚ) / 1125899906842624 * (625 / 1024)) =
      9007199254740991 / 9007199254740992 := by
  rw [float64_eval _ (-1) 9007199254740991 (by norm_num) (by norm_num) (by norm_num)
    (by rw [abs_lt]; norm_num)]
  norm_num

theorem product_sample_fixed :
    float64 ((9007199254740991 : ℚ) / 9007199254740992) =
      9007199254740991 / 9007199254740992 := by
  rw [← product_sample]
  exact float64_idem _

/-- The refill of an empty bucket of `dyadicConfig` after one period of 1.6384 s: the
elapsed seconds are 1.6383999999999999 and the product with the rate is
0.9999999999999999. -/
theorem refilledRounded_sample (fused : Bool) (t0 now bt lr : Int)
    (hsub : Time.Sub now t0 = 1638400000) :
    refilledRounded fused dyadicConfig ⟨0, t0, bt, lr⟩ now =
      9007199254740991 / 9007199254740992 := by
  unfold refilledRounded
  simp only [hsub, Seconds_sample, dyadicConfig, zero_add, product_sample,
    product_sample_fixed, ite_self]
  push_cast
  rw [float64_one]
  norm_num

/-- The refill of a bucket of `dyadicConfig` that holds at least half a token after one
period of 1.6384 s reaches the cap 1. -/
theorem refilledRounded_sample_cap (fused : Bool) (T : ℚ) (t0 now bt lr : Int)
    (hT : 1 / 2 ≤ T) (hsub : Time.Sub now t0 = 1638400000) :
    refilledRounded fused dyadicConfig ⟨T, t0, bt, lr⟩ now = 1 := by
  unfold refilledRounded
  simp only [hsub, Seconds_sample, dyadicConfig, product_sample]
  push_cast
  rw [float64_one]
  apply min_eq_right
  cases fused with
  | true =>
    simp only [if_true]
    apply float64_one_le
    norm_num
    linarith
  | false =>
    simp only [Bool.false_eq_true, if_false]
    apply float64_one_le
    norm_num
    linarith


/-- C14 as stated fails: the bucket of key `k` holds 0 tokens, refilled at reading 0,
under the valid configuration of 0.6103515625 requests per second with burst size 1.
At the reading 1.6384 s the refilled value of the claim,
`min (0 + 1.6384 * 0.6103515625) 1`, is 1, so the request would be admitted and leave 0
tokens. The code computes the elapsed seconds as 1.6383999999999999 and the product as
0.9999999999999999 (whether or not the product is fused with the sum), rejects the
request and leaves that value in the bucket. -/
theorem C14_rounded_refill_counterexample :
    ValidRateLimit dyadicConfig ∧
    bucket ⟨dyadicConfig, [("k", ⟨0, 0, 1, 0⟩)]⟩ "k" = some ⟨0, 0, 1, 0⟩ ∧
    min ((0 : ℚ) + ((1638400000 - 0 : Int) : ℚ) / 1000000000 * dyadicConfig.RequestsPerSec)
      (dyadicConfig.BurstSize : ℚ) = 1 ∧
    (admissionRounded false ⟨dyadicConfig, [("k", ⟨0, 0, 1, 0⟩)]⟩ 1638400000 "k").1 = false ∧
    bucket (admissionRounded false ⟨dyadicConfig, [("k", ⟨0, 0, 1, 0⟩)]⟩ 1638400000 "k").2 "k" =
      some ⟨9007199254740991 / 9007199254740992, 1638400000, 1, 1638400000⟩ ∧
    (admissionRounded true ⟨dyadicConfig, [("k", ⟨0, 0, 1, 0⟩)]⟩ 1638400000 "k").1 = false ∧
    bucket (admissionRounded true ⟨dyadicConfig, [("k", ⟨0, 0, 1, 0⟩)]⟩ 1638400000 "k").2 "k" =
      some ⟨9007199254740991 / 9007199254740992, 1638400000, 1, 1638400000⟩ := by
  have hlt : ¬ (1 : ℚ) ≤ 9007199254740991 / 9007199254740992 := by norm_num
  have hstep : ∀ fused : Bool,
      admissionRounded fused ⟨dyadicConfig, [("k", ⟨0, 0, 1, 0⟩)]⟩ 1638400000 "k" =
        (false, ⟨dyadicConfig,
          [("k", ⟨9007199254740991 / 9007199254740992, 1638400000, 1, 1638400000⟩)]⟩) := by
    intro fused
    rw [admissionRounded_existing fused ⟨dyadicConfig, [("k", ⟨0, 0, 1, 0⟩)]⟩ 1638400000 "k"
      ⟨0, 0, 1, 0⟩ rfl]
    simp only [refilledRounded_sample fused 0 1638400000 1 0 (by decide), hlt,
      decide_False, if_false]
    rfl
  refine ⟨?_, rfl, ?_, ?_, ?_, ?_, ?_⟩
  · unfold ValidRateLimit dyadicConfig
    norm_num
  · unfold dyadicConfig
    norm_num
  · rw [hstep]
  · rw [hstep]
    rfl
  · rw [hstep]
  · rw [hstep]
    rfl

/-- C14 amended. For a key that has the bucket `c` with `Tokens >= 0` and
`LastRefill <= now` (as every bucket the limiter has written under a clock that does not
run backwards) and a valid configuration, `refillTokens` at `now` leaves the bucket with
`LastRefill = now` and with `Tokens` the `float64` value of
`min (c.Tokens + seconds * RequestsPerSec) BurstSize`: the seconds are
`Duration.Seconds` of `now - c.LastRefill`, the product and the sum are each rounded to
the nearest `float64` (or rounded once, when the compiler fuses them), and the cap is
`float64(BurstSize)`, which is `BurstSize` itself up to `2 ^ 53`. The refilled value is
not negative. The admission admits exactly when the refilled value is at least 1 and then
leaves the `float64` value of the refilled value minus 1, which is exactly the refilled
value minus 1 when `BurstSize <= 2 ^ 53`; otherwise it rejects and leaves the refilled
value. -/
theorem C14_rounded_admission_of_known_key (fused : Bool) (rl : RateLimiter) (now : Int)
    (k : String) (c : ClientInfo) (hc : bucket rl k = some c)
    (hv : ValidRateLimit rl.config) (hT : 0 ≤ c.Tokens) (hclock : c.LastRefill ≤ now) :
    bucket (refillTokensRounded fused rl now k) k =
      some ⟨min
        (if fused then
          float64 (c.Tokens +
            Duration.Seconds (Time.Sub now c.LastRefill) * rl.config.RequestsPerSec)
        else
          float64 (c.Tokens +
            float64 (Duration.Seconds (Time.Sub now c.LastRefill) *
              rl.config.RequestsPerSec)))
        (float64 (rl.config.BurstSize : ℚ)), now, c.BurstTokens, now⟩ ∧
    0 ≤ refilledRounded fused rl.config c now ∧
    (rl.config.BurstSize ≤ 2 ^ 53 →
      float64 (rl.config.BurstSize : ℚ) = rl.config.BurstSize) ∧
    ((admissionRounded fused rl now k).1 = true ↔
      1 ≤ refilledRounded fused rl.config c now) ∧
    ((admissionRounded fused rl now k).1 = true →
      bucket (admissionRounded fused rl now k).2 k =
        some ⟨float64 (refilledRounded fused rl.config c now - 1), now, c.BurstTokens, now⟩ ∧
      (rl.config.BurstSize ≤ 2 ^ 53 →
        float64 (refilledRounded fused rl.config c now - 1) =
          refilledRounded fused rl.config c now - 1)) ∧
    ((admissionRounded fused rl now k).1 = false →
      bucket (admissionRounded fused rl now k).2 k =
        some ⟨refilledRounded fused rl.config c now, now, c.BurstTokens, now⟩) := by
  have hburst : 1 ≤ rl.config.BurstSize := hv.2.1
  rw [refillTokensRounded_existing fused rl now k c hc,
    admissionRounded_existing fused rl now k c hc]
  refine ⟨?_, refilledRounded_nonneg fused rl.config c now hv hT hclock, ?_, ?_, ?_, ?_⟩
  · simp [bucket, refilledRounded]
  · intro hB
    exact float64_intCast _ (by rw [abs_le]; constructor <;> omega)
  · simp
  · intro h
    have h' : 1 ≤ refilledRounded fused rl.config c now := by simpa using h
    refine ⟨by simp [bucket, h'], ?_⟩
    intro hB
    apply float64_sub_one _ (refilledRounded_fixed fused rl.config c now) h'
    have hle := refilledRounded_le_burst fused rl.config c now hburst hB
    have hB' : (rl.config.BurstSize : ℚ) ≤ ((2 ^ 53 : Int) : ℚ) := by exact_mod_cast hB
    have h53 : (((2 ^ 53 : Int) : ℚ)) = 2 ^ 53 := by norm_num
    rw [h53] at hB'
    exact le_trans hle hB'
  · intro h
    have h' : ¬ 1 ≤ refilledRounded fused rl.config c now := by simpa using h
    simp [bucket, h']

/-- Witness for C14 amended: a bucket with 1/2 token refilled 1 s ago at 2 tokens per
second is admitted exactly when its refilled value is at least 1. -/
theorem C14_rounded_admission_of_known_key_witness :
    (admissionRounded false ⟨slowConfig, [("k", ⟨1 / 2, 0, 5, 0⟩)]⟩ 1000000000 "k").1 = true ↔
      1 ≤ refilledRounded false slowConfig ⟨1 / 2, 0, 5, 0⟩ 1000000000 :=
  (C14_rounded_admission_of_known_key false ⟨slowConfig, [("k", ⟨1 / 2, 0, 5, 0⟩)]⟩
    1000000000 "k" ⟨1 / 2, 0, 5, 0⟩ rfl
    (by unfold ValidRateLimit slowConfig; norm_num) (by norm_num) (by norm_num)).2.2.2.1


/-! ### Steady rate in `float64` arithmetic -/

/-- A gap of exactly `1 / rps` seconds at a rate of at least 0.1 is a `time.Duration`
that is not negative. -/
theorem spaced_gap (rps : ℚ) (hrps : (1 / 10 : ℚ) ≤ rps) (t t1 : Int)
    (h : ((t1 - t : Int) : ℚ) / 1000000000 * rps = 1) :
    t ≤ t1 ∧ Time.Sub t1 t = t1 - t := by
  have hpos : (0 : ℚ) < rps := by linarith
  have hd : ((t1 - t : Int) : ℚ) = 1000000000 / rps := by
    field_simp
    field_simp at h
    linarith
  have h0 : (0 : ℚ) < ((t1 - t : Int) : ℚ) := by
    rw [hd]
    positivity
  have h1 : ((t1 - t : Int) : ℚ) ≤ 10000000000 := by
    rw [hd, div_le_iff₀ hpos]
    linarith
  have h0' : (0 : Int) < t1 - t := by exact_mod_cast h0
  have h1' : t1 - t ≤ (10000000000 : Int) := by exact_mod_cast h1
  refine ⟨by omega, ?_⟩
  exact Time.Sub_of_range t1 t (by omega) (by omega)

theorem admissionsRounded_spaced (fused : Bool) (k : String) (ts : List Int) :
    ∀ (rl : RateLimiter) (c : ClientInfo), bucket rl k = some c → 0 ≤ c.Tokens →
      ValidRateLimit rl.config →
      (∀ d : Int, (d : ℚ) / 1000000000 * rl.config.RequestsPerSec = 1 →
        1 ≤ float64 (Duration.Seconds d * rl.config.RequestsPerSec)) →
      Spaced rl.config.RequestsPerSec c.LastRefill ts →
      (admissionsRounded fused rl k ts).1 = List.replicate ts.length true := by
  induction ts with
  | nil => intro rl c _ _ _ _ _; rfl
  | cons t1 ts ih =>
    intro rl c hc h0 hv hround hsp
    obtain ⟨h1, hrest⟩ := hsp
    obtain ⟨hclock, hsub⟩ := spaced_gap _ hv.1 _ _ h1
    have hB : (1 : ℚ) ≤ (rl.config.BurstSize : ℚ) := by exact_mod_cast hv.2.1
    have hr0 : (0 : ℚ) ≤ rl.config.RequestsPerSec := le_trans (by norm_num) hv.1
    have hr : 1 ≤ refilledRounded fused rl.config c t1 := by
      unfold refilledRounded
      rw [hsub]
      apply le_min
      · exact refill_sum_le fused _ _ _ 1 h0
          (Duration.Seconds_nonneg _ (by omega)) hr0 (hround _ h1) (by norm_num) float64_one
      · exact float64_one_le _ hB
    have hadm := admissionRounded_existing fused rl t1 k c hc
    simp only [hr, decide_True, if_true] at hadm
    simp only [admissionsRounded, hadm, List.length_cons, List.replicate_succ,
      List.cons.injEq, true_and]
    exact ih _ _ (bucket_front _ _ _ _) (float64_nonneg _ (by linarith)) hv hround hrest

theorem admissionsRounded_first_spaced (fused : Bool) (rl : RateLimiter) (k : String)
    (t : Int) (ts : List Int) (hv : ValidRateLimit rl.config) (hnew : bucket rl k = none)
    (hsp : Spaced rl.config.RequestsPerSec t ts)
    (hround : ∀ d : Int, (d : ℚ) / 1000000000 * rl.config.RequestsPerSec = 1 →
      1 ≤ float64 (Duration.Seconds d * rl.config.RequestsPerSec)) :
    (1 ≤ rl.config.RequestsPerSec →
      (admissionsRounded fused rl k (t :: ts)).1 = List.replicate (ts.length + 1) true) ∧
    (rl.config.RequestsPerSec < 1 →
      (admissionsRounded fused rl k (t :: ts)).1 = false :: List.replicate ts.length true) := by
  have hadm := admissionRounded_new fused rl t k hv.2.2 hnew
  constructor
  · intro h1
    simp only [h1, decide_True, if_true] at hadm
    simp only [admissionsRounded, hadm, List.replicate_succ, List.cons.injEq, true_and]
    exact admissionsRounded_spaced fused k ts _ _ (bucket_front _ _ _ _)
      (float64_nonneg _ (by linarith)) hv hround hsp
  · intro h1
    have h1' : ¬ 1 ≤ rl.config.RequestsPerSec := not_le.mpr h1
    simp only [h1', decide_False, if_false] at hadm
    simp only [admissionsRounded, hadm, List.cons.injEq, true_and]
    exact admissionsRounded_spaced fused k ts _ _ (bucket_front _ _ _ _)
      (le_trans (by norm_num) hv.1) hv hround hsp


/-- Four requests of a new key under `dyadicConfig`, spaced one period of 1.6384 s
apart: rejected, admitted, rejected, admitted. -/
theorem dyadic_run (fused : Bool) :
    (admissionsRounded fused ⟨dyadicConfig, []⟩ "k"
      [0, 1638400000, 3276800000, 4915200000]).1 = [false, true, false, true] := by
  have hp : ¬ (1 : ℚ) ≤ 9007199254740991 / 9007199254740992 := by norm_num
  have h1 : admissionRounded fused ⟨dyadicConfig, []⟩ 0 "k" =
      (false, ⟨dyadicConfig, [("k", ⟨625 / 1024, 0, 1, 0⟩)]⟩) := by
    rw [admissionRounded_new fused ⟨dyadicConfig, []⟩ 0 "k" (by decide) rfl]
    have hr : ¬ (1 : ℚ) ≤ 625 / 1024 := by norm_num
    simp only [dyadicConfig, hr, decide_False, if_false]
    rfl
  have h2 : admissionRounded fused ⟨dyadicConfig, [("k", ⟨625 / 1024, 0, 1, 0⟩)]⟩
      1638400000 "k" = (true, ⟨dyadicConfig, [("k", ⟨0, 1638400000, 1, 1638400000⟩)]⟩) := by
    rw [admissionRounded_existing fused ⟨dyadicConfig, [("k", ⟨625 / 1024, 0, 1, 0⟩)]⟩
      1638400000 "k" ⟨625 / 1024, 0, 1, 0⟩ rfl]
    simp only [refilledRounded_sample_cap fused (625 / 1024) 0 1638400000 1 0 (by norm_num)
      (by decide), le_refl, decide_True, if_true, sub_self, float64_zero]
    rfl
  have h3 : admissionRounded fused ⟨dyadicConfig, [("k", ⟨0, 1638400000, 1, 1638400000⟩)]⟩
      3276800000 "k" = (false, ⟨dyadicConfig,
        [("k", ⟨9007199254740991 / 9007199254740992, 3276800000, 1, 3276800000⟩)]⟩) := by
    rw [admissionRounded_existing fused
      ⟨dyadicConfig, [("k", ⟨0, 1638400000, 1, 1638400000⟩)]⟩
      3276800000 "k" ⟨0, 1638400000, 1, 1638400000⟩ rfl]
    simp only [refilledRounded_sample fused 1638400000 3276800000 1 1638400000 (by decide),
      hp, decide_False, if_false]
    rfl
  have h4 : (admissionRounded fused ⟨dyadicConfig,
        [("k", ⟨9007199254740991 / 9007199254740992, 3276800000, 1, 3276800000⟩)]⟩
      4915200000 "k").1 = true := by
    rw [admissionRounded_existing fused ⟨dyadicConfig,
        [("k", ⟨9007199254740991 / 9007199254740992, 3276800000, 1, 3276800000⟩)]⟩
      4915200000 "k" ⟨9007199254740991 / 9007199254740992, 3276800000, 1, 3276800000⟩ rfl]
    simp only [refilledRounded_sample_cap fused (9007199254740991 / 9007199254740992)
      3276800000 4915200000 1 3276800000 (by norm_num) (by decide), le_refl, decide_True]
  simp only [admissionsRounded, h1, h2, h3, h4]

/-- C15 as stated fails: under the valid configuration of 0.6103515625 requests per
second with burst size 1, four requests of a new key spaced exactly
`1 / RequestsPerSec = 1.6384` seconds apart are rejected, admitted, rejected and
admitted, whether or not the product is fused with the sum. The first request finds the
new bucket seeded with `RequestsPerSec < 1` tokens; the third finds an empty bucket
refilled by 1.6383999999999999 * 0.6103515625 = 0.9999999999999999 tokens. -/
theorem C15_rounded_rate_counterexample :
    ValidRateLimit dyadicConfig ∧
    Spaced dyadicConfig.RequestsPerSec 0 [1638400000, 3276800000, 4915200000] ∧
    (admissionsRounded false ⟨dyadicConfig, []⟩ "k"
      [0, 1638400000, 3276800000, 4915200000]).1 = [false, true, false, true] ∧
    (admissionsRounded true ⟨dyadicConfig, []⟩ "k"
      [0, 1638400000, 3276800000, 4915200000]).1 = [false, true, false, true] := by
  refine ⟨?_, ?_, dyadic_run false, dyadic_run true⟩
  · unfold ValidRateLimit dyadicConfig
    norm_num
  · unfold Spaced Spaced Spaced Spaced dyadicConfig
    norm_num

/-- C15 amended. For a valid configuration and a key without bucket, take a sequence of
admissions of that key spaced exactly `1 / RequestsPerSec` seconds apart, where the
`float64` product of that spacing in seconds (`Duration.Seconds`) and `RequestsPerSec`
is at least 1. Every call is admitted when `RequestsPerSec >= 1`; when
`RequestsPerSec < 1` the first call, which creates the bucket with `RequestsPerSec`
tokens, is rejected and every later call is admitted. This holds whether or not the
compiler fuses the product with the sum. -/
theorem C15_rounded_steady_rate (fused : Bool) (rl : RateLimiter) (k : String) (t : Int)
    (ts : List Int) (hv : ValidRateLimit rl.config) (hnew : bucket rl k = none)
    (hsp : Spaced rl.config.RequestsPerSec t ts)
    (hround : ∀ d : Int, (d : ℚ) / 1000000000 * rl.config.RequestsPerSec = 1 →
      1 ≤ float64 (Duration.Seconds d * rl.config.RequestsPerSec)) :
    (1 ≤ rl.config.RequestsPerSec →
      (admissionsRounded fused rl k (t :: ts)).1 = List.replicate (ts.length + 1) true) ∧
    (rl.config.RequestsPerSec < 1 →
      (admissionsRounded fused rl k (t :: ts)).1 = false :: List.replicate ts.length true) :=
  admissionsRounded_first_spaced fused rl k t ts hv hnew hsp hround

theorem Seconds_half : Duration.Seconds 500000000 = 1 / 2 := by
  have hd : Int.tdiv 500000000 1000000000 = 0 := by decide
  have hm : Int.tmod 500000000 1000000000 = 500000000 := by decide
  have e0 : float64 (500000000 : ℚ) = 500000000 := by
    have := float64_intCast 500000000 (by norm_num)
    simpa using this
  have e1 : float64 ((1 : ℚ) / 2) = 1 / 2 := by
    have := float64_dyadic 1 (-1) (by norm_num) (by norm_num)
    simpa using this
  unfold Duration.Seconds
  simp only [hd, hm]
  push_cast
  rw [float64_zero, e0]
  norm_num
  rw [e1, e1]

/-- At 2 requests per second the product of the period of half a second and the rate is
rounded to 1. -/
theorem slowConfig_round (d : Int)
    (h : (d : ℚ) / 1000000000 * slowConfig.RequestsPerSec = 1) :
    1 ≤ float64 (Duration.Seconds d * slowConfig.RequestsPerSec) := by
  have hd : (d : ℚ) = 500000000 := by
    unfold slowConfig at h
    simp only at h
    linarith
  have hd' : d = 500000000 := by exact_mod_cast hd
  rw [hd', Seconds_half]
  unfold slowConfig
  simp only
  norm_num
  exact float64_one.ge

/-- Witness for C15 amended: at 2 requests per second, three requests of a new key
spaced half a second apart are all admitted. -/
theorem C15_rounded_steady_rate_witness :
    (admissionsRounded false ⟨slowConfig, []⟩ "k" [0, 500000000, 1000000000]).1 =
      List.replicate 3 true :=
  (C15_rounded_steady_rate false ⟨slowConfig, []⟩ "k" 0 [500000000, 1000000000]
    (by unfold ValidRateLimit slowConfig; norm_num) rfl
    (by unfold Spaced Spaced Spaced slowConfig; norm_num)
    slowConfig_round).1
    (by unfold slowConfig; norm_num)

/-! ## Flag validation -/

theorem foldl_or_xor_eq_zero (l : List (Nat × Nat)) :
    ∀ acc : Nat, l.foldl (fun diff p => diff ||| (p.1 ^^^ p.2)) acc = 0 ↔
      acc = 0 ∧ ∀ p ∈ l, p.1 = p.2 := by
  induction l with
  | nil => intro acc; simp
  | cons p l ih =>
    intro acc
    rw [List.foldl_cons, ih]
    have hor : acc ||| (p.1 ^^^ p.2) = 0 ↔ acc = 0 ∧ p.1 = p.2 := by
      constructor
      · intro h
        have ha : acc = 0 := by
          apply Nat.eq_of_testBit_eq
          intro i
          have := congrArg (fun x => Nat.testBit x i) h
          simp only [Nat.testBit_or, Nat.zero_testBit, Bool.or_eq_false_iff] at this
          rw [this.1, Nat.zero_testBit]
        subst ha
        rw [Nat.zero_or] at h
        exact ⟨rfl, Nat.xor_eq_zero.mp h⟩
      · rintro ⟨ha, hp⟩
        rw [ha, hp, Nat.xor_self, Nat.or_zero]
    rw [hor]
    simp only [List.mem_cons, forall_eq_or_imp]
    tauto

theorem zip_forall_eq {α : Type} : ∀ (l₁ l₂ : List α), l₁.length = l₂.length →
    ((∀ p ∈ l₁.zip l₂, p.1 = p.2) ↔ l₁ = l₂)
  | [], [], _ => by simp
  | [], _ :: _, h => by simp at h
  | _ :: _, [], h => by simp at h
  | a :: l₁, b :: l₂, h => by
    have hl : l₁.length = l₂.length := by simpa using h
    have ih := zip_forall_eq l₁ l₂ hl
    simp only [List.zip_cons_cons, List.mem_cons, forall_eq_or_imp, List.cons.injEq]
    rw [ih]

theorem ConstantTimeStringEqual_iff (a b : String) :
    ConstantTimeStringEqual a b = true ↔ goBytes a = goBytes b := by
  unfold ConstantTimeStringEqual
  by_cases hlen : (goBytes a).length = (goBytes b).length
  · rw [if_neg (not_not.mpr hlen)]
    simp only [beq_iff_eq]
    rw [foldl_or_xor_eq_zero, zip_forall_eq _ _ hlen]
    simp
  · rw [if_pos hlen]
    constructor
    · intro h; cases h
    · intro h; exact absurd (congrArg List.length h) hlen

theorem ValidateFlag_stringEqual {EdKey : Type} (env : FlagEnv EdKey)
    (s e h email : String)
    (hh : h = "StringEqual" ∨ (h ≠ "Md5HashOfUsername" ∧ h ≠ "Sha1HashOfUsername" ∧
      h ≠ "Sha256HashOfUsername" ∧ h ≠ "Keccak256HashOfUsername" ∧ h ≠ "ClientSideWasm")) :
    ValidateFlag env s e h email =
      (ConstantTimeStringEqual (env.ToLower s) (env.ToLower e), "") := by
  unfold ValidateFlag
  rcases hh with hh | ⟨h1, h2, h3, h4, h5⟩
  · rw [if_pos hh]
  · simp only [h1, h2, h3, h4, h5, if_false, ite_self]

/-- C18. For the handler `StringEqual` and for every handler that is none of the five
other recognised tags, `ValidateFlag` returns `(true, "")` exactly when the lower-cased
submitted flag and the lower-cased expected flag are the same byte string, and
`(false, "")` otherwise; `ConstantTimeStringEqual a b` is true exactly when `a` and `b`
are the same byte string, whatever their lengths. -/
theorem C18_string_equal {EdKey : Type} (env : FlagEnv EdKey) (s e h email : String)
    (hh : h = "StringEqual" ∨ (h ≠ "Md5HashOfUsername" ∧ h ≠ "Sha1HashOfUsername" ∧
      h ≠ "Sha256HashOfUsername" ∧ h ≠ "Keccak256HashOfUsername" ∧ h ≠ "ClientSideWasm")) :
    (ValidateFlag env s e h email = (true, "") ↔
      goBytes (env.ToLower s) = goBytes (env.ToLower e)) ∧
    (goBytes (env.ToLower s) ≠ goBytes (env.ToLower e) →
      ValidateFlag env s e h email = (false, "")) ∧
    (∀ a b : String, ConstantTimeStringEqual a b = true ↔ goBytes a = goBytes b) := by
  rw [ValidateFlag_stringEqual env s e h email hh]
  refine ⟨?_, ?_, ConstantTimeStringEqual_iff⟩
  · rw [← ConstantTimeStringEqual_iff]
    simp
  · intro hne
    have : ConstantTimeStringEqual (env.ToLower s) (env.ToLower e) = false := by
      rw [← Bool.not_eq_true, ConstantTimeStringEqual_iff]
      exact hne
    rw [this]

/-- Witness for C18: under `StringEqual` the submission `Flag-One` matches the expected
flag `flag-one`, and under an unknown handler `flag-one` does not match `flag-two`. -/
theorem C18_string_equal_witness :
    ValidateFlag demoFlagEnv "Flag-One" "flag-one" "StringEqual" "ann@example.com" =
      (true, "") ∧
    ValidateFlag demoFlagEnv "flag-one" "flag-two" "Unknown" "ann@example.com" =
      (false, "") :=
  ⟨(C18_string_equal demoFlagEnv "Flag-One" "flag-one" "StringEqual" "ann@example.com"
      (Or.inl rfl)).1.mpr (by decide),
   (C18_string_equal demoFlagEnv "flag-one" "flag-two" "Unknown" "ann@example.com"
      (Or.inr (by decide))).2.1 (by decide)⟩


theorem replicate_zero_prefix_iff (l : List Char) :
    ∀ n : Nat, List.replicate n '0' <+: l ↔ n ≤ (l.takeWhile (fun c => c = '0')).length := by
  induction l with
  | nil =>
    intro n
    cases n with
    | zero => simp
    | succ n => simp [List.replicate_succ]
  | cons c l ih =>
    intro n
    cases n with
    | zero => simp
    | succ n =>
      rw [List.replicate_succ, List.cons_prefix_cons, ih n]
      by_cases hc : c = '0'
      · simp [List.takeWhile_cons, hc]
      · have hc' : ¬ '0' = c := fun h => hc h.symm
        simp [List.takeWhile_cons, hc, hc']

theorem prefix_iff_leadingZeros (d : Int) (h0 : 0 ≤ d) (hashHex : String) :
    List.replicate d.toNat '0' <+: hashHex.toList ↔ d ≤ leadingZeros hashHex := by
  rw [replicate_zero_prefix_iff]
  unfold leadingZeros
  omega

/-- Outcome of `validateHashOfUsername` once the digest `hashHex` of the hash type is
fixed. -/
theorem validateHashOfUsername_eq {EdKey : Type} (env : FlagEnv EdKey)
    (s e t email hashHex : String)
    (hsel : (if t = "md5" then some (env.md5Hex s)
      else if t = "sha1" then some (env.sha1Hex s)
      else if t = "sha256" then some (env.sha256Hex s)
      else if t = "keccak256" then some (env.keccak256Hex s)
      else none) = some hashHex) :
    validateHashOfUsername env s e t email =
      match Atoi e with
      | none => (false, "")
      | some d =>
        if d < 0 then (false, "")
        else if ¬ email.toList <:+: s.toList then (false, "")
        else if d ≤ leadingZeros hashHex then (true, "")
        else (false, progressHint d (leadingZeros hashHex)) := by
  unfold validateHashOfUsername
  cases hd : Atoi e with
  | none => rfl
  | some d =>
    simp only []
    by_cases hneg : d < 0
    · rw [if_pos hneg, if_pos hneg]
    · rw [if_neg hneg, if_neg hneg]
      have h0 : 0 ≤ d := not_lt.mp hneg
      by_cases hem : email.toList <:+: s.toList
      · simp only [hem, decide_True, Bool.not_true, Bool.false_eq_true, if_false, hsel,
          not_true_eq_false]
        by_cases hz : d = 0
        · subst hz
          have : (0 : Int) ≤ leadingZeros hashHex := by unfold leadingZeros; omega
          simp [this]
        · rw [if_neg hz]
          by_cases hle : d ≤ leadingZeros hashHex
          · rw [if_pos ((prefix_iff_leadingZeros d h0 hashHex).mpr hle), if_pos hle]
          · rw [if_neg (fun hp => hle ((prefix_iff_leadingZeros d h0 hashHex).mp hp)),
              if_neg hle]
            unfold progressHint
            by_cases h2 : leadingZeros hashHex ≥ 2
            · have h2' : ¬ leadingZeros hashHex < 2 := not_lt.mpr h2
              simp only [h2, h2', if_true, if_false, ge_iff_le]
              split_ifs <;> rfl
            · have h2' : leadingZeros hashHex < 2 := not_le.mp h2
              simp only [h2, h2', if_true, if_false]
      · simp only [hem, decide_False, Bool.not_false, if_true, not_false_eq_true]

theorem ValidateFlag_hash {EdKey : Type} (env : FlagEnv EdKey) (s e h email : String)
    (hh : HashHandler h) :
    ValidateFlag env s e h email =
      match Atoi e with
      | none => (false, "")
      | some d =>
        if d < 0 then (false, "")
        else if ¬ email.toList <:+: s.toList then (false, "")
        else if d ≤ leadingZeros (handlerDigest env h s) then (true, "")
        else (false, progressHint d (leadingZeros (handlerDigest env h s))) := by
  rcases hh with hh | hh | hh | hh <;> subst hh
  · rw [← validateHashOfUsername_eq env s e "md5" email _ (by simp [handlerDigest])]
    simp [ValidateFlag]
  · rw [← validateHashOfUsername_eq env s e "sha1" email _ (by simp [handlerDigest])]
    simp [ValidateFlag]
  · rw [← validateHashOfUsername_eq env s e "sha256" email _ (by simp [handlerDigest])]
    simp [ValidateFlag]
  · rw [← validateHashOfUsername_eq env s e "keccak256" email _ (by simp [handlerDigest])]
    simp [ValidateFlag]


/-- C19. For each of the four hash handlers `ValidateFlag` returns valid exactly when the
expected value parses as an integer `d >= 0`, the submitted string contains the e-mail of
the user, and the hex digest of the submitted string under the algorithm of the handler
has at least `d` leading `0` digits; whenever it returns valid the custom message is
empty. -/
theorem C19_hash_handlers {EdKey : Type} (env : FlagEnv EdKey) (s e h email : String)
    (hh : HashHandler h) :
    ((ValidateFlag env s e h email).1 = true ↔
      ∃ d : Int, Atoi e = some d ∧ 0 ≤ d ∧ email.toList <:+: s.toList ∧
        d ≤ leadingZeros (handlerDigest env h s)) ∧
    ((ValidateFlag env s e h email).1 = true → (ValidateFlag env s e h email).2 = "") := by
  rw [ValidateFlag_hash env s e h email hh]
  cases hd : Atoi e with
  | none => simp
  | some d =>
    simp only [Option.some.injEq, exists_eq_left']
    by_cases hneg : d < 0
    · have : ¬ 0 ≤ d := not_le.mpr hneg
      simp [hneg, this]
    · have h0 : 0 ≤ d := not_lt.mp hneg
      rw [if_neg hneg]
      by_cases hem : email.toList <:+: s.toList
      · rw [if_neg (not_not.mpr hem)]
        by_cases hle : d ≤ leadingZeros (handlerDigest env h s)
        · rw [if_pos hle]
          exact ⟨⟨fun _ => ⟨h0, hem, hle⟩, fun _ => rfl⟩, fun _ => rfl⟩
        · rw [if_neg hle]
          refine ⟨⟨fun hf => ?_, fun hr => absurd hr.2.2 hle⟩, fun hf => ?_⟩
          · cases hf
          · cases hf
      · rw [if_pos hem]
        refine ⟨⟨fun hf => ?_, fun hr => absurd hr.2.1 hem⟩, fun hf => ?_⟩
        · cases hf
        · cases hf

/-- Witness for C19: under the SHA-256 handler with required count 3 the submission
`ann@example.com 11325` of `ann@example.com`, whose digest starts with `000`, is valid. -/
theorem C19_hash_handlers_witness :
    (ValidateFlag demoFlagEnv "ann@example.com 11325" "3" "Sha256HashOfUsername"
      "ann@example.com").1 = true :=
  (C19_hash_handlers demoFlagEnv "ann@example.com 11325" "3" "Sha256HashOfUsername"
    "ann@example.com" (Or.inr (Or.inr (Or.inl rfl)))).1.mpr
    ⟨3, by decide, by decide, by decide, by decide⟩

/-- C20 as stated fails: with required count 5 the submission `ann@example.com 11325`,
whose SHA-256 digest has 3 leading zero digits, is invalid; 3 is at least 50% and less
than 75% of 5, yet the hint is `Need a little more work`, since the 75% threshold is
truncated to 3. -/
theorem C20_truncated_threshold_counterexample :
    Atoi "5" = some 5 ∧
    leadingZeros (handlerDigest demoFlagEnv "Sha256HashOfUsername"
      "ann@example.com 11325") = 3 ∧
    (50 / 100 * 5 ≤ (3 : ℚ) ∧ (3 : ℚ) < 75 / 100 * 5) ∧
    ValidateFlag demoFlagEnv "ann@example.com 11325" "5" "Sha256HashOfUsername"
      "ann@example.com" = (false, "Need a little more work") := by
  refine ⟨by decide, by decide, by norm_num, by decide⟩

/-- C20 amended. For a hash handler, an expected value that parses as a count `d` with
`0 <= d < 2^51`, and an invalid submission that contains the e-mail of the user, with `z`
the number of leading `0` digits of the digest: if `z < 2` the custom message is empty;
if `z >= 2` the message is `Need a little more work` when `z >= floor (3 d / 4)`,
`NEED EVEN MORE WORK` when `floor (d / 2) <= z < floor (3 d / 4)`, and `Need more work`
when `z < floor (d / 2)`.  An invalid submission that does not contain the e-mail gets
the empty message whatever its digest. -/
theorem C20_progress_hint {EdKey : Type} (env : FlagEnv EdKey) (s e h email : String)
    (d : Int) (hh : HashHandler h) (hd : Atoi e = some d) (h0 : 0 ≤ d)
    (_h51 : d < 2251799813685248)
    (hinv : (ValidateFlag env s e h email).1 = false) :
    (¬ email.toList <:+: s.toList → (ValidateFlag env s e h email).2 = "") ∧
    (email.toList <:+: s.toList →
      (leadingZeros (handlerDigest env h s) < 2 → (ValidateFlag env s e h email).2 = "") ∧
      (2 ≤ leadingZeros (handlerDigest env h s) →
        (3 * d / 4 ≤ leadingZeros (handlerDigest env h s) →
          (ValidateFlag env s e h email).2 = "Need a little more work") ∧
        (d / 2 ≤ leadingZeros (handlerDigest env h s) →
          leadingZeros (handlerDigest env h s) < 3 * d / 4 →
          (ValidateFlag env s e h email).2 = "NEED EVEN MORE WORK") ∧
        (leadingZeros (handlerDigest env h s) < d / 2 →
          (ValidateFlag env s e h email).2 = "Need more work"))) := by
  rw [ValidateFlag_hash env s e h email hh, hd] at hinv ⊢
  simp only [] at hinv ⊢
  rw [if_neg (not_lt.mpr h0)] at hinv ⊢
  refine ⟨fun hem => ?_, fun hem => ?_⟩
  · rw [if_pos hem]
  · rw [if_neg (not_not.mpr hem)] at hinv ⊢
    by_cases hle : d ≤ leadingZeros (handlerDigest env h s)
    · rw [if_pos hle] at hinv
      cases hinv
    · rw [if_neg hle]
      simp only [progressHint]
      refine ⟨fun hz => ?_, fun hz => ⟨fun h75 => ?_, fun h50 h75 => ?_, fun h50 => ?_⟩⟩
      · rw [if_pos hz]
      · rw [if_neg (not_lt.mpr hz), if_pos h75]
      · rw [if_neg (not_lt.mpr hz), if_neg (not_le.mpr h75), if_pos h50]
      · have h75 : leadingZeros (handlerDigest env h s) < 3 * d / 4 := by omega
        rw [if_neg (not_lt.mpr hz), if_neg (not_le.mpr h75), if_neg (not_le.mpr h50)]

/-- Witness for C20 amended: required count 5 and a digest with 3 leading zero digits
give `Need a little more work`, as `floor (15 / 4) = 3`. -/
theorem C20_progress_hint_witness :
    (ValidateFlag demoFlagEnv "ann@example.com 11325" "5" "Sha256HashOfUsername"
      "ann@example.com").2 = "Need a little more work" :=
  ((C20_progress_hint demoFlagEnv "ann@example.com 11325" "5" "Sha256HashOfUsername"
    "ann@example.com" 5 (Or.inr (Or.inr (Or.inl rfl))) (by decide) (by decide) (by decide)
    (by decide)).2 (by decide)).2 (by decide) |>.1 (by decide)

/-- C21. With the handler `Sha256HashOfUsername` and difficulty `4`, for every submission
that contains the e-mail of the user: a digest with at least 4 leading `0` digits is valid
with no message; exactly 3 leading zeros are invalid with `Need a little more work`;
exactly 2 are invalid with `NEED EVEN MORE WORK`; 1 or 0 are invalid with the empty
message. -/
theorem C21_sha256_difficulty_four {EdKey : Type} (env : FlagEnv EdKey) (s email : String)
    (hem : email.toList <:+: s.toList) :
    (4 ≤ leadingZeros (env.sha256Hex s) →
      ValidateFlag env s "4" "Sha256HashOfUsername" email = (true, "")) ∧
    (leadingZeros (env.sha256Hex s) = 3 →
      ValidateFlag env s "4" "Sha256HashOfUsername" email =
        (false, "Need a little more work")) ∧
    (leadingZeros (env.sha256Hex s) = 2 →
      ValidateFlag env s "4" "Sha256HashOfUsername" email = (false, "NEED EVEN MORE WORK")) ∧
    (leadingZeros (env.sha256Hex s) ≤ 1 →
      ValidateFlag env s "4" "Sha256HashOfUsername" email = (false, "")) := by
  have hd : Atoi "4" = some 4 := by decide
  have hdig : handlerDigest env "Sha256HashOfUsername" s = env.sha256Hex s := by
    simp [handlerDigest]
  rw [ValidateFlag_hash env s "4" "Sha256HashOfUsername" email (Or.inr (Or.inr (Or.inl rfl))),
    hd, hdig]
  simp only []
  rw [if_neg (by decide), if_neg (not_not.mpr hem)]
  refine ⟨fun h => ?_, fun h => ?_, fun h => ?_, fun h => ?_⟩
  · rw [if_pos h]
  · rw [h]; rfl
  · rw [h]; rfl
  · have hlt : ¬ 4 ≤ leadingZeros (env.sha256Hex s) := by omega
    have h2 : leadingZeros (env.sha256Hex s) < 2 := by omega
    rw [if_neg hlt]
    simp only [progressHint, if_pos h2]

/-- Witness for C21: the digest of `ann@example.com 11325` starts with `0008`, three
leading zeros, so difficulty 4 answers `Need a little more work`. -/
theorem C21_sha256_difficulty_four_witness :
    ValidateFlag demoFlagEnv "ann@example.com 11325" "4" "Sha256HashOfUsername"
      "ann@example.com" = (false, "Need a little more work") :=
  (C21_sha256_difficulty_four demoFlagEnv "ann@example.com 11325" "ann@example.com"
    (by decide)).2.1 (by decide)


/-- Outcome of `validateClientSideWasm`: it returns true exactly when the PEM text decodes
to a block that parses as an Ed25519 key, the flag parses as a token whose signing method
is `EdDSA`, the signature verifies under that key, the registered claims validate, and
the claim `is_admin` is the boolean true. -/
theorem validateClientSideWasm_iff {EdKey : Type} (env : FlagEnv EdKey)
    (s pem email : String) :
    validateClientSideWasm env s pem email = true ↔
      ∃ block key t, env.pemDecode pem = some block ∧
        env.ParsePKIXPublicKey block = some (some key) ∧
        env.parseUnverified s = some t ∧ t.alg = "EdDSA" ∧
        env.verify t.alg t.signingString t.signature key = true ∧
        env.validateClaims t.claims = true ∧
        claimGet t.claims "is_admin" = some (.bool true) := by
  unfold validateClientSideWasm jwtParseWithClaims
  cases hp : env.pemDecode pem with
  | none => simp
  | some block =>
    simp only []
    cases hk : env.ParsePKIXPublicKey block with
    | none => simp [hk]
    | some ok =>
      cases ok with
      | none => simp [hk]
      | some key =>
        simp only []
        cases ht : env.parseUnverified s with
        | none => simp
        | some t =>
          simp only []
          by_cases halg : t.alg = "EdDSA"
          swap
          · simp [halg]
          by_cases hv : env.verify t.alg t.signingString t.signature key = true
          swap
          · have hv' := hv
            rw [halg] at hv'
            simp [halg, hv', hk]
          have hv' := hv
          rw [halg] at hv'
          by_cases hc : env.validateClaims t.claims = true
          swap
          · simp [halg, hv', hc, hk]
          cases hg : claimGet t.claims "is_admin" with
          | none => simp [halg, hv', hc, hg, hk]
          | some v =>
            cases v with
            | str x => simp [halg, hv', hc, hg, hk]
            | bool b => cases b <;> simp [halg, hv', hc, hg, hk]
            | other => simp [halg, hv', hc, hg, hk]

/-- C22. For the handler `ClientSideWasm`, `ValidateFlag` always returns the empty custom
message, and it returns valid exactly when the expected value decodes as a PEM block that
parses as an Ed25519 public key, the submitted flag parses as a compact token whose
signing method is `EdDSA`, whose signature verifies under that key and whose registered
claims validate, and the claims hold `is_admin` as the boolean true.  So a token whose
`is_admin` is absent, false or not a boolean, and every parse, algorithm or verification
failure, is invalid. -/
theorem C22_client_side_wasm {EdKey : Type} (env : FlagEnv EdKey) (s e email : String) :
    (ValidateFlag env s e "ClientSideWasm" email).2 = "" ∧
    ((ValidateFlag env s e "ClientSideWasm" email).1 = true ↔
      ∃ block key t, env.pemDecode e = some block ∧
        env.ParsePKIXPublicKey block = some (some key) ∧
        env.parseUnverified s = some t ∧ t.alg = "EdDSA" ∧
        env.verify t.alg t.signingString t.signature key = true ∧
        env.validateClaims t.claims = true ∧
        claimGet t.claims "is_admin" = some (.bool true)) ∧
    (∀ t, env.parseUnverified s = some t →
      claimGet t.claims "is_admin" ≠ some (.bool true) →
      (ValidateFlag env s e "ClientSideWasm" email).1 = false) ∧
    ((env.pemDecode e = none ∨ env.parseUnverified s = none) →
      (ValidateFlag env s e "ClientSideWasm" email).1 = false) := by
  have hvf : ValidateFlag env s e "ClientSideWasm" email =
      (validateClientSideWasm env s e email, "") := by
    simp [ValidateFlag]
  rw [hvf]
  refine ⟨rfl, validateClientSideWasm_iff env s e email, ?_, ?_⟩
  · intro t ht hne
    rw [← Bool.not_eq_true, validateClientSideWasm_iff]
    rintro ⟨_, _, t', _, _, ht', _, _, _, hadm⟩
    rw [ht] at ht'
    cases ht'
    exact hne hadm
  · intro h
    rw [← Bool.not_eq_true, validateClientSideWasm_iff]
    rintro ⟨_, _, _, hp, _, ht, _⟩
    rcases h with h | h
    · rw [h] at hp; cases hp
    · rw [h] at ht; cases ht

/-- Witness for C22: the token with `is_admin` true is valid, the one whose `is_admin` is
the string `true` is not; both carry the empty message. -/
theorem C22_client_side_wasm_witness :
    ValidateFlag wasmEnv "admin.token.sig" "PEM" "ClientSideWasm" "ann@example.com" =
      (true, "") ∧
    ValidateFlag wasmEnv "user.token.sig" "PEM" "ClientSideWasm" "ann@example.com" =
      (false, "") :=
  ⟨Prod.ext
    ((C22_client_side_wasm wasmEnv "admin.token.sig" "PEM" "ann@example.com").2.1.mpr
      ⟨"DER", 5, ⟨"EdDSA", [("is_admin", .bool true)], "admin.token", "sig"⟩,
        by decide, by decide, by decide, rfl, by decide, by decide, by decide⟩)
    (C22_client_side_wasm wasmEnv "admin.token.sig" "PEM" "ann@example.com").1,
   Prod.ext
    ((C22_client_side_wasm wasmEnv "user.token.sig" "PEM" "ann@example.com").2.2.1
      ⟨"EdDSA", [("is_admin", .str "true")], "user.token", "sig"⟩ (by decide) (by decide))
    (C22_client_side_wasm wasmEnv "user.token.sig" "PEM" "ann@example.com").1⟩

/-! ## Flag sanitising -/

theorem dropWhile_of_prefix {α : Type} (p : α → Bool) :
    ∀ (A B : List α), B <+: A → A.dropWhile p = A → B.dropWhile p = B
  | _, [], _, _ => rfl
  | [], _ :: _, h, _ => by simp at h
  | a :: A, b :: B, h, hA => by
    have hab : a = b := by
      obtain ⟨t, ht⟩ := h
      simp only [List.cons_append, List.cons.injEq] at ht
      exact ht.1.symm
    subst hab
    by_cases hp : p a = true
    · rw [List.dropWhile_cons, if_pos hp] at hA
      have hlen := (List.dropWhile_suffix p (l := A)).length_le
      rw [hA] at hlen
      simp at hlen
    · rw [List.dropWhile_cons, if_neg hp]

theorem TrimSpace_idem (s : String) : TrimSpace (TrimSpace s) = TrimSpace s := by
  unfold TrimSpace
  have h1 : ((s.toList.dropWhile isSpace).reverse.dropWhile isSpace).reverse =
      List.rdropWhile isSpace (s.toList.dropWhile isSpace) := rfl
  simp only [h1]
  have h2 : (List.rdropWhile isSpace (s.toList.dropWhile isSpace)).dropWhile isSpace =
      List.rdropWhile isSpace (s.toList.dropWhile isSpace) :=
    dropWhile_of_prefix isSpace _ _ (List.rdropWhile_prefix _ _) (List.dropWhile_idempotent _ _)
  show String.mk (List.rdropWhile isSpace
      ((List.rdropWhile isSpace (s.toList.dropWhile isSpace)).dropWhile isSpace)) = _
  rw [h2, List.rdropWhile_idempotent]

theorem SanitizeFlag_eq (flag : String) :
    SanitizeFlag flag =
      if TrimSpace flag = "" then .error "Flag cannot be empty"
      else if ∃ c ∈ (TrimSpace flag).toList, c.toNat < 32 ∨ 126 < c.toNat then
        .error "Only ASCII printable characters are allowed"
      else .ok (TrimSpace flag) := by
  unfold SanitizeFlag
  simp only []
  by_cases h0 : TrimSpace flag = ""
  · rw [if_pos h0, if_pos h0]
  · rw [if_neg h0, if_neg h0]
    by_cases h1 : ∃ c ∈ (TrimSpace flag).toList, c.toNat < 32 ∨ 126 < c.toNat
    · rw [if_pos h1, if_pos]
      obtain ⟨c, hc, hr⟩ := h1
      rw [List.any_eq_true]
      exact ⟨c, hc, by simpa using hr⟩
    · rw [if_neg h1, if_neg]
      intro hany
      rw [List.any_eq_true] at hany
      obtain ⟨c, hc, hr⟩ := hany
      exact h1 ⟨c, hc, by simpa using hr⟩

/-- C26. With `t` the flag stripped of leading and trailing white space, `SanitizeFlag`
returns `t` without error exactly when `t` is non-empty and every character of `t` lies
in the range 32 to 126; when `t` is empty the error is `Flag cannot be empty`, and when
`t` is non-empty with a character outside the range the error is `Only ASCII printable
characters are allowed`.  Every accepted flag is `t`, is non-empty and printable ASCII,
and is returned unchanged when sanitised again. -/
theorem C26_sanitizeFlag (flag : String) :
    (SanitizeFlag flag = .ok (TrimSpace flag) ↔
      TrimSpace flag ≠ "" ∧
        ∀ c ∈ (TrimSpace flag).toList, 32 ≤ c.toNat ∧ c.toNat ≤ 126) ∧
    (TrimSpace flag = "" → SanitizeFlag flag = .error "Flag cannot be empty") ∧
    (TrimSpace flag ≠ "" →
      (∃ c ∈ (TrimSpace flag).toList, c.toNat < 32 ∨ 126 < c.toNat) →
      SanitizeFlag flag = .error "Only ASCII printable characters are allowed") ∧
    (∀ r, SanitizeFlag flag = .ok r →
      r = TrimSpace flag ∧ r ≠ "" ∧ (∀ c ∈ r.toList, 32 ≤ c.toNat ∧ c.toNat ≤ 126) ∧
        SanitizeFlag r = .ok r) := by
  have key : ∀ r, SanitizeFlag flag = .ok r →
      r = TrimSpace flag ∧ TrimSpace flag ≠ "" ∧
        ∀ c ∈ (TrimSpace flag).toList, 32 ≤ c.toNat ∧ c.toNat ≤ 126 := by
    intro r hr
    rw [SanitizeFlag_eq] at hr
    by_cases h0 : TrimSpace flag = ""
    · rw [if_pos h0] at hr; cases hr
    · rw [if_neg h0] at hr
      by_cases h1 : ∃ c ∈ (TrimSpace flag).toList, c.toNat < 32 ∨ 126 < c.toNat
      · rw [if_pos h1] at hr; cases hr
      · rw [if_neg h1] at hr
        refine ⟨(Except.ok.inj hr).symm, h0, ?_⟩
        intro c hc
        by_contra hcon
        exact h1 ⟨c, hc, by omega⟩
  have back : ∀ t : String, TrimSpace t = t → t ≠ "" →
      (∀ c ∈ t.toList, 32 ≤ c.toNat ∧ c.toNat ≤ 126) → SanitizeFlag t = .ok t := by
    intro t ht h0 hall
    rw [SanitizeFlag_eq, ht, if_neg h0, if_neg]
    rintro ⟨c, hc, hr⟩
    have := hall c hc
    omega
  refine ⟨⟨fun h => (key _ h).2, fun h => ?_⟩, fun h0 => ?_, fun h0 h1 => ?_, fun r hr => ?_⟩
  · rw [SanitizeFlag_eq, if_neg h.1, if_neg]
    rintro ⟨c, hc, hr⟩
    have := h.2 c hc
    omega
  · rw [SanitizeFlag_eq, if_pos h0]
  · rw [SanitizeFlag_eq, if_neg h0, if_pos h1]
  · obtain ⟨hrt, h0, hall⟩ := key r hr
    subst hrt
    exact ⟨rfl, h0, hall, back _ (TrimSpace_idem flag) h0 hall⟩

/-- Witness for C26: the padded flag is accepted as `flag-one`, which sanitises to
itself. -/
theorem C26_sanitizeFlag_witness :
    SanitizeFlag "  flag-one \n" = .ok "flag-one" ∧ SanitizeFlag "flag-one" = .ok "flag-one" :=
  ⟨rfl, ((C26_sanitizeFlag "  flag-one \n").2.2.2 "flag-one" rfl).2.2.2⟩

/-! ## Alias validation, cooldown and removal -/

theorem char_le_iff (a b : Char) : a ≤ b ↔ a.toNat ≤ b.toNat := by
  rw [Char.le_def]
  exact Iff.rfl

theorem char_eq_iff (a b : Char) : a = b ↔ a.toNat = b.toNat := by
  constructor
  · intro h; rw [h]
  · intro h
    apply Char.ext
    apply UInt32.ext
    exact h

theorem isAliasChar_range (c : Char) (h : isAliasChar c = true) :
    45 ≤ c.toNat ∧ c.toNat ≤ 122 := by
  unfold isAliasChar at h
  simp only [Bool.or_eq_true, Bool.and_eq_true, decide_eq_true_eq, char_le_iff, char_eq_iff] at h
  have e1 : 'a'.toNat = 97 := rfl
  have e2 : 'z'.toNat = 122 := rfl
  have e3 : 'A'.toNat = 65 := rfl
  have e4 : 'Z'.toNat = 90 := rfl
  have e5 : '0'.toNat = 48 := rfl
  have e6 : '9'.toNat = 57 := rfl
  have e7 : '_'.toNat = 95 := rfl
  have e8 : '.'.toNat = 46 := rfl
  have e9 : '-'.toNat = 45 := rfl
  rw [e1, e2, e3, e4, e5, e6, e7, e8, e9] at h
  omega

theorem isSpace_false_of_range (c : Char) (h : 45 ≤ c.toNat ∧ c.toNat ≤ 122) :
    isSpace c = false := by
  unfold isSpace
  have e1 : '\t'.toNat = 9 := rfl
  have e2 : '\n'.toNat = 10 := rfl
  have e3 : '\r'.toNat = 13 := rfl
  have e4 : ' '.toNat = 32 := rfl
  simp only [Bool.or_eq_false_iff, Bool.and_eq_false_iff, decide_eq_false_iff_not, char_eq_iff,
    e1, e2, e3, e4]
  omega

theorem utf8Size_ascii (c : Char) (h : c.toNat ≤ 127) : c.utf8Size = 1 := by
  unfold Char.utf8Size
  rw [if_pos]
  rw [UInt32.le_def]
  exact h

theorem utf8ByteSize_ascii (l : List Char) (h : ∀ c ∈ l, c.toNat ≤ 127) :
    (String.mk l).utf8ByteSize = l.length := by
  induction l with
  | nil => rfl
  | cons a l ih =>
    have := ih (fun c hc => h c (List.mem_cons_of_mem _ hc))
    simp only [String.utf8ByteSize, String.utf8ByteSize.go, List.length_cons] at this ⊢
    rw [this, utf8Size_ascii a (h a (List.mem_cons_self _ _))]

/-- The three format checks of `SetAlias` (empty, more than 24 bytes, regular expression)
reject exactly the strings that are not 1 to 24 characters of the alias class. -/
theorem aliasChecks_iff (t : String) :
    (t = "" ∨ t.utf8ByteSize > 24 ∨ validAliasRegex t = false) ↔ ¬ AliasOk t := by
  have hmk : t = String.mk t.toList := rfl
  by_cases hall : ∀ c ∈ t.toList, isAliasChar c = true
  · have hbytes : t.utf8ByteSize = t.toList.length := by
      conv_lhs => rw [hmk]
      exact utf8ByteSize_ascii _ (fun c hc => by have := isAliasChar_range c (hall c hc); omega)
    have hlen : t.length = t.toList.length := rfl
    have hre : validAliasRegex t = !t.toList.isEmpty := by
      unfold validAliasRegex
      rw [List.all_eq_true.mpr hall, Bool.and_true]
    unfold AliasOk
    rw [hbytes, hlen, hre]
    cases hl : t.toList with
    | nil =>
      have : t = "" := by rw [hmk, hl]
      simp [this]
    | cons a l =>
      have : t ≠ "" := by
        intro h
        rw [h] at hl
        cases hl
      have hall' : ∀ c ∈ a :: l, isAliasChar c = true := by rw [← hl]; exact hall
      simp only [this, false_or, List.isEmpty_cons, Bool.not_false, Bool.true_eq_false,
        or_false, List.length_cons]
      constructor
      · intro h hok; omega
      · intro h
        by_contra hle
        exact h ⟨by omega, by omega, hall'⟩
  · have hre : validAliasRegex t = false := by
      unfold validAliasRegex
      have : t.toList.all isAliasChar = false := by
        rw [← Bool.not_eq_true, List.all_eq_true]
        exact hall
      rw [this, Bool.and_false]
    constructor
    · intro _ hok
      exact hall hok.2.2
    · intro _
      exact Or.inr (Or.inr hre)

theorem SetAlias_rejects (sc : Schema) (isProfane : String → Bool) (uc : UserClient)
    (now : Int) (e a : String) (hbad : ¬ AliasOk (TrimSpace a)) :
    ∃ msg, ∀ fails : Nat → Bool,
      SetAlias sc isProfane uc fails now e a = (some (.client msg), uc) := by
  rcases (aliasChecks_iff (TrimSpace a)).mpr hbad with h | h | h
  · exact ⟨"Alias cannot be empty", fun fails => by simp [SetAlias, h]⟩
  · by_cases h0 : TrimSpace a = ""
    · exact ⟨"Alias cannot be empty", fun fails => by simp [SetAlias, h0]⟩
    · exact ⟨"Alias cannot be longer than 24 characters", fun fails => by
        simp [SetAlias, h0, h]⟩
  · by_cases h0 : TrimSpace a = ""
    · exact ⟨"Alias cannot be empty", fun fails => by simp [SetAlias, h0]⟩
    by_cases hL : (TrimSpace a).utf8ByteSize > 24
    · exact ⟨"Alias cannot be longer than 24 characters", fun fails => by
        simp [SetAlias, h0, hL]⟩
    · exact ⟨"Alias can only contain letters, numbers, underscores, hyphens, and periods",
        fun fails => by simp [SetAlias, h0, hL, h]⟩

theorem SetAlias_success_ok (sc : Schema) (isProfane : String → Bool) (uc : UserClient)
    (fails : Nat → Bool) (now : Int) (e a : String)
    (h : (SetAlias sc isProfane uc fails now e a).1 = none) : AliasOk (TrimSpace a) := by
  by_contra hbad
  obtain ⟨msg, hmsg⟩ := SetAlias_rejects sc isProfane uc now e a hbad
  rw [hmsg fails] at h
  cases h

theorem mem_upsertAlias (rows : List AliasRow) (e t : String) (now : Int) (r : AliasRow)
    (hr : r ∈ upsertAlias rows e t now) : r ∈ rows ∨ (r.user_email = e ∧ r.alias_ = t) := by
  unfold upsertAlias at hr
  split at hr
  · rw [List.mem_map] at hr
    obtain ⟨x, hx, hxr⟩ := hr
    by_cases hxe : (x.user_email == e) = true
    · rw [if_pos hxe] at hxr
      right
      rw [← hxr]
      exact ⟨by simpa using hxe, rfl⟩
    · rw [if_neg hxe] at hxr
      left
      rw [← hxr]
      exact hx
  · rw [List.mem_append] at hr
    rcases hr with hr | hr
    · exact Or.inl hr
    · right
      have : r = ⟨e, t, now, none⟩ := by simpa using hr
      rw [this]
      exact ⟨rfl, rfl⟩


/-- C23 as stated fails: the argument ` bob `, with a leading and a trailing blank, is not
made of alias characters only, yet `SetAlias` accepts it and stores the alias `bob`. -/
theorem C23_untrimmed_alias_counterexample :
    ¬ AliasOk " bob " ∧
    (SetAlias ⟨false⟩ (fun _ => false) freshClient noFaults 100 "bob@example.com" " bob ").1 =
      none ∧
    findActiveAlias
      (SetAlias ⟨false⟩ (fun _ => false) freshClient noFaults 100 "bob@example.com" " bob ").2.db
      "bob@example.com" = some ⟨"bob@example.com", "bob", 100, none⟩ := by
  refine ⟨fun h => ?_, by decide, by decide⟩
  have := h.2.2 ' ' (by decide)
  exact absurd this (by decide)

/-- C23 amended. With `t` the alias argument stripped of leading and trailing white
space: when `t` is not 1 to 24 characters of `[A-Za-z0-9_.-]`, `SetAlias` returns one
client error and the unchanged state whatever the driver does, so no store operation is
performed; a successful `SetAlias` had such a `t`, and every alias row of the store it
leaves is a row held before or carries the alias `t`; hence when every stored alias meets
the constraints before the call, every stored alias meets them after it. -/
theorem C23_alias_validation (sc : Schema) (isProfane : String → Bool) (uc : UserClient)
    (now : Int) (e a : String) :
    (¬ AliasOk (TrimSpace a) →
      ∃ msg, ∀ fails : Nat → Bool,
        SetAlias sc isProfane uc fails now e a = (some (.client msg), uc)) ∧
    (∀ fails : Nat → Bool, (SetAlias sc isProfane uc fails now e a).1 = none →
      AliasOk (TrimSpace a) ∧
      ∀ r ∈ (SetAlias sc isProfane uc fails now e a).2.db.user_aliases,
        r ∈ uc.db.user_aliases ∨ (r.user_email = e ∧ r.alias_ = TrimSpace a)) ∧
    (∀ fails : Nat → Bool, (∀ r ∈ uc.db.user_aliases, AliasOk r.alias_) →
      ∀ r ∈ (SetAlias sc isProfane uc fails now e a).2.db.user_aliases, AliasOk r.alias_) := by
  have hmem : ∀ fails : Nat → Bool, (SetAlias sc isProfane uc fails now e a).1 = none →
      ∀ r ∈ (SetAlias sc isProfane uc fails now e a).2.db.user_aliases,
        r ∈ uc.db.user_aliases ∨ (r.user_email = e ∧ r.alias_ = TrimSpace a) := by
    intro fails hs r hr
    rcases SetAlias_cases sc isProfane uc fails now e a with ⟨hne, _⟩ | ⟨_, hst⟩
    · exact absurd hs hne
    · rw [hst] at hr
      exact mem_upsertAlias _ _ _ _ _ hr
  refine ⟨SetAlias_rejects sc isProfane uc now e a, fun fails hs => ?_, fun fails hinv r hr => ?_⟩
  · exact ⟨SetAlias_success_ok sc isProfane uc fails now e a hs, hmem fails hs⟩
  · rcases SetAlias_cases sc isProfane uc fails now e a with ⟨_, hst⟩ | ⟨hs, _⟩
    · rw [hst] at hr
      exact hinv r hr
    · rcases hmem fails hs r hr with h | ⟨_, h⟩
      · exact hinv r h
      · rw [h]
        exact SetAlias_success_ok sc isProfane uc fails now e a hs

/-- Witness for C23 amended: the alias `bad alias!` is rejected with one client error
whatever the driver does. -/
theorem C23_alias_validation_witness :
    ∃ msg, ∀ fails : Nat → Bool,
      SetAlias ⟨false⟩ (fun _ => false) freshClient fails 100 "bob@example.com" "bad alias!" =
        (some (.client msg), freshClient) :=
  (C23_alias_validation ⟨false⟩ (fun _ => false) freshClient 100 "bob@example.com"
    "bad alias!").1 (fun h => absurd (h.2.2 ' ' (by decide)) (by decide))


theorem aliasChecks_pass (t : String) (hok : AliasOk t) :
    t ≠ "" ∧ ¬ t.utf8ByteSize > 24 ∧ validAliasRegex t = true := by
  have h := (aliasChecks_iff t).not.mpr (not_not.mpr hok)
  refine ⟨fun h0 => h (Or.inl h0), fun h1 => h (Or.inr (Or.inl h1)), ?_⟩
  cases hre : validAliasRegex t with
  | true => rfl
  | false => exact absurd (Or.inr (Or.inr hre)) h

theorem SetAlias_cooldown (sc : Schema) (isProfane : String → Bool) (uc : UserClient)
    (fails : Nat → Bool) (now : Int) (e a : String)
    (hok : AliasOk (TrimSpace a)) (hprof : isProfane (TrimSpace a) = false)
    (h0 : fails 0 = false) (h1 : fails 1 = false) (t : Int)
    (ht : lastAliasSetTime uc.db e = some t) (hsoon : now - t < 24 * Hour) :
    SetAlias sc isProfane uc fails now e a =
      (some (.client ("You can only set an alias once per day. Try again in " ++
        toString (24 - Int.tdiv (now - t) Hour) ++ " hours")), uc) := by
  obtain ⟨hA, hL, hR⟩ := aliasChecks_pass _ hok
  unfold SetAlias
  simp only [hA, hL, hR, hprof, h0, h1, ht, hsoon, if_false, if_true, Bool.not_true,
    Bool.false_eq_true]

theorem SetAlias_past_cooldown (sc : Schema) (isProfane : String → Bool) (uc : UserClient)
    (fails : Nat → Bool) (now : Int) (e a : String)
    (hok : AliasOk (TrimSpace a)) (hprof : isProfane (TrimSpace a) = false)
    (h0 : fails 0 = false) (h1 : fails 1 = false)
    (hpast : ∀ t, lastAliasSetTime uc.db e = some t → 24 * Hour ≤ now - t) :
    SetAlias sc isProfane uc fails now e a =
      if fails 2 then (some (.internal "failed to set alias"), uc)
      else if aliasTaken sc uc.db e (TrimSpace a) then (some (.client "Alias already taken"), uc)
      else if fails 3 then (some (.internal "failed to log alias change"), uc)
      else if fails 4 then (some (.internal "failed to commit transaction"), uc)
      else (none, ⟨aliasSetStore uc.db now e (TrimSpace a), cacheDelete uc.cache e⟩) := by
  obtain ⟨hA, hL, hR⟩ := aliasChecks_pass _ hok
  unfold SetAlias
  simp only [hA, hL, hR, hprof, h0, h1, if_false, Bool.not_true, Bool.false_eq_true]
  cases ht : lastAliasSetTime uc.db e with
  | none => simp only [aliasSetStore, insertHistory]
  | some t =>
    have : ¬ now - t < 24 * Hour := not_lt.mpr (hpast t ht)
    simp only [this, if_false, aliasSetStore, insertHistory]

/-- C24. For an alias that passes validation, when the transaction begins and the
history query succeeds: if the latest `created_at` among the alias rows of the user,
active or soft-deleted, lies less than 24 hours before `now` (and not after it),
`SetAlias` returns the client error that names `24 -` the whole hours elapsed, a number
from 1 to 24, and leaves the state unchanged; if it lies 24 hours or more before `now`,
or the user has no alias row, the cooldown does not reject: the call goes on to the upsert
and succeeds when no later driver call fails and the alias is not taken. -/
theorem C24_alias_cooldown (sc : Schema) (isProfane : String → Bool) (uc : UserClient)
    (fails : Nat → Bool) (now : Int) (e a : String)
    (hok : AliasOk (TrimSpace a)) (hprof : isProfane (TrimSpace a) = false)
    (h0 : fails 0 = false) (h1 : fails 1 = false) :
    (∀ t, lastAliasSetTime uc.db e = some t → t ≤ now → now - t < 24 * Hour →
      SetAlias sc isProfane uc fails now e a =
        (some (.client ("You can only set an alias once per day. Try again in " ++
          toString (24 - Int.tdiv (now - t) Hour) ++ " hours")), uc) ∧
      1 ≤ 24 - Int.tdiv (now - t) Hour ∧ 24 - Int.tdiv (now - t) Hour ≤ 24) ∧
    ((∀ t, lastAliasSetTime uc.db e = some t → 24 * Hour ≤ now - t) →
      SetAlias sc isProfane uc fails now e a =
        if fails 2 then (some (.internal "failed to set alias"), uc)
        else if aliasTaken sc uc.db e (TrimSpace a) then
          (some (.client "Alias already taken"), uc)
        else if fails 3 then (some (.internal "failed to log alias change"), uc)
        else if fails 4 then (some (.internal "failed to commit transaction"), uc)
        else (none, ⟨aliasSetStore uc.db now e (TrimSpace a), cacheDelete uc.cache e⟩)) := by
  refine ⟨fun t ht hle hsoon => ⟨?_, ?_⟩, ?_⟩
  · exact SetAlias_cooldown sc isProfane uc fails now e a hok hprof h0 h1 t ht hsoon
  · have hnn : 0 ≤ now - t := by omega
    rw [Int.tdiv_eq_ediv hnn (by decide)]
    unfold Hour at hsoon ⊢
    omega
  · exact SetAlias_past_cooldown sc isProfane uc fails now e a hok hprof h0 h1

/-- Witness for C24: `bob@example.com` set the alias `bob` at time 100; one hour and a
half later a new alias is refused for 23 more hours. -/
theorem C24_alias_cooldown_witness :
    SetAlias ⟨false⟩ (fun _ => false) bobAliased noFaults (100 + 5400000000000)
        "bob@example.com" "robert" =
      (some (.client "You can only set an alias once per day. Try again in 23 hours"),
        bobAliased) :=
  ((C24_alias_cooldown ⟨false⟩ (fun _ => false) bobAliased noFaults (100 + 5400000000000)
    "bob@example.com" "robert"
    ⟨by decide, by decide, by decide⟩ rfl rfl rfl).1 100 (by decide) (by decide)
    (by decide)).1


theorem dropWhile_none {α : Type} (p : α → Bool) (l : List α) (h : ∀ c ∈ l, p c = false) :
    l.dropWhile p = l := by
  cases l with
  | nil => rfl
  | cons a l =>
    rw [List.dropWhile_cons, if_neg]
    rw [h a (List.mem_cons_self _ _)]
    exact Bool.false_ne_true

theorem TrimSpace_of_aliasOk (t : String) (hok : AliasOk t) : TrimSpace t = t := by
  have hns : ∀ c ∈ t.toList, isSpace c = false := fun c hc =>
    isSpace_false_of_range c (isAliasChar_range c (hok.2.2 c hc))
  unfold TrimSpace
  rw [dropWhile_none isSpace _ hns,
    dropWhile_none isSpace _ (fun c hc => hns c (List.mem_reverse.mp hc)), List.reverse_reverse]
  rfl

theorem findActiveAlias_softDelete (db : Store) (e : String) (now : Int) :
    findActiveAlias { db with user_aliases := softDeleteAlias db.user_aliases e now } e =
      none := by
  unfold findActiveAlias softDeleteAlias
  rw [List.find?_eq_none]
  intro r hr
  rw [List.mem_map] at hr
  obtain ⟨x, _, hxr⟩ := hr
  by_cases hx : (x.user_email == e && x.deleted_at.isNone) = true
  · rw [if_pos hx] at hxr
    rw [← hxr]
    simp
  · rw [if_neg hx] at hxr
    rw [← hxr]
    exact hx

theorem lastAliasSetTime_softDelete (db : Store) (e e0 : String) (now : Int) :
    lastAliasSetTime { db with user_aliases := softDeleteAlias db.user_aliases e0 now } e =
      lastAliasSetTime db e := by
  unfold lastAliasSetTime softDeleteAlias
  congr 1
  simp only []
  induction db.user_aliases with
  | nil => rfl
  | cons x xs ih =>
    simp only [List.map_cons, List.filter_cons]
    by_cases hx : (x.user_email == e0 && x.deleted_at.isNone) = true
    · rw [if_pos hx]
      by_cases hxe : (x.user_email == e) = true
      · simp only [hxe, if_true, List.map_cons, ih]
      · simp only [hxe, if_false, Bool.false_eq_true, ih]
    · rw [if_neg hx]
      by_cases hxe : (x.user_email == e) = true
      · simp only [hxe, if_true, List.map_cons, ih]
      · simp only [hxe, if_false, Bool.false_eq_true, ih]

theorem aliasTaken_softDelete (sc : Schema) (db : Store) (e a : String) (now : Int) :
    aliasTaken sc { db with user_aliases := softDeleteAlias db.user_aliases e now } e a =
      aliasTaken sc db e a := by
  unfold aliasTaken softDeleteAlias
  simp only []
  induction db.user_aliases with
  | nil => rfl
  | cons x xs ih =>
    simp only [List.map_cons, List.any_cons, ih]
    congr 1
    by_cases hx : (x.user_email == e && x.deleted_at.isNone) = true
    · rw [if_pos hx]
      have hxe : (x.user_email == e) = true := by
        rw [Bool.and_eq_true] at hx
        exact hx.1
      simp [hxe]
    · rw [if_neg hx]

theorem findActiveAlias_upsert (db : Store) (e t : String) (now : Int) :
    findActiveAlias { db with user_aliases := upsertAlias db.user_aliases e t now } e =
      some ⟨e, t, now, none⟩ := by
  unfold findActiveAlias upsertAlias
  simp only []
  induction db.user_aliases with
  | nil => simp
  | cons x xs ih =>
    by_cases hxe : (x.user_email == e) = true
    · have hxe' : x.user_email = e := by simpa using hxe
      simp [hxe, hxe']
    · have hxf : (x.user_email == e) = false := Bool.eq_false_iff.mpr hxe
      have hany : (x :: xs).any (fun a => a.user_email == e) =
          xs.any (fun a => a.user_email == e) := by
        simp only [List.any_cons, hxf, Bool.false_or]
      rw [hany]
      by_cases hxs : xs.any (fun a => a.user_email == e) = true
      · rw [if_pos hxs] at ih ⊢
        rw [List.map_cons, List.find?_cons]
        simp only [hxf, Bool.false_eq_true, if_false, Bool.false_and]
        exact ih
      · rw [if_neg hxs] at ih ⊢
        rw [List.cons_append, List.find?_cons]
        simp only [hxf, Bool.false_and]
        exact ih


theorem RemoveAlias_noFaults (uc : UserClient) (now : Int) (e : String) (row : AliasRow)
    (hrow : findActiveAlias uc.db e = some row) :
    RemoveAlias uc noFaults now e =
      (none, ⟨aliasRemovedStore uc.db now e row.alias_, cacheDelete uc.cache e⟩) := by
  have hz : softDeleteAliasRows uc.db.user_aliases e ≠ 0 := by
    unfold softDeleteAliasRows
    unfold findActiveAlias at hrow
    have hm := List.mem_of_find?_eq_some hrow
    have hp := List.find?_some hrow
    have : row ∈ uc.db.user_aliases.filter
        (fun a => a.user_email == e && a.deleted_at.isNone) := List.mem_filter.mpr ⟨hm, hp⟩
    intro h0
    rw [List.length_eq_zero] at h0
    rw [h0] at this
    cases this
  unfold RemoveAlias
  simp [noFaults, hrow, hz, aliasRemovedStore, insertHistory]

theorem RemoveAlias_absent (uc : UserClient) (fails : Nat → Bool) (now : Int) (e : String)
    (hnone : findActiveAlias uc.db e = none) :
    (RemoveAlias uc fails now e).1 ≠ none ∧ (RemoveAlias uc fails now e).2 = uc ∧
    (fails 0 = false → fails 1 = false →
      (RemoveAlias uc fails now e).1 = some (.client "No alias found to remove")) := by
  unfold RemoveAlias
  by_cases h0 : fails 0 = true
  · simp [h0]
  by_cases h1 : fails 1 = true
  · simp [h0, h1]
  simp [h0, h1, hnone]

theorem lastAliasSetTime_congr (db db' : Store) (e : String)
    (h : db'.user_aliases = db.user_aliases) :
    lastAliasSetTime db' e = lastAliasSetTime db e := by
  unfold lastAliasSetTime
  rw [h]

theorem aliasTaken_congr (sc : Schema) (db db' : Store) (e a : String)
    (h : db'.user_aliases = db.user_aliases) : aliasTaken sc db' e a = aliasTaken sc db e a := by
  unfold aliasTaken
  rw [h]

theorem findActiveAlias_congr (db db' : Store) (e : String)
    (h : db'.user_aliases = db.user_aliases) : findActiveAlias db' e = findActiveAlias db e := by
  unfold findActiveAlias
  rw [h]

/-- C25 as stated fails: `bob@example.com` set the alias `bob` at time 100 and removed
it one hour later; the next profile read shows no alias, but setting `bob` again two
hours after the first time is refused by the cooldown. -/
theorem C25_reset_within_cooldown_counterexample :
    findActiveAlias bobAliased.db "bob@example.com" =
      some ⟨"bob@example.com", "bob", 100, none⟩ ∧
    (RemoveAlias bobAliased noFaults 3600000000100 "bob@example.com").1 = none ∧
    (GetUserProfile bobRemoved noFaults 3600000000200 "bob@example.com").1 =
      .ok ⟨"bob@example.com", "", 0, 0, 0, 3600000000200, 3600000000200⟩ ∧
    SetAlias ⟨false⟩ (fun _ => false)
        (GetUserProfile bobRemoved noFaults 3600000000200 "bob@example.com").2 noFaults
        7200000000100 "bob@example.com" "bob" =
      (some (.client "You can only set an alias once per day. Try again in 22 hours"),
        (GetUserProfile bobRemoved noFaults 3600000000200 "bob@example.com").2) :=
  ⟨by decide, by decide, rfl, by decide⟩

/-- C25 amended. For a user with the active alias `a`: `RemoveAlias` without driver
faults succeeds; every profile the next `GetUserProfile` returns has the empty alias; and
a following `SetAlias` with the name `a` succeeds and makes `a` the active alias again
provided `a` passes validation, no other user's row blocks it under the unique
constraint, no driver call fails, and the latest `created_at` of the user's alias rows
lies at least 24 hours back.  For a user with no active alias `RemoveAlias` fails and
changes nothing, with the client error `No alias found to remove` when the transaction
begins and the query succeeds. -/
theorem C25_remove_then_set (sc : Schema) (isProfane : String → Bool) (uc : UserClient)
    (e : String) :
    (∀ row, findActiveAlias uc.db e = some row → ∀ (now1 now2 : Int) (pf : Nat → Bool),
      RemoveAlias uc noFaults now1 e =
        (none, ⟨aliasRemovedStore uc.db now1 e row.alias_, cacheDelete uc.cache e⟩) ∧
      (∀ p, (GetUserProfile (RemoveAlias uc noFaults now1 e).2 pf now2 e).1 = .ok p →
        p.Alias = "") ∧
      (AliasOk row.alias_ → isProfane row.alias_ = false →
        aliasTaken sc uc.db e row.alias_ = false →
        ∀ now3 : Int, (∀ t, lastAliasSetTime uc.db e = some t → 24 * Hour ≤ now3 - t) →
          (SetAlias sc isProfane (GetUserProfile (RemoveAlias uc noFaults now1 e).2 pf now2 e).2
            noFaults now3 e row.alias_).1 = none ∧
          findActiveAlias
            (SetAlias sc isProfane (GetUserProfile (RemoveAlias uc noFaults now1 e).2 pf now2 e).2
              noFaults now3 e row.alias_).2.db e = some ⟨e, row.alias_, now3, none⟩)) ∧
    (findActiveAlias uc.db e = none → ∀ (fails : Nat → Bool) (now : Int),
      (RemoveAlias uc fails now e).1 ≠ none ∧ (RemoveAlias uc fails now e).2 = uc ∧
      (fails 0 = false → fails 1 = false →
        (RemoveAlias uc fails now e).1 = some (.client "No alias found to remove"))) := by
  refine ⟨fun row hrow now1 now2 pf => ?_, fun hnone fails now =>
    RemoveAlias_absent uc fails now e hnone⟩
  have hrem := RemoveAlias_noFaults uc now1 e row hrow
  rw [hrem]
  have hal : (aliasRemovedStore uc.db now1 e row.alias_).user_aliases =
      softDeleteAlias uc.db.user_aliases e now1 := rfl
  have hact1 : findActiveAlias (aliasRemovedStore uc.db now1 e row.alias_) e = none :=
    findActiveAlias_softDelete uc.db e now1
  have hdb := GetUserProfile_db
    ⟨aliasRemovedStore uc.db now1 e row.alias_, cacheDelete uc.cache e⟩ pf now2 e
  obtain ⟨_, _, _, hali, _⟩ := hdb
  refine ⟨rfl, fun p hp => ?_, fun hok hprof htaken now3 hpast => ?_⟩
  · rcases GetUserProfile_cases
      ⟨aliasRemovedStore uc.db now1 e row.alias_, cacheDelete uc.cache e⟩ pf now2 e with
      ⟨q, hc, _⟩ | ⟨_, err, hr⟩ | ⟨u, _, _, hr⟩ | ⟨_, _, hr⟩
    · rw [cacheGet_cacheDelete] at hc
      cases hc
    · rw [hr] at hp
      cases hp
    · rw [hr] at hp
      have hpq := Except.ok.inj hp
      rw [← hpq]
      simp only [profileOfRow, hact1]
    · rw [hr] at hp
      have hpq := Except.ok.inj hp
      rw [← hpq]
  · have hali' : (GetUserProfile
        ⟨aliasRemovedStore uc.db now1 e row.alias_, cacheDelete uc.cache e⟩ pf now2 e).2.db.user_aliases
        = (⟨uc.db.users, softDeleteAlias uc.db.user_aliases e now1,
            uc.db.user_challenges_completed, uc.db.user_history_log, uc.db.challenges,
            uc.db.flags⟩ : Store).user_aliases := hali
    have hlast : ∀ t, lastAliasSetTime (GetUserProfile
        ⟨aliasRemovedStore uc.db now1 e row.alias_, cacheDelete uc.cache e⟩ pf now2 e).2.db e =
        some t → 24 * Hour ≤ now3 - t := by
      intro t ht
      rw [lastAliasSetTime_congr _ _ e hali', lastAliasSetTime_softDelete] at ht
      exact hpast t ht
    have htk : aliasTaken sc (GetUserProfile
        ⟨aliasRemovedStore uc.db now1 e row.alias_, cacheDelete uc.cache e⟩ pf now2 e).2.db e
        row.alias_ = false := by
      rw [aliasTaken_congr sc _ _ e row.alias_ hali', aliasTaken_softDelete]
      exact htaken
    have htrim := TrimSpace_of_aliasOk row.alias_ hok
    have hset := SetAlias_past_cooldown sc isProfane (GetUserProfile
        ⟨aliasRemovedStore uc.db now1 e row.alias_, cacheDelete uc.cache e⟩ pf now2 e).2
      noFaults now3 e row.alias_ (by rw [htrim]; exact hok) (by rw [htrim]; exact hprof)
      rfl rfl hlast
    rw [htrim, htk] at hset
    simp only [noFaults, Bool.false_eq_true, if_false] at hset
    rw [hset]
    exact ⟨rfl, findActiveAlias_upsert _ e row.alias_ now3⟩

/-- Witness for C25 amended: `bob@example.com` removes the alias `bob` one hour after
setting it at time 100 and sets it again a day after the first time. -/
theorem C25_remove_then_set_witness :
    (SetAlias ⟨false⟩ (fun _ => false)
      (GetUserProfile (RemoveAlias bobAliased noFaults 3600000000100 "bob@example.com").2
        noFaults 3600000000200 "bob@example.com").2
      noFaults 86400000000100 "bob@example.com" "bob").1 = none :=
  (((C25_remove_then_set ⟨false⟩ (fun _ => false) bobAliased "bob@example.com").1
    ⟨"bob@example.com", "bob", 100, none⟩ (by decide) 3600000000100 3600000000200
    noFaults).2.2 ⟨by decide, by decide, by decide⟩ rfl (by decide) 86400000000100
    (fun t ht => by
      have h100 : t = 100 := by
        have hl : lastAliasSetTime bobAliased.db "bob@example.com" = some 100 := by decide
        rw [hl] at ht
        exact (Option.some.inj ht).symm
      rw [h100]
      decide)).1

/-! ## Token accounting of an exam submission -/

theorem check_not_completed (db : Store) (e : String) (c : Int)
    (h : hasCompleted db.user_challenges_completed e c = false) :
    CheckUserCompletedChallenge db false e c = .ok (false, 0) := by
  unfold CheckUserCompletedChallenge
  have hf : db.user_challenges_completed.find?
      (fun r => r.user_email == e && r.challenge_id == c) = none := by
    rw [List.find?_eq_none]
    intro r hr hp
    unfold hasCompleted at h
    have : db.user_challenges_completed.any
        (fun r => r.user_email == e && r.challenge_id == c) = true :=
      List.any_eq_true.mpr ⟨r, hr, hp⟩
    rw [h] at this
    cases this
  simp [hf]

/-- A refund that follows a burn which returned 1: when it succeeds the user has the row
held before the burn; when it fails the burned row stays; and it succeeds when no driver
call fails and `tokens_burned` was not negative. -/
theorem refund_after_burn (uc : UserClient) (hU : UsersUnique uc.db) (e : String)
    (u : UserRow) (hu : findUser uc.db e = some u) (ht : 1 ≤ u.tokens_available)
    (rfails : Nat → Bool) (now now' : Int) (c c' : Int) :
    ((RefundToken ⟨burnedStore uc.db now e c, cacheDelete uc.cache e⟩ rfails now' e c').1 =
        none →
      findUser (RefundToken ⟨burnedStore uc.db now e c, cacheDelete uc.cache e⟩ rfails now'
        e c').2.db e = some u) ∧
    ((RefundToken ⟨burnedStore uc.db now e c, cacheDelete uc.cache e⟩ rfails now' e c').1 ≠
        none →
      findUser (RefundToken ⟨burnedStore uc.db now e c, cacheDelete uc.cache e⟩ rfails now'
        e c').2.db e =
        some { u with tokens_available := u.tokens_available - 1,
                      tokens_burned := u.tokens_burned + 1 }) ∧
    (0 ≤ u.tokens_burned → rfails = noFaults →
      (RefundToken ⟨burnedStore uc.db now e c, cacheDelete uc.cache e⟩ rfails now' e c').1 =
        none) := by
  have hfb : findUser (burnedStore uc.db now e c) e =
      some { u with tokens_available := u.tokens_available - 1,
                    tokens_burned := u.tokens_burned + 1 } :=
    burnUpdate_find _ _ _ hu ht
  have hUb : UsersUnique (burnedStore uc.db now e c) := by
    unfold UsersUnique burnedStore
    simp only []
    rw [burnUpdate_emails]
    exact hU
  refine ⟨fun hok => ?_, fun hne => ?_, fun hb hrf => ?_⟩
  · rcases RefundToken_cases ⟨burnedStore uc.db now e c, cacheDelete uc.cache e⟩ rfails now'
      e c' with ⟨hne, _⟩ | ⟨_, hany, hst⟩
    · exact absurd hok hne
    · obtain ⟨u', hu', hge⟩ := (any_refundable_iff _ hUb e).1 hany
      have hu'' : findUser (burnedStore uc.db now e c) e = some u' := hu'
      rw [hfb] at hu''
      have huu := Option.some.inj hu''
      rw [← huu] at hge
      rw [hst]
      have := refundUpdate_find _ e _ hfb hge
      unfold findUser refundedStore
      simp only []
      rw [this]
      cases u
      simp
  · rcases RefundToken_cases ⟨burnedStore uc.db now e c, cacheDelete uc.cache e⟩ rfails now'
      e c' with ⟨_, hst⟩ | ⟨hok, _, _⟩
    · rw [hst]
      exact hfb
    · exact absurd hok hne
  · have hany : (burnedStore uc.db now e c).users.any (refundable e) = true :=
      (any_refundable_iff _ hUb e).2 ⟨_, hfb, by simp only; omega⟩
    rw [hrf, RefundToken_noFaults]
    simp only [hany, if_true]

/-- C28 as stated fails: `ann@example.com` owns one token and submits the right flag for
the first exam challenge; fetching the challenge fails after the burn and the refund
fails too, which the handler only logs: the answer is 500 and her row keeps 0 tokens
available and 1 burned instead of the 1 and 0 held before the request. -/
theorem C28_failed_refund_counterexample :
    findUser examClient.db "ann@example.com" =
      some ⟨"ann@example.com", 1, 0, 10, 0, 100, 100⟩ ∧
    (SubmitExamChallenge examClient (ValidateFlag demoFlagEnv)
      ⟨noFaults, false, false, noFaults, true, false, noFaults, fun _ => true⟩ 600
      (some "ann@example.com") "1" (some "flag-seven")).1 = internalError ∧
    findUser (SubmitExamChallenge examClient (ValidateFlag demoFlagEnv)
      ⟨noFaults, false, false, noFaults, true, false, noFaults, fun _ => true⟩ 600
      (some "ann@example.com") "1" (some "flag-seven")).2.db "ann@example.com" =
      some ⟨"ann@example.com", 0, 1, 10, 0, 100, 100⟩ :=
  ⟨by decide, by decide, by decide⟩

/-- C28 amended. In `SubmitExamChallenge`, for an accessible exam challenge that the user
has not completed (the path variable and the flag pass their checks, the profile read and
the lookups succeed), on a store with one `users` row per e-mail where the user's row is
`u`: when `BurnToken` returns 0 the handler ends in the state left by the profile read,
for every flag validator, so no flag is judged and nothing is completed, and without burn
error the answer is the insufficient-tokens message; when it returns 1 the row had
`tokens_available >= 1` and (wrong flag) the row ends with `tokens_available - 1`,
`tokens_burned + 1` and the other columns, `exam_challenges_solved` included, unchanged,
no completion is recorded and the answer reports 1 token burned; (correct flag, completion
recorded) the row ends with `tokens_available` as before, `tokens_burned + 1` and
`exam_challenges_solved + 1`; (fetching the challenge fails, or the flag is correct and
recording the completion fails) the handler ends in the state left by `RefundToken`: when
the refund succeeds the row is the one held before the request, when the refund fails the
burned row stays, and the refund succeeds when it meets no driver fault and
`tokens_burned` was not negative. -/
theorem C28_exam_submission (uc : UserClient)
    (validateFlag : String → String → String → String → Bool × String)
    (f : SubmitFaults) (now : Int) (e id body flag : String) (N : Int)
    (profile : UserProfile) (uc1 : UserClient) (row : ChallengeRow) (u : UserRow)
    (hid : validateChallengeID id = .ok N)
    (hflag : SanitizeFlag body = .ok flag)
    (hprof : GetUserProfile uc f.profile now e = (.ok profile, uc1))
    (hacc : N ≤ profile.ExamChallengesSolved + 1)
    (hlook : f.lookup = false)
    (hrow : findExamChallenge uc1.db N = some row)
    (hcheck : f.check = false)
    (hnot : hasCompleted uc1.db.user_challenges_completed e row.id = false)
    (hU : UsersUnique uc1.db)
    (hu : findUser uc1.db e = some u) :
    ((BurnToken uc1 f.burn now e row.id).1.1 = 0 →
      (SubmitExamChallenge uc validateFlag f now (some e) id (some body)).2 = uc1 ∧
      ((BurnToken uc1 f.burn now e row.id).1.2 = none →
        (SubmitExamChallenge uc validateFlag f now (some e) id (some body)).1 =
          .submit ⟨"Insufficient tokens. Each exam submission costs 1 token.",
            none, none, none, none⟩)) ∧
    ((BurnToken uc1 f.burn now e row.id).1.1 = 1 →
      1 ≤ u.tokens_available ∧
      (∀ fr, GetChallengeFlagAndReward (BurnToken uc1 f.burn now e row.id).2.db f.fetch
          row.id = .ok fr →
        (validateFlag flag fr.flagValue fr.validationHandler e).1 = false →
        findUser (SubmitExamChallenge uc validateFlag f now (some e) id (some body)).2.db e =
          some { u with tokens_available := u.tokens_available - 1,
                        tokens_burned := u.tokens_burned + 1 } ∧
        (SubmitExamChallenge uc validateFlag f now (some e) id
          (some body)).2.db.user_challenges_completed = uc1.db.user_challenges_completed ∧
        ∃ msg, (SubmitExamChallenge uc validateFlag f now (some e) id (some body)).1 =
          .submit ⟨msg, none, some 1, none, none⟩) ∧
      (∀ fr, GetChallengeFlagAndReward (BurnToken uc1 f.burn now e row.id).2.db f.fetch
          row.id = .ok fr →
        (validateFlag flag fr.flagValue fr.validationHandler e).1 = true →
        (CompleteExamChallenge (BurnToken uc1 f.burn now e row.id).2 f.complete now e
          row.id).1 = none →
        findUser (SubmitExamChallenge uc validateFlag f now (some e) id (some body)).2.db e =
          some { u with tokens_burned := u.tokens_burned + 1,
                        exam_challenges_solved := u.exam_challenges_solved + 1,
                        last_exam_challenge_solved_timestamp := now } ∧
        (SubmitExamChallenge uc validateFlag f now (some e) id (some body)).1 =
          .submit ⟨"Exam challenge completed successfully!", none, some 1, some 1, some 0⟩) ∧
      (((∃ err, GetChallengeFlagAndReward (BurnToken uc1 f.burn now e row.id).2.db f.fetch
            row.id = .error err) ∨
          (∃ fr, GetChallengeFlagAndReward (BurnToken uc1 f.burn now e row.id).2.db f.fetch
              row.id = .ok fr ∧
            (validateFlag flag fr.flagValue fr.validationHandler e).1 = true ∧
            (CompleteExamChallenge (BurnToken uc1 f.burn now e row.id).2 f.complete now e
              row.id).1 ≠ none)) →
        (SubmitExamChallenge uc validateFlag f now (some e) id (some body)).2 =
          (RefundToken (BurnToken uc1 f.burn now e row.id).2 f.refund now e row.id).2 ∧
        ((RefundToken (BurnToken uc1 f.burn now e row.id).2 f.refund now e row.id).1 = none →
          findUser (SubmitExamChallenge uc validateFlag f now (some e) id
            (some body)).2.db e = some u) ∧
        ((RefundToken (BurnToken uc1 f.burn now e row.id).2 f.refund now e row.id).1 ≠ none →
          findUser (SubmitExamChallenge uc validateFlag f now (some e) id
            (some body)).2.db e =
            some { u with tokens_available := u.tokens_available - 1,
                          tokens_burned := u.tokens_burned + 1 }) ∧
        (0 ≤ u.tokens_burned → f.refund = noFaults →
          (RefundToken (BurnToken uc1 f.burn now e row.id).2 f.refund now e row.id).1 =
            none))) := by
  have hgt : ¬ N > profile.ExamChallengesSolved + 1 := by omega
  have hchk : CheckUserCompletedChallenge uc1.db f.check e row.id = .ok (false, 0) := by
    rw [hcheck]
    exact check_not_completed _ _ _ hnot
  constructor
  · intro hzero
    rcases BurnToken_cases uc1 f.burn now e row.id with ⟨_, hst⟩ | ⟨hone, _, _⟩
    swap
    · rw [hone] at hzero
      cases hzero
    rcases hb : BurnToken uc1 f.burn now e row.id with ⟨⟨tb, err⟩, uc2⟩
    rw [hb] at hst hzero
    simp only at hst hzero
    subst hst hzero
    cases err with
    | none =>
      simp [SubmitExamChallenge, hid, hflag, hprof, hgt, hlook, hrow, hchk, hb]
    | some x =>
      simp [SubmitExamChallenge, hid, hflag, hprof, hgt, hlook, hrow, hchk, hb]
  · intro hone
    rcases BurnToken_cases uc1 f.burn now e row.id with ⟨hz, _⟩ | ⟨hb1, hany, hst⟩
    · rw [hz] at hone
      cases hone
    obtain ⟨u', hu', ht⟩ := (any_burnable_iff uc1.db hU e).1 hany
    rw [hu] at hu'
    cases hu'
    have hb : BurnToken uc1 f.burn now e row.id =
        ((1, none), ⟨burnedStore uc1.db now e row.id, cacheDelete uc1.cache e⟩) :=
      Prod.ext hb1 hst
    have hfb : findUser (burnedStore uc1.db now e row.id) e =
        some { u with tokens_available := u.tokens_available - 1,
                      tokens_burned := u.tokens_burned + 1 } :=
      burnUpdate_find _ _ _ hu ht
    rw [hb]
    simp only []
    refine ⟨ht, fun fr hfr hv => ?_, fun fr hfr hv hc => ?_, fun hfail => ?_⟩
    · rcases hvf : validateFlag flag fr.flagValue fr.validationHandler e with ⟨isValid, msg⟩
      rw [hvf] at hv
      simp only at hv
      subst hv
      have hres : SubmitExamChallenge uc validateFlag f now (some e) id (some body) =
          (.submit ⟨if msg ≠ "" then msg else "Incorrect flag", none, some 1, none, none⟩,
            ⟨if f.logWrong then burnedStore uc1.db now e row.id else
              { burnedStore uc1.db now e row.id with user_history_log :=
                (insertHistory (burnedStore uc1.db now e row.id).user_history_log e
                  ("Wrong flag attempt for exam challenge " ++ toString N ++ ": " ++ flag)
                  now) }, cacheDelete uc1.cache e⟩) := by
        simp [SubmitExamChallenge, hid, hflag, hprof, hgt, hlook, hrow, hchk, hb, hfr, hvf]
      rw [hres]
      refine ⟨?_, ?_, _, rfl⟩
      · by_cases hl : f.logWrong = true
        · simp only [hl, if_true]
          exact hfb
        · simp only [hl, if_false]
          exact hfb
      · by_cases hl : f.logWrong = true
        · simp only [hl, if_true]
          rfl
        · simp only [hl, if_false]
          rfl
    · rcases hvf : validateFlag flag fr.flagValue fr.validationHandler e with ⟨isValid, msg⟩
      rw [hvf] at hv
      simp only at hv
      subst hv
      rcases CompleteExamChallenge_cases
          ⟨burnedStore uc1.db now e row.id, cacheDelete uc1.cache e⟩ f.complete now e row.id
        with ⟨hne, _⟩ | ⟨_, _, hcst⟩
      · exact absurd hc hne
      rcases hce : CompleteExamChallenge
          ⟨burnedStore uc1.db now e row.id, cacheDelete uc1.cache e⟩ f.complete now e row.id
        with ⟨cerr, uc3⟩
      rw [hce] at hc hcst
      simp only at hc hcst
      subst hc hcst
      have hres : SubmitExamChallenge uc validateFlag f now (some e) id (some body) =
          (.submit ⟨"Exam challenge completed successfully!", none, some 1, some 1, some 0⟩,
            ⟨examCompletedStore (burnedStore uc1.db now e row.id) now e row.id,
              cacheDelete (cacheDelete uc1.cache e) e⟩) := by
        simp [SubmitExamChallenge, hid, hflag, hprof, hgt, hlook, hrow, hchk, hb, hfr, hvf,
          hce]
      rw [hres]
      refine ⟨?_, rfl⟩
      have := upsertExamCompletion_find_some _ e now _ hfb
      unfold findUser examCompletedStore
      simp only []
      rw [this]
      cases u
      simp
    · obtain ⟨hr1, hr2, hr3⟩ :=
        refund_after_burn uc1 hU e u hu ht f.refund now now row.id row.id
      have hres : (SubmitExamChallenge uc validateFlag f now (some e) id (some body)).2 =
          (RefundToken ⟨burnedStore uc1.db now e row.id, cacheDelete uc1.cache e⟩ f.refund
            now e row.id).2 := by
        rcases hfail with ⟨err, hfr⟩ | ⟨fr, hfr, hv, hc⟩
        · by_cases herr : err = .noRows
          · simp [SubmitExamChallenge, hid, hflag, hprof, hgt, hlook, hrow, hchk, hb, hfr,
              herr]
          · simp [SubmitExamChallenge, hid, hflag, hprof, hgt, hlook, hrow, hchk, hb, hfr,
              herr]
        · rcases hvf : validateFlag flag fr.flagValue fr.validationHandler e with
            ⟨isValid, msg⟩
          rw [hvf] at hv
          simp only at hv
          subst hv
          rcases CompleteExamChallenge_cases
              ⟨burnedStore uc1.db now e row.id, cacheDelete uc1.cache e⟩ f.complete now e
              row.id with ⟨_, hcst⟩ | ⟨hok, _, _⟩
          swap
          · exact absurd hok hc
          rcases hce : CompleteExamChallenge
              ⟨burnedStore uc1.db now e row.id, cacheDelete uc1.cache e⟩ f.complete now e
              row.id with ⟨cerr, uc3⟩
          rw [hce] at hc hcst
          simp only at hc hcst
          subst hcst
          cases cerr with
          | none => exact absurd rfl hc
          | some x =>
            simp [SubmitExamChallenge, hid, hflag, hprof, hgt, hlook, hrow, hchk, hb, hfr,
              hvf, hce]
      rw [hres]
      exact ⟨rfl, hr1, hr2, hr3⟩

/-- Witness for C28 amended: `ann@example.com` owns one token and submits a wrong flag for the
first exam challenge; her row ends with 0 tokens available and 1 burned, and no exam
challenge solved. -/
theorem C28_exam_submission_witness :
    findUser (SubmitExamChallenge examClient (ValidateFlag demoFlagEnv) noSubmitFaults 600
      (some "ann@example.com") "1" (some " guess ")).2.db "ann@example.com" =
      some ⟨"ann@example.com", 0, 1, 10, 0, 100, 100⟩ :=
  (((C28_exam_submission examClient (ValidateFlag demoFlagEnv) noSubmitFaults 600
    "ann@example.com" "1" " guess " "guess" 1 ⟨"ann@example.com", "", 1, 10, 0, 100, 100⟩
    (GetUserProfile examClient noFaults 600 "ann@example.com").2
    ⟨7, 1, "exam-1", "first exam", "exam", 0, none, none⟩
    ⟨"ann@example.com", 1, 0, 10, 0, 100, 100⟩
    rfl rfl rfl (by decide) rfl (by decide) rfl (by decide)
    (by unfold UsersUnique; decide) (by decide)).2 (by decide)).2.1
    ⟨"flag-seven", 0, "StringEqual", "exam-1", "exam"⟩ rfl (by decide)).1

/-! ## Exam challenges and the general endpoints -/

theorem findGeneralChallenge_exam (db : Store) (cid : Int)
    (hexam : ∀ c ∈ db.challenges, c.id = cid → c.category = "exam") :
    findGeneralChallenge db cid = none := by
  unfold findGeneralChallenge
  rw [List.find?_eq_none]
  intro c hc hp
  simp only [Bool.and_eq_true, beq_iff_eq, Bool.not_eq_true', beq_eq_false_iff_ne, ne_eq] at hp
  exact hp.2 (hexam c hc hp.1)

theorem GetChallengeFlagAndReward_exam (db : Store) (fault : Bool) (cid : Int)
    (hexam : ∀ c ∈ db.challenges, c.id = cid → c.category = "exam") (fr : FlagAndReward)
    (h : GetChallengeFlagAndReward db fault cid = .ok fr) : fr.category = "exam" := by
  unfold GetChallengeFlagAndReward at h
  split at h
  · cases h
  · split at h
    · rename_i c fl hc hf
      have hmem := List.mem_of_find?_eq_some hc
      have hid : c.id = cid := by simpa using List.find?_some hc
      have := Except.ok.inj h
      rw [← this]
      exact hexam c hmem hid
    · cases h

/-- What holds of the general endpoints for an id all of whose challenge rows are exam
challenges: `GetChallenge` answers `Not Found` when its query succeeds; `SubmitChallenge`
leaves the client state and the Slack queue as they were, gives the same result for every
flag validator, so no flag is judged against the challenge, and answers `Not Found` when
the user has no completion record for the id and the queries succeed. -/
theorem exam_hidden_from_general_endpoints (uc : UserClient) (slack : Option SlackService)
    (getAsset : String → Option String)
    (validateFlag : String → String → String → String → Bool × String)
    (f : SubmitChallengeFaults) (now : Int) (e id : String) (body : Option String) (cid : Int)
    (hid : validateChallengeID id = .ok cid)
    (hexam : ∀ c ∈ uc.db.challenges, c.id = cid → c.category = "exam") :
    GetChallenge uc getAsset false (some e) id = notFoundError ∧
    (SubmitChallenge uc slack validateFlag f now (some e) id body).2 = (uc, slack) ∧
    (∀ validateFlag' : String → String → String → String → Bool × String,
      SubmitChallenge uc slack validateFlag' f now (some e) id body =
        SubmitChallenge uc slack validateFlag f now (some e) id body) ∧
    (∀ raw flag, body = some raw → SanitizeFlag raw = .ok flag → f.check = false →
      f.fetch = false → hasCompleted uc.db.user_challenges_completed e cid = false →
      (SubmitChallenge uc slack validateFlag f now (some e) id body).1 =
        .done notFoundError) := by
  have hget : GetChallenge uc getAsset false (some e) id = notFoundError := by
    simp [GetChallenge, hid, findGeneralChallenge_exam uc.db cid hexam]
  have hshape : ∀ vf : String → String → String → String → Bool × String,
      SubmitChallenge uc slack vf f now (some e) id body =
        match body with
        | none => (.done (.jsonError 400 "Invalid Request"), uc, slack)
        | some flag =>
        match SanitizeFlag flag with
        | .error msg => (.done (.jsonError 400 msg), uc, slack)
        | .ok _ =>
        match CheckUserCompletedChallenge uc.db f.check e cid with
        | .error _ => (.done internalError, uc, slack)
        | .ok (true, completedAt) =>
          (.done (.submit ⟨"Challenge already completed", some completedAt, none, none,
            none⟩), uc, slack)
        | .ok (false, _) =>
        match GetChallengeFlagAndReward uc.db f.fetch cid with
        | .error err =>
          if err = .noRows then (.done notFoundError, uc, slack)
          else (.done internalError, uc, slack)
        | .ok _ => (.done notFoundError, uc, slack) := by
    intro vf
    unfold SubmitChallenge
    simp only [hid]
    cases body with
    | none => rfl
    | some raw =>
      simp only []
      cases hs : SanitizeFlag raw with
      | error msg => rfl
      | ok flag =>
        simp only []
        cases hc : CheckUserCompletedChallenge uc.db f.check e cid with
        | error err => rfl
        | ok r =>
          obtain ⟨done, at_⟩ := r
          cases done with
          | true => rfl
          | false =>
            simp only []
            cases hg : GetChallengeFlagAndReward uc.db f.fetch cid with
            | error err => rfl
            | ok fr =>
              have hcat := GetChallengeFlagAndReward_exam uc.db f.fetch cid hexam fr hg
              simp only [hcat, if_true]
  refine ⟨hget, ?_, ?_, ?_⟩
  · rw [hshape]
    cases body with
    | none => rfl
    | some raw =>
      simp only []
      cases SanitizeFlag raw with
      | error msg => rfl
      | ok flag =>
        simp only []
        cases CheckUserCompletedChallenge uc.db f.check e cid with
        | error err => rfl
        | ok r =>
          obtain ⟨done, at_⟩ := r
          cases done with
          | true => rfl
          | false =>
            simp only []
            cases GetChallengeFlagAndReward uc.db f.fetch cid with
            | error err =>
              simp only []
              split <;> rfl
            | ok fr => rfl
  · intro vf'
    rw [hshape vf', hshape validateFlag]
  · intro raw flag hb hs hck hft hnc
    rw [hshape, hb]
    simp only [hs, hck, check_not_completed uc.db e cid hnc]
    cases hg : GetChallengeFlagAndReward uc.db f.fetch cid with
    | error err =>
      have herr : err = .noRows := by
        unfold GetChallengeFlagAndReward at hg
        rw [hft] at hg
        simp only [Bool.false_eq_true, if_false] at hg
        split at hg
        · cases hg
        · exact (Except.error.inj hg).symm
      simp only [herr, if_true]
    | ok fr => rfl

/-- C29 (failing input). `ann@example.com` has solved the exam challenge with id 7
through `SubmitExamChallenge`.  For that id `SubmitChallenge` answers 200 with
`Challenge already completed` and the completion time, while for the id 9, which has no
challenge, it answers 404 `Not Found`; `GetChallenge` answers `Not Found` for id 7. -/
theorem C29_completed_exam_challenge_answer :
    (SubmitExamChallenge examClient (ValidateFlag demoFlagEnv) noSubmitFaults 500
      (some "ann@example.com") "1" (some "flag-seven")).1 =
      .submit ⟨"Exam challenge completed successfully!", none, some 1, some 1, some 0⟩ ∧
    (∀ c ∈ annExamDone.db.challenges, c.id = 7 → c.category = "exam") ∧
    (∀ c ∈ annExamDone.db.challenges, c.id ≠ 9) ∧
    SubmitChallenge annExamDone none (ValidateFlag demoFlagEnv) noChallengeFaults 600
        (some "ann@example.com") "7" (some "anything") =
      (.done (.submit ⟨"Challenge already completed", some 500, none, none, none⟩),
        annExamDone, none) ∧
    SubmitChallenge annExamDone none (ValidateFlag demoFlagEnv) noChallengeFaults 600
        (some "ann@example.com") "9" (some "anything") =
      (.done notFoundError, annExamDone, none) ∧
    GetChallenge annExamDone (fun _ => none) false (some "ann@example.com") "7" =
      notFoundError := by
  refine ⟨by decide, by decide, by decide, by decide, by decide, by decide⟩

/-! ## Notifications without a configured webhook -/

/-- Five of the six notification operations return normally on the nil service and
leave it nil. -/
theorem nil_service_noop (db : Store) (fault : Bool) (text e name : String) (isPrivate : Bool)
    (stats : LeaderboardStats) :
    SendMessageAsync none text isPrivate = .done none ∧
    SendExamChallengeFailedAttempt none db fault e name = .done none ∧
    SendExamChallengeCompletion none db fault e name = .done none ∧
    SendPrivateLeaderboardUpdate none stats = .done none ∧
    SendPublicLeaderboardUpdate none stats = .done none :=
  ⟨rfl, rfl, rfl, rfl, rfl⟩

/-- On the nil service `SendChallengeCompletion` panics, whatever its arguments. -/
theorem SendChallengeCompletion_nil (db : Store) (fault : Bool) (e name : String) :
    SendChallengeCompletion none db fault e name = .panic nilDereference := rfl

/-- With the nil service `SubmitChallenge` never reaches its success response: a
submission that is judged correct and recorded ends in the panic. -/
theorem SubmitChallenge_nil_service (uc : UserClient)
    (validateFlag : String → String → String → String → Bool × String)
    (f : SubmitChallengeFaults) (now : Int) (user : Option String) (id : String)
    (body : Option String) (p : Int) :
    (SubmitChallenge uc none validateFlag f now user id body).1 ≠
      .done (.submit ⟨"Challenge completed successfully!", none, none, some 1, some p⟩) := by
  unfold SubmitChallenge
  repeat' split
  all_goals simp_all [internalError, notFoundError, SendChallengeCompletion_nil]

/-- C30 (failing input). Without webhook variables `NewSlackService` returns nil.  On
that service `SendChallengeCompletion` panics with a nil pointer dereference, and so does
`SubmitChallenge` for `bob@example.com` with the correct flag of challenge 1, after the
completion has been committed; with a configured webhook the same request reaches the
success response. -/
theorem C30_nil_service_panics :
    NewSlackService "" "" = none ∧
    SendChallengeCompletion (NewSlackService "" "") examClient.db false "bob@example.com"
      "warmup" = .panic nilDereference ∧
    SubmitChallenge examClient (NewSlackService "" "") (ValidateFlag demoFlagEnv)
        noChallengeFaults 700 (some "bob@example.com") "1" (some "flag-one") =
      (.panic nilDereference,
        (CompleteChallenge examClient noFaults 700 "bob@example.com" 10 1).2, none) ∧
    hasCompleted (CompleteChallenge examClient noFaults 700 "bob@example.com" 10
      1).2.db.user_challenges_completed "bob@example.com" 1 = true ∧
    (SubmitChallenge examClient (NewSlackService "https://hooks.example/private" "")
      (ValidateFlag demoFlagEnv) noChallengeFaults 700 (some "bob@example.com") "1"
      (some "flag-one")).1 =
      .done (.submit ⟨"Challenge completed successfully!", none, none, some 1, some 10⟩) := by
  refine ⟨by decide, by decide, by decide, by decide, by decide⟩

end Ctf
